import Mathlib

/-!
Verification of the py2pd parsing/serialization/graph subsystem.

This file is a shallow embedding, in Lean 4, of the code in
`src/py2pd/ast.py` and `src/py2pd/api.py`:

* text is modeled as `List Char`;
* Python `int` fields are modeled as `Int`;
* Python `float` fields are modeled by `PyFloat`, an exact
  signed-decimal value `m * 10^(-k)` kept in canonical form.  Python
  floats are IEEE doubles; every numeric literal appearing in a patch
  file denotes an exact decimal, and Python guarantees that
  `float(repr(x)) == x`, which is the only property of float
  parsing/printing the verified claims depend on.  The rounding of
  decimals to 53-bit doubles (and the IEEE specials inf/nan) is outside
  this exact-decimal model and is documented at the definitions below;
* Python exceptions are modeled with `Except`/`Option` results;
* mutation is modeled by explicit state passing: functions that mutate
  a `Patcher` in CPython return the new `Patcher` value here, and
  CPython object identity for graph nodes is modeled by a `nid : Nat`
  field that the `Patcher` allocates from a counter (fresh object
  allocation), with uniqueness assumed exactly where CPython identity
  would be used.
-/

namespace Py2Pd

/-- Shorthand used throughout: Python strings are lists of characters. -/
abbrev Str := List Char

/-- Characters stripped by Python `str.strip()` (the ASCII whitespace
set; the patch format is ASCII so the unicode cases cannot occur). -/
def pyIsSpace (c : Char) : Bool :=
  c == ' ' || c == '\t' || c == '\n' || c == '\x0b' || c == '\x0c' || c == '\r'

/-- Python `str.strip()` on both ends. -/
def pyStrip (s : Str) : Str :=
  ((s.dropWhile pyIsSpace).reverse.dropWhile pyIsSpace).reverse

/-- Python `str.replace(pat, rep)`: scan left to right, replace
non-overlapping occurrences, and continue scanning after the
replacement (the replacement text is never rescanned).  The `fuel`
argument makes the recursion structural; every step consumes at least
one character, so the `fuel = 0` fallback is unreachable from the
`pyReplace` entry point below. -/
def pyReplaceGo (pat rep : Str) : Nat → Str → Str
  | _, [] => []
  | 0, s => s
  | fuel + 1, c :: rest =>
    if pat ≠ [] ∧ pat.isPrefixOf (c :: rest) then
      rep ++ pyReplaceGo pat rep fuel ((c :: rest).drop pat.length)
    else
      c :: pyReplaceGo pat rep fuel rest

/-- `str.replace` entry point. -/
def pyReplace (pat rep : Str) (s : Str) : Str :=
  pyReplaceGo pat rep s.length s

/-- Python `str.split()` with no argument: split on runs of whitespace,
discarding empty pieces (used for `text.split()` in the builder API). -/
def pySplitWs (s : Str) : List Str :=
  go s []
where
  go : Str → Str → List Str
    | [], cur => if cur = [] then [] else [cur.reverse]
    | c :: rest, cur =>
      if pyIsSpace c then
        if cur = [] then go rest [] else cur.reverse :: go rest []
      else
        go rest (c :: cur)

/-- Value of an ASCII digit character. -/
def digitVal (c : Char) : Option Nat :=
  if '0' ≤ c ∧ c ≤ '9' then some (c.toNat - '0'.toNat) else none

/-- Worker for a Python numeric digit run: digits with single
underscores allowed only between digits.  Accumulates the value and the
count of actual digits seen. -/
def pyDigitRunGo : Str → Nat → Nat → Option (Nat × Nat)
  | [], acc, cnt => some (acc, cnt)
  | '_' :: rest, acc, cnt =>
    match rest with
    | [] => none
    | c :: rest2 =>
      match digitVal c with
      | some d => pyDigitRunGo rest2 (acc * 10 + d) (cnt + 1)
      | none => none
  | c :: rest, acc, cnt =>
    match digitVal c with
    | some d => pyDigitRunGo rest (acc * 10 + d) (cnt + 1)
    | none => none

/-- A non-empty Python digit run (as accepted inside `int()`), returning
its value: must start and end with a digit, single `_` separators. -/
def pyDigitRun (s : Str) : Option Nat :=
  match s with
  | [] => none
  | '_' :: _ => none
  | _ =>
    match pyDigitRunGo s 0 0 with
    | some (v, _) => some v
    | none => none

/-- A possibly-empty Python digit run, also returning how many digits it
contains (used for the fractional part of a float literal). -/
def pyDigitRunOpt (s : Str) : Option (Nat × Nat) :=
  match s with
  | [] => some (0, 0)
  | '_' :: _ => none
  | _ => pyDigitRunGo s 0 0

/-- Python `int(s)`: strip whitespace, optional sign, digit run.
(`int()` also accepts non-ASCII unicode digits, which cannot appear in
this ASCII file format.) -/
def pyInt? (s : Str) : Option Int :=
  match pyStrip s with
  | [] => none
  | '+' :: rest => (pyDigitRun rest).map Int.ofNat
  | '-' :: rest => (pyDigitRun rest).map (fun n => -(n : Int))
  | l => (pyDigitRun l).map Int.ofNat

/-- `ast._parse_int`: parse an integer, returning `default` on failure. -/
def parse_int (s : Str) (default : Int) : Int :=
  (pyInt? s).getD default

/-- Exact-decimal model of a Python float value: `m * 10^(-k)`.
Canonical form (enforced by `canonF` at every construction site):
either `k = 0`, or `m` is not divisible by 10.  Two canonical values
are structurally equal iff they denote the same rational, mirroring
float equality on the values this subsystem manipulates. -/
structure PyFloat where
  m : Int
  k : Nat
deriving DecidableEq, Repr

/-- Canonicalize a decimal `m * 10^(-k)` by removing trailing zeros. -/
def canonF : Int → Nat → PyFloat
  | m, 0 => ⟨m, 0⟩
  | m, k + 1 => if m % 10 = 0 then canonF (m / 10) k else ⟨m, k + 1⟩

/-- The zero float (`0.0`). -/
def pyF0 : PyFloat := ⟨0, 0⟩

/-- Build a `PyFloat` from integer literal data (used for defaults such
as `-1e37`): value `m * 10^e`. -/
def pyFofSci (m : Int) (e : Nat) : PyFloat := canonF (m * (10 : Int) ^ e) 0

/-- Split a list at the first character satisfying `p`, returning the
prefix and (if found) the rest after that character. -/
def splitOnFirst (p : Char → Bool) : Str → (Str × Option Str)
  | [] => ([], none)
  | c :: rest =>
    if p c then ([], some rest)
    else
      let (pre, post) := splitOnFirst p rest
      (c :: pre, post)

/-- The body of a Python float literal (no sign, no surrounding space):
`[digits] [. [digits]] [(e|E) [sign] digits]`, with at least one
mantissa digit.  The IEEE special spellings (`inf`, `nan`, …) are
accepted by CPython but lie outside the exact-decimal model and are
rejected here (see the module comment). -/
def pyFloatBody? (l : Str) : Option PyFloat :=
  let (mant, expPart) := splitOnFirst (fun c => c == 'e' || c == 'E') l
  let (intPart, fracPart) := splitOnFirst (fun c => c == '.') mant
  match pyDigitRunOpt intPart with
  | none => none
  | some (iv, ic) =>
    let fracResult : Option (Nat × Nat) :=
      match fracPart with
      | none => some (0, 0)
      | some fp => pyDigitRunOpt fp
    match fracResult with
    | none => none
    | some (fv, fc) =>
      -- at least one digit in the mantissa; a bare "." is an error,
      -- and with no "." the integer part must be non-empty
      if ic + fc = 0 then none
      else if fracPart = none ∧ ic = 0 then none
      else
        let expResult : Option Int :=
          match expPart with
          | none => some 0
          | some ('+' :: es) => (pyDigitRun es).map Int.ofNat
          | some ('-' :: es) => (pyDigitRun es).map (fun n => -(n : Int))
          | some es => (pyDigitRun es).map Int.ofNat
        match expResult with
        | none => none
        | some e =>
          let m0 : Int := Int.ofNat (iv * 10 ^ fc + fv)
          let shift : Int := e - Int.ofNat fc
          if 0 ≤ shift then some (canonF (m0 * (10 : Int) ^ shift.toNat) 0)
          else some (canonF m0 (-shift).toNat)

/-- Python `float(s)`: strip, optional sign, literal body. -/
def pyFloat? (s : Str) : Option PyFloat :=
  match pyStrip s with
  | [] => none
  | '+' :: rest => pyFloatBody? rest
  | '-' :: rest => (pyFloatBody? rest).map (fun f => ⟨-f.m, f.k⟩)
  | l => pyFloatBody? l

/-- `ast._parse_float`: parse a float, returning `default` on failure. -/
def parse_float (s : Str) (default : PyFloat) : PyFloat :=
  (pyFloat? s).getD default

/-- ASCII digit character for a value `< 10`. -/
def digitChar (d : Nat) : Char := Char.ofNat ('0'.toNat + d)

/-- Decimal digits of a positive natural, most significant first
(fuel-structured: `n` itself bounds the digit count, so the `fuel = 0`
fallback is unreachable from `natRepr`). -/
def natReprGo : Nat → Nat → Str → Str
  | _, 0, acc => acc
  | 0, _, acc => acc
  | fuel + 1, n + 1, acc =>
    natReprGo fuel ((n + 1) / 10) (digitChar ((n + 1) % 10) :: acc)

/-- Decimal representation of a natural (Python `str` on a nonnegative
int). -/
def natRepr (n : Nat) : Str :=
  if n = 0 then ['0'] else natReprGo n n []

/-- Python `str(i)` for an int. -/
def intRepr (i : Int) : Str :=
  if i < 0 then '-' :: natRepr i.natAbs else natRepr i.natAbs

/-- Rendering of a `PyFloat` as a decimal literal: always contains a
decimal point (`2.0`, `-0.5`).  CPython's `repr` of a float is the
shortest string that parses back to the same double, and switches to
scientific notation for large and small magnitudes; this printer always
uses plain positional notation.  The two printers agree on the property
the round-trip claims need: the printed text parses back to exactly the
value printed. -/
def floatRepr (f : PyFloat) : Str :=
  let sign : Str := if f.m < 0 then ['-'] else []
  let ds := natRepr f.m.natAbs
  if f.k = 0 then sign ++ ds ++ ['.', '0']
  else
    let padded := List.replicate (f.k + 1 - ds.length) '0' ++ ds
    let ip := padded.take (padded.length - f.k)
    let fp := padded.drop (padded.length - f.k)
    sign ++ ip ++ '.' :: fp

/-- `ast._tokenize`: split one statement into tokens on space/tab runs,
treating a backslash plus the following character as an opaque
two-character unit and dropping (unescaped) semicolons. -/
def tokenizeGo : Str → Str → List Str
  | [], cur => if cur = [] then [] else [cur.reverse]
  | '\\' :: d :: rest, cur => tokenizeGo rest (d :: '\\' :: cur)
  | c :: rest, cur =>
    if c = ' ' ∨ c = '\t' then
      if cur = [] then tokenizeGo rest [] else cur.reverse :: tokenizeGo rest []
    else if c = ';' then
      if cur = [] then tokenizeGo rest [] else cur.reverse :: tokenizeGo rest []
    else
      tokenizeGo rest (c :: cur)

/-- `ast._tokenize` entry point. -/
def tokenize (text : Str) : List Str := tokenizeGo text []

/-- `ast._split_statements`: cut the document at unescaped semicolons
(each statement keeps its semicolon and is stripped; empty statements
are dropped), with trailing unterminated content kept if non-empty. -/
def splitStatementsGo : Str → Str → List Str
  | [], cur =>
    let s := pyStrip cur.reverse
    if s = [] then [] else [s]
  | '\\' :: d :: rest, cur => splitStatementsGo rest (d :: '\\' :: cur)
  | c :: rest, cur =>
    if c = ';' then
      let s := pyStrip (';' :: cur).reverse
      if s = [] then splitStatementsGo rest [] else s :: splitStatementsGo rest []
    else
      splitStatementsGo rest (c :: cur)

/-- `ast._split_statements` entry point. -/
def split_statements (content : Str) : List Str := splitStatementsGo content []

/-- `ast._preprocess`: normalize line endings, then remove
backslash-newline line continuations. -/
def preprocess (content : Str) : Str :=
  pyReplace ['\\', '\n'] []
    (pyReplace ['\r'] ['\n'] (pyReplace ['\r', '\n'] ['\n'] content))

/-! ### AST node types (`ast.py`)

One Lean structure/constructor per frozen dataclass, same field names
and order.  `PdElement` is the tagged union `ast.PdElement`, with the
nested `PdSubpatch` as a constructor carrying its element list. -/

/-- `ast.Position`. -/
structure Position where
  x : Int
  y : Int
deriving DecidableEq, Repr

/-- `ast.CanvasProperties`. -/
structure CanvasProperties where
  x : Int
  y : Int
  width : Int
  height : Int
  font_size : Int
  name : Option Str
  open_on_load : Int
deriving DecidableEq, Repr

/-- Default `CanvasProperties()` (dataclass defaults). -/
def defaultCanvas : CanvasProperties :=
  ⟨0, 50, 1000, 600, 10, none, 0⟩

/-- `ast.PdRestore`. -/
structure PdRestore where
  position : Position
  name : Str
deriving DecidableEq, Repr

/-- `ast.PdElement`: the tagged union of every element kind, with
`subpatch` for the nested `ast.PdSubpatch`.  Field names and order
follow the Python dataclasses. -/
inductive PdElement where
  | obj (position : Position) (class_name : Str) (args : List Str)
  | msg (position : Position) (content : Str)
  | floatatom (position : Position) (width : Int) (lower_limit upper_limit : PyFloat)
      (label_pos : Int) (label receive send : Str)
  | symbolatom (position : Position) (width : Int) (lower_limit upper_limit : PyFloat)
      (label_pos : Int) (label receive send : Str)
  | text (position : Position) (content : Str)
  | array (name : Str) (size : Int) (dtype : Str) (save_flag : Int)
  | connect (source_id outlet_id sink_id inlet_id : Int)
  | coords (x_from y_from x_to y_to : PyFloat) (width height : Int)
      (graph_on_parent hide_name x_margin y_margin : Int)
  | bng (position : Position) (size hold interrupt init : Int) (send receive label : Str)
      (label_x label_y font font_size bg_color fg_color label_color : Int)
  | tgl (position : Position) (size init : Int) (send receive label : Str)
      (label_x label_y font font_size bg_color fg_color label_color
        init_value default_value : Int)
  | nbx (position : Position) (width height : Int) (min_val max_val : PyFloat)
      (log_flag init : Int) (send receive label : Str)
      (label_x label_y font font_size bg_color fg_color label_color : Int)
      (init_value : PyFloat) (log_height : Int)
  | vsl (position : Position) (width height : Int) (min_val max_val : PyFloat)
      (log_flag init : Int) (send receive label : Str)
      (label_x label_y font font_size bg_color fg_color label_color : Int)
      (init_value : PyFloat) (steady : Int)
  | hsl (position : Position) (width height : Int) (min_val max_val : PyFloat)
      (log_flag init : Int) (send receive label : Str)
      (label_x label_y font font_size bg_color fg_color label_color : Int)
      (init_value : PyFloat) (steady : Int)
  | vradio (position : Position) (size new_old init number : Int) (send receive label : Str)
      (label_x label_y font font_size bg_color fg_color label_color init_value : Int)
  | hradio (position : Position) (size new_old init number : Int) (send receive label : Str)
      (label_x label_y font font_size bg_color fg_color label_color init_value : Int)
  | cnv (position : Position) (size width height : Int) (send receive label : Str)
      (label_x label_y font font_size bg_color label_color : Int)
  | vu (position : Position) (width height : Int) (receive label : Str)
      (label_x label_y font font_size bg_color label_color scale : Int)
  | subpatch (canvas : CanvasProperties) (elements : List PdElement)
      (restore : Option PdRestore)

/-- `ast.PdPatch`: root node of a parsed patch. -/
structure PdPatch where
  canvas : CanvasProperties
  elements : List PdElement

/-- String literal helper: Lean string to `Str`. -/
def chars (s : String) : Str := s.data

/-- `" ".join(parts)`. -/
def joinSpace (parts : List Str) : Str := List.intercalate [' '] parts

/-- The `ast.ParseError` cases raised by the parser (the Python message
text interpolates the offending tokens; only the case is modeled). -/
inductive ParseErr where
  | invalidCanvasLine
  | invalidObjLine
  | invalidMsgLine
  | invalidFloatatomLine
  | invalidSymbolatomLine
  | invalidTextLine
  | invalidArrayLine
  | invalidConnectLine
  | invalidCoordsLine
  | invalidRestoreLine
  | elementBeforeCanvas
  | restoreWithoutCanvas
  | emptyPatchFile
  | noCanvasFound
deriving DecidableEq, Repr

/-- Token access `tokens[i]` used only where the source has bounds
guards; out-of-range access cannot occur at the guarded call sites. -/
def tk (tokens : List Str) (i : Nat) : Str := tokens.getD i []

/-- `ast._parse_canvas`: the `#N canvas` line.  Root/main form (6 or 7
fields, trailing font size) versus named sub-canvas form (8 or more
fields, name and open flag) is decided purely by token count. -/
def parse_canvas (tokens : List Str) : Except ParseErr CanvasProperties :=
  if tokens.length < 6 then .error .invalidCanvasLine
  else
    let x := parse_int (tk tokens 2) 0
    let y := parse_int (tk tokens 3) 0
    let width := parse_int (tk tokens 4) 0
    let height := parse_int (tk tokens 5) 0
    if tokens.length ≥ 8 then
      let name := tk tokens 6
      let open_on_load := if tokens.length > 7 then parse_int (tk tokens 7) 0 else 0
      .ok ⟨x, y, width, height, 10, some name, open_on_load⟩
    else
      let font_size := if tokens.length > 6 then parse_int (tk tokens 6) 0 else 10
      .ok ⟨x, y, width, height, font_size, none, 0⟩

/-- `ast._parse_obj`: the `#X obj` line, decoding the ~12 fixed-schema
GUI widget kinds when the class name matches and the argument count
meets the schema length, and otherwise producing a generic object. -/
def parse_obj (tokens : List Str) : Except ParseErr PdElement :=
  if tokens.length < 5 then .error .invalidObjLine
  else
    let pos : Position := ⟨parse_int (tk tokens 2) 0, parse_int (tk tokens 3) 0⟩
    let class_name := tk tokens 4
    let args := tokens.drop 5
    let a := fun i => tk args i
    if class_name = chars "bng" ∧ args.length ≥ 14 then
      .ok (.bng pos (parse_int (a 0) 15) (parse_int (a 1) 250) (parse_int (a 2) 50)
        (parse_int (a 3) 0)
        (if args.length > 4 then a 4 else chars "empty")
        (if args.length > 5 then a 5 else chars "empty")
        (if args.length > 6 then a 6 else chars "empty")
        (if args.length > 7 then parse_int (a 7) 17 else 17)
        (if args.length > 8 then parse_int (a 8) 7 else 7)
        (if args.length > 9 then parse_int (a 9) 0 else 0)
        (if args.length > 10 then parse_int (a 10) 10 else 10)
        (if args.length > 11 then parse_int (a 11) (-262144) else -262144)
        (if args.length > 12 then parse_int (a 12) (-1) else -1)
        (if args.length > 13 then parse_int (a 13) (-1) else -1))
    else if class_name = chars "tgl" ∧ args.length ≥ 15 then
      .ok (.tgl pos (parse_int (a 0) 15) (parse_int (a 1) 0)
        (if args.length > 2 then a 2 else chars "empty")
        (if args.length > 3 then a 3 else chars "empty")
        (if args.length > 4 then a 4 else chars "empty")
        (if args.length > 5 then parse_int (a 5) 17 else 17)
        (if args.length > 6 then parse_int (a 6) 7 else 7)
        (if args.length > 7 then parse_int (a 7) 0 else 0)
        (if args.length > 8 then parse_int (a 8) 10 else 10)
        (if args.length > 9 then parse_int (a 9) (-262144) else -262144)
        (if args.length > 10 then parse_int (a 10) (-1) else -1)
        (if args.length > 11 then parse_int (a 11) (-1) else -1)
        (if args.length > 12 then parse_int (a 12) 0 else 0)
        (if args.length > 13 then parse_int (a 13) 0 else 0))
    else if class_name = chars "nbx" ∧ args.length ≥ 18 then
      .ok (.nbx pos (parse_int (a 0) 5) (parse_int (a 1) 14)
        (parse_float (a 2) (pyFofSci (-1) 37)) (parse_float (a 3) (pyFofSci 1 37))
        (parse_int (a 4) 0) (parse_int (a 5) 0)
        (if args.length > 6 then a 6 else chars "empty")
        (if args.length > 7 then a 7 else chars "empty")
        (if args.length > 8 then a 8 else chars "empty")
        (parse_int (a 9) 0) (parse_int (a 10) (-8)) (parse_int (a 11) 0)
        (parse_int (a 12) 10) (parse_int (a 13) (-262144)) (parse_int (a 14) (-1))
        (parse_int (a 15) (-1)) (parse_float (a 16) pyF0) (parse_int (a 17) 256))
    else if class_name = chars "vsl" ∧ args.length ≥ 18 then
      .ok (.vsl pos (parse_int (a 0) 15) (parse_int (a 1) 128)
        (parse_float (a 2) pyF0) (parse_float (a 3) ⟨127, 0⟩)
        (parse_int (a 4) 0) (parse_int (a 5) 0)
        (if args.length > 6 then a 6 else chars "empty")
        (if args.length > 7 then a 7 else chars "empty")
        (if args.length > 8 then a 8 else chars "empty")
        (parse_int (a 9) 0) (parse_int (a 10) (-9)) (parse_int (a 11) 0)
        (parse_int (a 12) 10) (parse_int (a 13) (-262144)) (parse_int (a 14) (-1))
        (parse_int (a 15) (-1)) (parse_float (a 16) pyF0) (parse_int (a 17) 1))
    else if class_name = chars "hsl" ∧ args.length ≥ 18 then
      .ok (.hsl pos (parse_int (a 0) 128) (parse_int (a 1) 15)
        (parse_float (a 2) pyF0) (parse_float (a 3) ⟨127, 0⟩)
        (parse_int (a 4) 0) (parse_int (a 5) 0)
        (if args.length > 6 then a 6 else chars "empty")
        (if args.length > 7 then a 7 else chars "empty")
        (if args.length > 8 then a 8 else chars "empty")
        (parse_int (a 9) (-2)) (parse_int (a 10) (-8)) (parse_int (a 11) 0)
        (parse_int (a 12) 10) (parse_int (a 13) (-262144)) (parse_int (a 14) (-1))
        (parse_int (a 15) (-1)) (parse_float (a 16) pyF0) (parse_int (a 17) 1))
    else if class_name = chars "vradio" ∧ args.length ≥ 15 then
      .ok (.vradio pos (parse_int (a 0) 15) (parse_int (a 1) 0) (parse_int (a 2) 0)
        (parse_int (a 3) 8)
        (if args.length > 4 then a 4 else chars "empty")
        (if args.length > 5 then a 5 else chars "empty")
        (if args.length > 6 then a 6 else chars "empty")
        (parse_int (a 7) 0) (parse_int (a 8) (-8)) (parse_int (a 9) 0)
        (parse_int (a 10) 10) (parse_int (a 11) (-262144)) (parse_int (a 12) (-1))
        (parse_int (a 13) (-1)) (parse_int (a 14) 0))
    else if class_name = chars "hradio" ∧ args.length ≥ 15 then
      .ok (.hradio pos (parse_int (a 0) 15) (parse_int (a 1) 0) (parse_int (a 2) 0)
        (parse_int (a 3) 8)
        (if args.length > 4 then a 4 else chars "empty")
        (if args.length > 5 then a 5 else chars "empty")
        (if args.length > 6 then a 6 else chars "empty")
        (parse_int (a 7) 0) (parse_int (a 8) (-8)) (parse_int (a 9) 0)
        (parse_int (a 10) 10) (parse_int (a 11) (-262144)) (parse_int (a 12) (-1))
        (parse_int (a 13) (-1)) (parse_int (a 14) 0))
    else if class_name = chars "cnv" ∧ args.length ≥ 13 then
      .ok (.cnv pos (parse_int (a 0) 15) (parse_int (a 1) 100) (parse_int (a 2) 60)
        (if args.length > 3 then a 3 else chars "empty")
        (if args.length > 4 then a 4 else chars "empty")
        (if args.length > 5 then a 5 else chars "empty")
        (parse_int (a 6) 20) (parse_int (a 7) 12) (parse_int (a 8) 0)
        (parse_int (a 9) 14) (parse_int (a 10) (-233017)) (parse_int (a 11) (-1)))
    else if class_name = chars "vu" ∧ args.length ≥ 12 then
      .ok (.vu pos (parse_int (a 0) 15) (parse_int (a 1) 120)
        (if args.length > 2 then a 2 else chars "empty")
        (if args.length > 3 then a 3 else chars "empty")
        (parse_int (a 4) (-1)) (parse_int (a 5) (-8)) (parse_int (a 6) 0)
        (parse_int (a 7) 10) (parse_int (a 8) (-262144)) (parse_int (a 9) (-1))
        (parse_int (a 10) 1))
    else
      .ok (.obj pos class_name args)

/-- `ast._parse_msg`. -/
def parse_msg (tokens : List Str) : Except ParseErr PdElement :=
  if tokens.length < 4 then .error .invalidMsgLine
  else
    let pos : Position := ⟨parse_int (tk tokens 2) 0, parse_int (tk tokens 3) 0⟩
    let content := if tokens.length > 4 then joinSpace (tokens.drop 4) else []
    .ok (.msg pos content)

/-- `ast._parse_floatatom`. -/
def parse_floatatom (tokens : List Str) : Except ParseErr PdElement :=
  if tokens.length < 4 then .error .invalidFloatatomLine
  else
    let pos : Position := ⟨parse_int (tk tokens 2) 0, parse_int (tk tokens 3) 0⟩
    let width := if tokens.length > 4 then parse_int (tk tokens 4) 5 else 5
    let lower := if tokens.length > 5 then parse_float (tk tokens 5) pyF0 else pyF0
    let upper := if tokens.length > 6 then parse_float (tk tokens 6) pyF0 else pyF0
    let label_pos := if tokens.length > 7 then parse_int (tk tokens 7) 0 else 0
    let label := if tokens.length > 8 then tk tokens 8 else chars "-"
    let receive := if tokens.length > 9 then tk tokens 9 else chars "-"
    let send := if tokens.length > 10 then tk tokens 10 else chars "-"
    .ok (.floatatom pos width lower upper label_pos label receive send)

/-- `ast._parse_symbolatom`. -/
def parse_symbolatom (tokens : List Str) : Except ParseErr PdElement :=
  if tokens.length < 4 then .error .invalidSymbolatomLine
  else
    let pos : Position := ⟨parse_int (tk tokens 2) 0, parse_int (tk tokens 3) 0⟩
    let width := if tokens.length > 4 then parse_int (tk tokens 4) 10 else 10
    let lower := if tokens.length > 5 then parse_float (tk tokens 5) pyF0 else pyF0
    let upper := if tokens.length > 6 then parse_float (tk tokens 6) pyF0 else pyF0
    let label_pos := if tokens.length > 7 then parse_int (tk tokens 7) 0 else 0
    let label := if tokens.length > 8 then tk tokens 8 else chars "-"
    let receive := if tokens.length > 9 then tk tokens 9 else chars "-"
    let send := if tokens.length > 10 then tk tokens 10 else chars "-"
    .ok (.symbolatom pos width lower upper label_pos label receive send)

/-- `ast._parse_text`. -/
def parse_text (tokens : List Str) : Except ParseErr PdElement :=
  if tokens.length < 4 then .error .invalidTextLine
  else
    let pos : Position := ⟨parse_int (tk tokens 2) 0, parse_int (tk tokens 3) 0⟩
    let content := if tokens.length > 4 then joinSpace (tokens.drop 4) else []
    .ok (.text pos content)

/-- `ast._parse_array`. -/
def parse_array (tokens : List Str) : Except ParseErr PdElement :=
  if tokens.length < 5 then .error .invalidArrayLine
  else
    let name := tk tokens 2
    let size := parse_int (tk tokens 3) 0
    let dtype := if tokens.length > 4 then tk tokens 4 else chars "float"
    let save_flag := if tokens.length > 5 then parse_int (tk tokens 5) 0 else 0
    .ok (.array name size dtype save_flag)

/-- `ast._parse_connect`. -/
def parse_connect (tokens : List Str) : Except ParseErr PdElement :=
  if tokens.length < 6 then .error .invalidConnectLine
  else
    .ok (.connect (parse_int (tk tokens 2) 0) (parse_int (tk tokens 3) 0)
      (parse_int (tk tokens 4) 0) (parse_int (tk tokens 5) 0))

/-- `ast._parse_coords`. -/
def parse_coords (tokens : List Str) : Except ParseErr PdElement :=
  if tokens.length < 9 then .error .invalidCoordsLine
  else
    .ok (.coords (parse_float (tk tokens 2) pyF0) (parse_float (tk tokens 3) pyF0)
      (parse_float (tk tokens 4) pyF0) (parse_float (tk tokens 5) pyF0)
      (parse_int (tk tokens 6) 0) (parse_int (tk tokens 7) 0)
      (if tokens.length > 8 then parse_int (tk tokens 8) 1 else 1)
      (if tokens.length > 9 then parse_int (tk tokens 9) 0 else 0)
      (if tokens.length > 10 then parse_int (tk tokens 10) 0 else 0)
      (if tokens.length > 11 then parse_int (tk tokens 11) 0 else 0))

/-- `ast._parse_restore`. -/
def parse_restore (tokens : List Str) : Except ParseErr PdRestore :=
  if tokens.length < 6 then .error .invalidRestoreLine
  else
    let pos : Position := ⟨parse_int (tk tokens 2) 0, parse_int (tk tokens 3) 0⟩
    let name := if tokens.length > 5 then joinSpace (tokens.drop 5) else []
    .ok ⟨pos, name⟩

/-- State of `ast.parse`'s canvas stack machine.  Python pushes and pops
at the end of a list; the stack here keeps its top at the head (the
same LIFO discipline). -/
structure ParseState where
  patch_stack : List (CanvasProperties × List PdElement)
  current_canvas : Option CanvasProperties
  current_elements : List PdElement

/-- One iteration of the statement loop in `ast.parse`. -/
def parseStep (st : ParseState) (stmt : Str) : Except ParseErr ParseState :=
  let tokens := tokenize stmt
  if tokens = [] then .ok st
  else
    let directive := tk tokens 0
    let cmd := if tokens.length > 1 then tk tokens 1 else []
    if directive = chars "#N" ∧ cmd = chars "canvas" then do
      let canvas ← parse_canvas tokens
      match st.current_canvas with
      | some cc =>
        .ok ⟨(cc, st.current_elements) :: st.patch_stack, some canvas, []⟩
      | none =>
        .ok ⟨st.patch_stack, some canvas, st.current_elements⟩
    else if directive = chars "#X" then
      match st.current_canvas with
      | none => .error .elementBeforeCanvas
      | some cc =>
        if cmd = chars "obj" then do
          let e ← parse_obj tokens
          .ok ⟨st.patch_stack, some cc, st.current_elements ++ [e]⟩
        else if cmd = chars "msg" then do
          let e ← parse_msg tokens
          .ok ⟨st.patch_stack, some cc, st.current_elements ++ [e]⟩
        else if cmd = chars "floatatom" then do
          let e ← parse_floatatom tokens
          .ok ⟨st.patch_stack, some cc, st.current_elements ++ [e]⟩
        else if cmd = chars "symbolatom" then do
          let e ← parse_symbolatom tokens
          .ok ⟨st.patch_stack, some cc, st.current_elements ++ [e]⟩
        else if cmd = chars "text" then do
          let e ← parse_text tokens
          .ok ⟨st.patch_stack, some cc, st.current_elements ++ [e]⟩
        else if cmd = chars "array" then do
          let e ← parse_array tokens
          .ok ⟨st.patch_stack, some cc, st.current_elements ++ [e]⟩
        else if cmd = chars "connect" then do
          let e ← parse_connect tokens
          .ok ⟨st.patch_stack, some cc, st.current_elements ++ [e]⟩
        else if cmd = chars "coords" then do
          let e ← parse_coords tokens
          .ok ⟨st.patch_stack, some cc, st.current_elements ++ [e]⟩
        else if cmd = chars "restore" then do
          let restore ← parse_restore tokens
          let sp : PdElement := .subpatch cc st.current_elements (some restore)
          match st.patch_stack with
          | (pc, pe) :: stack' => .ok ⟨stack', some pc, pe ++ [sp]⟩
          | [] => .error .restoreWithoutCanvas
        else if cmd = chars "pop" then
          .ok st
        else
          -- unknown command: store as generic object when long enough
          if tokens.length ≥ 4 then
            let pos : Position := ⟨parse_int (tk tokens 2) 0, parse_int (tk tokens 3) 0⟩
            .ok ⟨st.patch_stack, some cc, st.current_elements ++ [.obj pos cmd (tokens.drop 4)]⟩
          else
            .ok st
    else
      .ok st

/-- `ast.parse`: preprocess, split into statements, run the stack
machine, and return the still-open innermost canvas with its elements. -/
def parse (content : Str) : Except ParseErr PdPatch := do
  let content := preprocess content
  let statements := split_statements content
  if statements = [] then .error .emptyPatchFile
  else do
    let st ← statements.foldlM parseStep ⟨[], none, []⟩
    match st.current_canvas with
    | none => .error .noCanvasFound
    | some cv => .ok ⟨cv, st.current_elements⟩

/-! ### Serializer (`ast.serialize` and the dataclass `__str__` forms) -/

/-- `ast.Position.__str__`. -/
def posStr (p : Position) : Str := intRepr p.x ++ ' ' :: intRepr p.y

/-- `ast.CanvasProperties.__str__`: the named form when `name` is
truthy (present and non-empty), otherwise the font-size form. -/
def canvasStr (c : CanvasProperties) : Str :=
  match c.name with
  | some n =>
    if n = [] then
      joinSpace [intRepr c.x, intRepr c.y, intRepr c.width, intRepr c.height,
        intRepr c.font_size]
    else
      joinSpace [intRepr c.x, intRepr c.y, intRepr c.width, intRepr c.height,
        n, intRepr c.open_on_load]
  | none =>
    joinSpace [intRepr c.x, intRepr c.y, intRepr c.width, intRepr c.height,
      intRepr c.font_size]

/-- `ast.PdObj.text`. -/
def objText (class_name : Str) (args : List Str) : Str :=
  if args ≠ [] then class_name ++ ' ' :: joinSpace args else class_name

/-- `ast.PdRestore.__str__`. -/
def restoreStr (r : PdRestore) : Str :=
  joinSpace [chars "#X", chars "restore", posStr r.position, chars "pd", r.name] ++ [';']

mutual

/-- The `__str__` rendering of one element (for `subpatch`, the
multi-line text of `ast._serialize_subpatch`, newlines included). -/
def elemStr : PdElement → Str
  | .obj pos class_name args =>
    joinSpace [chars "#X", chars "obj", posStr pos, objText class_name args] ++ [';']
  | .msg pos content =>
    joinSpace [chars "#X", chars "msg", posStr pos, content] ++ [';']
  | .floatatom pos width lower upper label_pos label receive send =>
    joinSpace [chars "#X", chars "floatatom", posStr pos, intRepr width,
      floatRepr lower, floatRepr upper, intRepr label_pos, label, receive, send] ++ [';']
  | .symbolatom pos width lower upper label_pos label receive send =>
    joinSpace [chars "#X", chars "symbolatom", posStr pos, intRepr width,
      floatRepr lower, floatRepr upper, intRepr label_pos, label, receive, send] ++ [';']
  | .text pos content =>
    joinSpace [chars "#X", chars "text", posStr pos, content] ++ [';']
  | .array name size dtype save_flag =>
    joinSpace [chars "#X", chars "array", name, intRepr size, dtype,
      intRepr save_flag] ++ [';']
  | .connect s o k i =>
    joinSpace [chars "#X", chars "connect", intRepr s, intRepr o, intRepr k,
      intRepr i] ++ [';']
  | .coords xf yf xt yt w h gop hide xm ym =>
    joinSpace [chars "#X", chars "coords", floatRepr xf, floatRepr yf, floatRepr xt,
      floatRepr yt, intRepr w, intRepr h, intRepr gop, intRepr hide,
      intRepr xm, intRepr ym] ++ [';']
  | .bng pos size hold interrupt init send receive label lx ly font fs bg fg lc =>
    joinSpace [chars "#X", chars "obj", posStr pos, chars "bng", intRepr size,
      intRepr hold, intRepr interrupt, intRepr init, send, receive, label,
      intRepr lx, intRepr ly, intRepr font, intRepr fs, intRepr bg, intRepr fg,
      intRepr lc] ++ [';']
  | .tgl pos size init send receive label lx ly font fs bg fg lc iv dv =>
    joinSpace [chars "#X", chars "obj", posStr pos, chars "tgl", intRepr size,
      intRepr init, send, receive, label, intRepr lx, intRepr ly, intRepr font,
      intRepr fs, intRepr bg, intRepr fg, intRepr lc, intRepr iv, intRepr dv] ++ [';']
  | .nbx pos w h mn mx lf init send receive label lx ly font fs bg fg lc iv lh =>
    joinSpace [chars "#X", chars "obj", posStr pos, chars "nbx", intRepr w, intRepr h,
      floatRepr mn, floatRepr mx, intRepr lf, intRepr init, send, receive, label,
      intRepr lx, intRepr ly, intRepr font, intRepr fs, intRepr bg, intRepr fg,
      intRepr lc, floatRepr iv, intRepr lh] ++ [';']
  | .vsl pos w h mn mx lf init send receive label lx ly font fs bg fg lc iv steady =>
    joinSpace [chars "#X", chars "obj", posStr pos, chars "vsl", intRepr w, intRepr h,
      floatRepr mn, floatRepr mx, intRepr lf, intRepr init, send, receive, label,
      intRepr lx, intRepr ly, intRepr font, intRepr fs, intRepr bg, intRepr fg,
      intRepr lc, floatRepr iv, intRepr steady] ++ [';']
  | .hsl pos w h mn mx lf init send receive label lx ly font fs bg fg lc iv steady =>
    joinSpace [chars "#X", chars "obj", posStr pos, chars "hsl", intRepr w, intRepr h,
      floatRepr mn, floatRepr mx, intRepr lf, intRepr init, send, receive, label,
      intRepr lx, intRepr ly, intRepr font, intRepr fs, intRepr bg, intRepr fg,
      intRepr lc, floatRepr iv, intRepr steady] ++ [';']
  | .vradio pos size new_old init number send receive label lx ly font fs bg fg lc iv =>
    joinSpace [chars "#X", chars "obj", posStr pos, chars "vradio", intRepr size,
      intRepr new_old, intRepr init, intRepr number, send, receive, label,
      intRepr lx, intRepr ly, intRepr font, intRepr fs, intRepr bg, intRepr fg,
      intRepr lc, intRepr iv] ++ [';']
  | .hradio pos size new_old init number send receive label lx ly font fs bg fg lc iv =>
    joinSpace [chars "#X", chars "obj", posStr pos, chars "hradio", intRepr size,
      intRepr new_old, intRepr init, intRepr number, send, receive, label,
      intRepr lx, intRepr ly, intRepr font, intRepr fs, intRepr bg, intRepr fg,
      intRepr lc, intRepr iv] ++ [';']
  | .cnv pos size w h send receive label lx ly font fs bg lc =>
    joinSpace [chars "#X", chars "obj", posStr pos, chars "cnv", intRepr size,
      intRepr w, intRepr h, send, receive, label, intRepr lx, intRepr ly,
      intRepr font, intRepr fs, intRepr bg, intRepr lc, chars "0"] ++ [';']
  | .vu pos w h receive label lx ly font fs bg lc scale =>
    joinSpace [chars "#X", chars "obj", posStr pos, chars "vu", intRepr w, intRepr h,
      receive, label, intRepr lx, intRepr ly, intRepr font, intRepr fs,
      intRepr bg, intRepr lc, intRepr scale, chars "0"] ++ [';']
  | .subpatch canvas elements restore =>
    let restLines : List Str :=
      match restore with
      | some r => [restoreStr r]
      | none => []
    List.intercalate ['\n']
      ((chars "#N canvas " ++ canvasStr canvas ++ [';']) :: elemStrList elements ++ restLines)
termination_by structural e => e

/-- `str` applied to each element of a subpatch, in order. -/
def elemStrList : List PdElement → List Str
  | [] => []
  | e :: es => elemStr e :: elemStrList es
termination_by structural es => es

end

/-- `ast.serialize`: the canvas line followed by each element's line(s),
joined with newlines. -/
def serialize (patch : PdPatch) : Str :=
  List.intercalate ['\n']
    ((chars "#N canvas " ++ canvasStr patch.canvas ++ [';']) :: elemStrList patch.elements)

/-! ### Builder API (`api.py`)

The graph model.  CPython object identity of nodes is modeled by a
`nid : Nat` field allocated from the owning `Patcher`'s counter.  The
`LayoutManager` row anchors hold node references in Python; here they
hold the referenced node's `nid` and are dereferenced through the node
list, which matches reference semantics while node ids are unique (they
are, for every patch built through the API).  The optional
`GridLayoutManager` subclass and the `filename`/file-I/O plumbing are
outside the verified claims and are not modeled. -/

/-- Layout constants from the top of `api.py`. -/
def ROW_HEIGHT : Int := 25
def COLUMN_WIDTH : Int := 50
def DEFAULT_MARGIN : Int := 25
def TEXT_WRAP_WIDTH : Nat := 60
def CHAR_WIDTH : Int := 6
def MIN_ELEMENT_WIDTH : Int := 50
def ELEMENT_PADDING : Int := 20
def LINE_HEIGHT : Int := 15
def ELEMENT_BASE_HEIGHT : Int := 10
def FLOATATOM_WIDTH : Int := 50
def FLOATATOM_HEIGHT : Int := 25
def SUBPATCH_CANVAS_WIDTH : Int := 300
def SUBPATCH_CANVAS_HEIGHT : Int := 180
def IEM_BG_COLOR : Int := -262144
def IEM_FG_COLOR : Int := -1
def IEM_LABEL_COLOR : Int := -1
def IEM_DEFAULT_SIZE : Int := 15

/-- `api.escape` step for `re.sub(r"\$(?=[0-9])", r"\$", text)`:
a dollar sign followed by a digit gets a backslash (the digit is a
lookahead and is not consumed). -/
def escDollar : Str → Str
  | [] => []
  | '$' :: rest =>
    match rest with
    | c :: _ =>
      if '0' ≤ c ∧ c ≤ '9' then '\\' :: '$' :: escDollar rest
      else '$' :: escDollar rest
    | [] => ['$']
  | c :: rest => c :: escDollar rest

/-- `api.escape`. -/
def escape (text : Str) : Str :=
  escDollar (pyReplace [','] (chars " \\, ")
    (pyReplace [';'] (chars " \\; ")
      (pyReplace ['\\'] ['\\', '\\'] text)))

/-- `api.unescape` step for `re.sub(r"(?<!\\)\\\$", "$", disp)`: a
backslash-dollar pair whose backslash is not preceded by another
backslash becomes a plain dollar.  `prev` is the original character
just before the scan position (for the lookbehind). -/
def unescDollarGo (prev : Option Char) : Nat → Str → Str
  | _, [] => []
  | 0, s => s
  | fuel + 1, '\\' :: '$' :: rest2 =>
    if prev = some '\\' then '\\' :: unescDollarGo (some '\\') fuel ('$' :: rest2)
    else '$' :: unescDollarGo (some '$') fuel rest2
  | fuel + 1, c :: rest => c :: unescDollarGo (some c) fuel rest

/-- Python `str.splitlines` for text whose only line boundary is
newline (the only boundary `unescape` can produce). -/
def pySplitlines (s : Str) : List Str :=
  if s = [] then []
  else
    let parts := s.splitOn '\n'
    if parts.getLast? = some [] then parts.dropLast else parts

/-- `api.unescape`.  In the first two substitutions the negative
lookbehind `(?<!\\)` inspects the character before the backslash, which
any match forces to be the leading space of the pattern, so it always
succeeds and the patterns reduce to plain replacements. -/
def unescape (text : Str) : Str :=
  let d := pyReplace (chars " \\; ") ['\n'] text
  let d := pyReplace (chars " \\, ") [','] d
  let d := unescDollarGo none d.length d
  List.intercalate ['\n'] ((d.splitOn '\n').map pyStrip)

/-- One `re.findall` match of the wrap pattern
`[ ]*(?:.{1,W}(?:\s|$)|.{W})` at the current position of a line (which
is non-empty and contains no newline): leading spaces, then the longest
chunk of at most `W` characters ending at whitespace or at the end of
the line, else exactly `W` characters.  Returns the match and the rest
of the line. -/
def wrapMatch (s : Str) : Str × Str :=
  let sp := s.takeWhile (fun c => c == ' ')
  let r := s.drop sp.length
  if r = [] then
    -- all spaces: the quantifier backtracks one space into the chunk
    (s, [])
  else if r.length ≤ TEXT_WRAP_WIDTH then
    (sp ++ r, [])
  else
    match (List.range TEXT_WRAP_WIDTH).reverse.map (fun j => j + 1)
        |>.find? (fun k => pyIsSpace (tk' r k)) with
    | some k => (sp ++ r.take k ++ [tk' r k], r.drop (k + 1))
    | none => (sp ++ r.take TEXT_WRAP_WIDTH, r.drop TEXT_WRAP_WIDTH)
where
  /-- character at index `k` (in range at every use site). -/
  tk' (r : Str) (k : Nat) : Char := r.getD k ' '

/-- All `re.findall` matches of the wrap pattern over one line. -/
def wrapLine : Nat → Str → List Str
  | 0, _ => []
  | _, [] => []
  | fuel + 1, s =>
    let (m, rest) := wrapMatch s
    m :: wrapLine fuel rest

/-- `api.get_display_lines`: unescape, split into lines, wrap each line
at `TEXT_WRAP_WIDTH`, strip each piece and drop empty pieces. -/
def get_display_lines (text : Str) : List Str :=
  let display := unescape text
  (pySplitlines display).flatMap
    (fun line => ((wrapLine (line.length + 1) line).map pyStrip).filter (fun x => x ≠ []))

/-- `api.Connection`: an index-based patch cord. -/
structure Connection where
  source : Int
  outlet_index : Int
  sink : Int
  inlet_index : Int
deriving DecidableEq, Repr

/-- State of the default `api.LayoutManager`: row anchors (node ids
standing for CPython references) plus the spacing settings. -/
structure LayoutState where
  row_head : Option Nat
  row_tail : Option Nat
  default_margin : Int
  row_height : Int
  column_width : Int
deriving DecidableEq, Repr

/-- A fresh `api.LayoutManager()`. -/
def layoutInit : LayoutState :=
  ⟨none, none, DEFAULT_MARGIN, ROW_HEIGHT, COLUMN_WIDTH⟩

/-- `api.LayoutManager.reset`. -/
def LayoutState.reset (l : LayoutState) : LayoutState :=
  { l with row_head := none, row_tail := none }

mutual

/-- `api.Node` and its concrete subclasses, one constructor per class,
with the fields of each class's `parameters` dict (plus the identity
tag `nid` and the constructor-supplied inlet/outlet counts where the
class takes them; classes with fixed counts get them from
`ApiNode.num_inlets`/`num_outlets` below). -/
inductive ApiNode where
  | obj (nid : Nat) (x_pos y_pos : Int) (text : Str) (num_inlets num_outlets : Option Int)
  | abstraction (nid : Nat) (x_pos y_pos : Int) (text : Str)
      (num_inlets num_outlets : Option Int) (source_path : Option Str)
  | msg (nid : Nat) (x_pos y_pos : Int) (text : Str) (num_inlets num_outlets : Option Int)
  | float (nid : Nat) (x_pos y_pos width : Int) (upper_limit lower_limit : PyFloat)
      (label receive send : Str) (num_inlets num_outlets : Option Int)
  | comment (nid : Nat) (x_pos y_pos : Int) (content : Str)
  | subpatch (nid : Nat) (x_pos y_pos : Int) (name : Str) (src : Patcher)
      (num_inlets num_outlets : Option Int) (canvas_width canvas_height : Int)
      (graph_on_parent hide_name : Bool) (gop_width gop_height : Int)
  | array (nid : Nat) (name : Str) (length : Int) (element_type : Str) (save_flag : Int)
  | bang (nid : Nat) (x_pos y_pos size hold interrupt init : Int)
      (send receive label : Str)
      (label_x label_y font font_size bg_color fg_color label_color : Int)
  | toggle (nid : Nat) (x_pos y_pos size init : Int) (send receive label : Str)
      (label_x label_y font font_size bg_color fg_color label_color
        init_value default_value : Int)
  | symbol (nid : Nat) (x_pos y_pos width : Int) (lower_limit upper_limit : PyFloat)
      (label_pos : Int) (label receive send : Str)
  | numberbox (nid : Nat) (x_pos y_pos width height : Int) (min_val max_val : PyFloat)
      (log_flag init : Int) (send receive label : Str)
      (label_x label_y font font_size bg_color fg_color label_color : Int)
      (init_value : PyFloat) (log_height : Int)
  | vslider (nid : Nat) (x_pos y_pos width height : Int) (min_val max_val : PyFloat)
      (log_flag init : Int) (send receive label : Str)
      (label_x label_y font font_size bg_color fg_color label_color : Int)
      (init_value : PyFloat) (steady : Int)
  | hslider (nid : Nat) (x_pos y_pos width height : Int) (min_val max_val : PyFloat)
      (log_flag init : Int) (send receive label : Str)
      (label_x label_y font font_size bg_color fg_color label_color : Int)
      (init_value : PyFloat) (steady : Int)
  | vradio (nid : Nat) (x_pos y_pos size new_old init number : Int)
      (send receive label : Str)
      (label_x label_y font font_size bg_color fg_color label_color init_value : Int)
  | hradio (nid : Nat) (x_pos y_pos size new_old init number : Int)
      (send receive label : Str)
      (label_x label_y font font_size bg_color fg_color label_color init_value : Int)
  | canvas (nid : Nat) (x_pos y_pos size width height : Int) (send receive label : Str)
      (label_x label_y font font_size bg_color label_color : Int)
  | vu (nid : Nat) (x_pos y_pos width height : Int) (receive label : Str)
      (label_x label_y font font_size bg_color label_color scale : Int)

/-- `api.Patcher`: node list, connection list, layout state, and the
next identity tag to allocate (modeling fresh CPython allocation). -/
inductive Patcher where
  | mk (nodes : List ApiNode) (connections : List Connection)
      (layout : LayoutState) (nextId : Nat)

end

/-- Node list of a patch. -/
def Patcher.nodes : Patcher → List ApiNode
  | .mk ns _ _ _ => ns

/-- Connection list of a patch. -/
def Patcher.connections : Patcher → List Connection
  | .mk _ cs _ _ => cs

/-- Layout state of a patch. -/
def Patcher.layout : Patcher → LayoutState
  | .mk _ _ l _ => l

/-- Identity counter of a patch. -/
def Patcher.nextId : Patcher → Nat
  | .mk _ _ _ i => i

/-- `api.Patcher()`: a fresh empty patch. -/
def Patcher.new : Patcher := .mk [] [] layoutInit 0

/-- Identity tag of a node (CPython object identity). -/
def ApiNode.nid : ApiNode → Nat
  | .obj i .. => i | .abstraction i .. => i | .msg i .. => i | .float i .. => i
  | .comment i .. => i | .subpatch i .. => i | .array i .. => i | .bang i .. => i
  | .toggle i .. => i | .symbol i .. => i | .numberbox i .. => i | .vslider i .. => i
  | .hslider i .. => i | .vradio i .. => i | .hradio i .. => i | .canvas i .. => i
  | .vu i .. => i

/-- `num_inlets` of every node class (constructor-supplied where the
class takes it, otherwise the constant assigned in `__init__`). -/
def ApiNode.num_inlets : ApiNode → Option Int
  | .obj _ _ _ _ ni _ => ni
  | .abstraction _ _ _ _ ni _ _ => ni
  | .msg _ _ _ _ ni _ => ni
  | .float _ _ _ _ _ _ _ _ _ ni _ => ni
  | .comment .. => some 0
  | .subpatch _ _ _ _ _ ni _ _ _ _ _ _ _ => ni
  | .array .. => some 0
  | .bang .. => some 1
  | .toggle .. => some 1
  | .symbol .. => some 1
  | .numberbox .. => some 1
  | .vslider .. => some 1
  | .hslider .. => some 1
  | .vradio .. => some 1
  | .hradio .. => some 1
  | .canvas .. => some 1
  | .vu .. => some 2

/-- `num_outlets` of every node class. -/
def ApiNode.num_outlets : ApiNode → Option Int
  | .obj _ _ _ _ _ no => no
  | .abstraction _ _ _ _ _ no _ => no
  | .msg _ _ _ _ _ no => no
  | .float _ _ _ _ _ _ _ _ _ _ no => no
  | .comment .. => some 0
  | .subpatch _ _ _ _ _ _ no _ _ _ _ _ _ => no
  | .array .. => some 0
  | .bang .. => some 1
  | .toggle .. => some 1
  | .symbol .. => some 1
  | .numberbox .. => some 1
  | .vslider .. => some 1
  | .hslider .. => some 1
  | .vradio .. => some 1
  | .hradio .. => some 1
  | .canvas .. => some 1
  | .vu .. => some 0

/-- `Node.hidden`: only `Array` sets it. -/
def ApiNode.hidden : ApiNode → Bool
  | .array .. => true
  | _ => false

/-- The stored `x_pos`/`y_pos` parameters (for `Array`, which has no
position parameters, this is never consulted: `Node.position` shields
it behind `hidden`). -/
def ApiNode.xy : ApiNode → Int × Int
  | .obj _ x y _ _ _ => (x, y)
  | .abstraction _ x y _ _ _ _ => (x, y)
  | .msg _ x y _ _ _ => (x, y)
  | .float _ x y _ _ _ _ _ _ _ _ => (x, y)
  | .comment _ x y _ => (x, y)
  | .subpatch _ x y _ _ _ _ _ _ _ _ _ _ => (x, y)
  | .array .. => (0, 0)
  | .bang _ x y _ _ _ _ _ _ _ _ _ _ _ _ _ _ => (x, y)
  | .toggle _ x y _ _ _ _ _ _ _ _ _ _ _ _ _ _ => (x, y)
  | .symbol _ x y _ _ _ _ _ _ _ => (x, y)
  | .numberbox _ x y _ _ _ _ _ _ _ _ _ _ _ _ _ _ _ _ _ _ => (x, y)
  | .vslider _ x y _ _ _ _ _ _ _ _ _ _ _ _ _ _ _ _ _ _ => (x, y)
  | .hslider _ x y _ _ _ _ _ _ _ _ _ _ _ _ _ _ _ _ _ _ => (x, y)
  | .vradio _ x y _ _ _ _ _ _ _ _ _ _ _ _ _ _ _ => (x, y)
  | .hradio _ x y _ _ _ _ _ _ _ _ _ _ _ _ _ _ _ => (x, y)
  | .canvas _ x y _ _ _ _ _ _ _ _ _ _ _ _ => (x, y)
  | .vu _ x y _ _ _ _ _ _ _ _ _ _ _ => (x, y)

/-- `api.Node.position`. -/
def ApiNode.position (n : ApiNode) : Int × Int :=
  if n.hidden then (-1, -1) else n.xy

/-- Size of the wrapped display text (shared by `Obj.dimensions` and
`Msg.dimensions`). -/
def textDimensions (text : Str) : Int × Int :=
  let display_lines := get_display_lines text
  let max_chars : Int := (display_lines.map (fun l => (l.length : Int))).foldl max 0
  let x_size := max MIN_ELEMENT_WIDTH (ELEMENT_PADDING + max_chars * CHAR_WIDTH)
  let y_size := ELEMENT_BASE_HEIGHT + LINE_HEIGHT * display_lines.length
  (x_size, y_size)

/-- `dimensions` of every node class (the base `Node.dimensions` is
`(0, 0)`; `Comment` and `Array` do not override it). -/
def ApiNode.dimensions : ApiNode → Int × Int
  | .obj _ _ _ text _ _ => textDimensions text
  | .abstraction _ _ _ text _ _ _ => textDimensions text
  | .msg _ _ _ text _ _ => textDimensions text
  | .float .. => (FLOATATOM_WIDTH, FLOATATOM_HEIGHT)
  | .comment .. => (0, 0)
  | .subpatch _ _ _ name _ _ _ _ _ gop _ gw gh =>
    if gop then (gw, gh)
    else
      let label_text := chars "pd " ++ name
      (max MIN_ELEMENT_WIDTH (ELEMENT_PADDING + (label_text.length : Int) * CHAR_WIDTH),
        ROW_HEIGHT)
  | .array .. => (0, 0)
  | .bang _ _ _ size _ _ _ _ _ _ _ _ _ _ _ _ _ => (size, size)
  | .toggle _ _ _ size _ _ _ _ _ _ _ _ _ _ _ _ _ => (size, size)
  | .symbol _ _ _ width _ _ _ _ _ _ => (width * CHAR_WIDTH, ROW_HEIGHT)
  | .numberbox _ _ _ width height _ _ _ _ _ _ _ _ _ _ _ _ _ _ _ _ =>
    (width * CHAR_WIDTH, height)
  | .vslider _ _ _ width height _ _ _ _ _ _ _ _ _ _ _ _ _ _ _ _ => (width, height)
  | .hslider _ _ _ width height _ _ _ _ _ _ _ _ _ _ _ _ _ _ _ _ => (width, height)
  | .vradio _ _ _ size _ _ number _ _ _ _ _ _ _ _ _ _ _ => (size, size * number)
  | .hradio _ _ _ size _ _ number _ _ _ _ _ _ _ _ _ _ _ => (size * number, size)
  | .canvas _ _ _ _ width height _ _ _ _ _ _ _ _ _ => (width, height)
  | .vu _ _ _ width height _ _ _ _ _ _ _ _ _ => (width, height)

/-- Python `int()` applied to an exact rational: truncation toward
zero. -/
def pyIntOfRat (q : Rat) : Int := q.num / (q.den : Int)

/-- `api.LayoutManager._compute_relative_position`. -/
def computeRelativePosition (l : LayoutState) (anchor : ApiNode)
    (new_row new_col : Rat) : Int × Int :=
  let (x0, y0) := anchor.position
  let (dx, dy) := anchor.dimensions
  let (x1, y1, nc) :=
    if new_row < 1 then (x0 + dx, y0, new_col - 1)
    else (x0, y0 + dy + pyIntOfRat ((l.row_height : Rat) * (new_row - 1)), new_col)
  (x1 + max 0 (pyIntOfRat ((l.column_width : Rat) * nc)), y1)

/-- Dereference a layout anchor (a stored node reference) in the node
list. -/
def derefAnchor (nodes : List ApiNode) : Option Nat → Option ApiNode
  | none => none
  | some i => nodes.find? (fun n => n.nid == i)

/-- `api.LayoutManager.compute_position` (the anchor reference is
dereferenced through the patch's node list). -/
def computePosition (nodes : List ApiNode) (l : LayoutState)
    (new_row new_col : Rat) (x_pos y_pos : Int) : Int × Int :=
  if x_pos ≥ 0 ∧ y_pos ≥ 0 then (x_pos, y_pos)
  else
    let anchor := if new_row < 1 then derefAnchor nodes l.row_tail
      else derefAnchor nodes l.row_head
    match anchor with
    | none => (l.default_margin, l.default_margin)
    | some a => computeRelativePosition l a new_row new_col

/-- `api.LayoutManager.register_node`. -/
def registerNode (l : LayoutState) (nid : Nat) (new_row new_col : Rat)
    (was_absolute : Bool) : LayoutState :=
  let l' := { l with row_tail := some nid }
  if was_absolute ∨ l.row_head = none ∨ new_col > 0 ∨ new_row ≥ 1 then
    { l' with row_head := some nid }
  else l'

/-- `api.PD_OBJECT_REGISTRY`: class name to `(num_inlets, num_outlets)`
(`none` meaning variable). -/
def PD_OBJECT_REGISTRY : List (Str × (Option Int × Option Int)) :=
  [ (chars "osc~", (some 2, some 1)), (chars "phasor~", (some 2, some 1)),
    (chars "noise~", (some 0, some 1)), (chars "tabosc4~", (some 2, some 1)),
    (chars "+~", (some 2, some 1)), (chars "-~", (some 2, some 1)),
    (chars "*~", (some 2, some 1)), (chars "/~", (some 2, some 1)),
    (chars "clip~", (some 3, some 1)), (chars "wrap~", (some 1, some 1)),
    (chars "abs~", (some 1, some 1)), (chars "sqrt~", (some 1, some 1)),
    (chars "lop~", (some 2, some 1)), (chars "hip~", (some 2, some 1)),
    (chars "bp~", (some 3, some 1)), (chars "vcf~", (some 3, some 2)),
    (chars "dac~", (some 2, some 0)), (chars "adc~", (some 0, some 2)),
    (chars "line~", (some 1, some 1)), (chars "vline~", (some 1, some 1)),
    (chars "env~", (some 1, some 1)), (chars "threshold~", (some 2, some 2)),
    (chars "delwrite~", (some 1, some 0)), (chars "delread~", (some 1, some 1)),
    (chars "delread4~", (some 1, some 1)), (chars "vd~", (some 1, some 1)),
    (chars "tabread~", (some 1, some 1)), (chars "tabread4~", (some 1, some 1)),
    (chars "tabwrite~", (some 2, some 0)), (chars "tabsend~", (some 1, some 0)),
    (chars "tabreceive~", (some 0, some 1)),
    (chars "+", (some 2, some 1)), (chars "-", (some 2, some 1)),
    (chars "*", (some 2, some 1)), (chars "/", (some 2, some 1)),
    (chars "mod", (some 2, some 1)), (chars "div", (some 2, some 1)),
    (chars "pow", (some 2, some 1)), (chars "abs", (some 1, some 1)),
    (chars "sqrt", (some 1, some 1)), (chars "min", (some 2, some 1)),
    (chars "max", (some 2, some 1)), (chars "random", (some 2, some 1)),
    (chars "==", (some 2, some 1)), (chars "!=", (some 2, some 1)),
    (chars ">", (some 2, some 1)), (chars "<", (some 2, some 1)),
    (chars ">=", (some 2, some 1)), (chars "<=", (some 2, some 1)),
    (chars "&&", (some 2, some 1)), (chars "||", (some 2, some 1)),
    (chars "trigger", (some 1, none)), (chars "t", (some 1, none)),
    (chars "pack", (none, some 1)), (chars "unpack", (some 1, none)),
    (chars "route", (some 1, none)), (chars "select", (some 1, none)),
    (chars "sel", (some 1, none)), (chars "spigot", (some 2, some 1)),
    (chars "swap", (some 2, some 2)), (chars "moses", (some 2, some 2)),
    (chars "delay", (some 2, some 1)), (chars "metro", (some 2, some 1)),
    (chars "timer", (some 2, some 1)), (chars "pipe", (none, none)),
    (chars "line", (some 2, some 1)),
    (chars "float", (some 2, some 1)), (chars "f", (some 2, some 1)),
    (chars "int", (some 2, some 1)), (chars "i", (some 2, some 1)),
    (chars "symbol", (some 2, some 1)), (chars "list", (none, some 1)),
    (chars "value", (some 1, some 1)), (chars "v", (some 1, some 1)),
    (chars "send", (some 1, some 0)), (chars "s", (some 1, some 0)),
    (chars "receive", (some 0, some 1)), (chars "r", (some 0, some 1)),
    (chars "throw~", (some 1, some 0)), (chars "catch~", (some 0, some 1)),
    (chars "send~", (some 1, some 0)), (chars "s~", (some 1, some 0)),
    (chars "receive~", (some 0, some 1)), (chars "r~", (some 0, some 1)),
    (chars "bang", (some 1, some 1)), (chars "loadbang", (some 0, some 1)),
    (chars "print", (some 1, some 0)), (chars "inlet", (some 0, some 1)),
    (chars "outlet", (some 1, some 0)), (chars "inlet~", (some 0, some 1)),
    (chars "outlet~", (some 1, some 0)), (chars "change", (some 1, some 1)),
    (chars "stripnote", (some 2, some 2)), (chars "makenote", (some 3, some 2)),
    (chars "tabread", (some 1, some 1)), (chars "tabwrite", (some 2, some 0)),
    (chars "notein", (some 0, some 3)), (chars "noteout", (some 3, some 0)),
    (chars "ctlin", (some 0, some 3)), (chars "ctlout", (some 3, some 0)),
    (chars "bendin", (some 0, some 2)), (chars "bendout", (some 2, some 0)),
    (chars "midiin", (some 0, some 2)), (chars "midiout", (some 1, some 0)) ]

/-- Dictionary lookup in the registry. -/
def registryLookup (class_name : Str) : Option (Option Int × Option Int) :=
  (PD_OBJECT_REGISTRY.find? (fun kv => kv.1 = class_name)).map Prod.snd

/-- The `api.py` exception classes raised by the modeled operations
(`InvalidConnectionError` is modeled separately because it carries the
accumulated violation list). -/
inductive ApiErr where
  | pdConnectionError
  | nodeNotFoundError
  | indexError
  | keyError
deriving DecidableEq, Repr

/-- `api.Patcher._resolve_position`: computed position plus the
`was_absolute` flag used when registering the node. -/
def resolvePosition (p : Patcher) (x_pos y_pos : Int) (new_row new_col : Rat) :
    Int × Int × Bool :=
  let was_absolute := decide (x_pos ≥ 0 ∧ y_pos ≥ 0)
  let (cx, cy) := computePosition p.nodes p.layout new_row new_col x_pos y_pos
  (cx, cy, was_absolute)

/-- `api.Patcher.add` for the `source_path is None` case (the
abstraction branch reads a `.pd` file from disk to infer its arity;
file I/O is a collaborator interface outside this model, and no
verified claim exercises it): create a plain `Obj`, filling unset
inlet/outlet counts from the registry when the class name is known. -/
def Patcher.add (p : Patcher) (text : Str) (new_row new_col : Rat)
    (x_pos y_pos : Int) (num_inlets num_outlets : Option Int) : Patcher × ApiNode :=
  let (cx, cy, was_abs) := resolvePosition p x_pos y_pos new_row new_col
  let (ni, no) :=
    if num_inlets = none ∨ num_outlets = none then
      let text_parts := pySplitWs text
      let class_name := text_parts.headD []
      match registryLookup class_name with
      | some (reg_in, reg_out) =>
        ((if num_inlets = none then reg_in else num_inlets),
          (if num_outlets = none then reg_out else num_outlets))
      | none => (num_inlets, num_outlets)
    else (num_inlets, num_outlets)
  let node := ApiNode.obj p.nextId cx cy (escape text) ni no
  let layout' := registerNode p.layout node.nid new_row new_col was_abs
  (.mk (p.nodes ++ [node]) p.connections layout' (p.nextId + 1), node)

/-- `api.Patcher.add_msg`. -/
def Patcher.add_msg (p : Patcher) (text : Str) (new_row new_col : Rat)
    (x_pos y_pos : Int) : Patcher × ApiNode :=
  let (cx, cy, was_abs) := resolvePosition p x_pos y_pos new_row new_col
  let node := ApiNode.msg p.nextId cx cy (escape text) (some 2) (some 1)
  let layout' := registerNode p.layout node.nid new_row new_col was_abs
  (.mk (p.nodes ++ [node]) p.connections layout' (p.nextId + 1), node)

/-- `api.Patcher.add_array` (no position bookkeeping: arrays are
hidden). -/
def Patcher.add_array (p : Patcher) (name : Str) (length : Int) :
    Patcher × ApiNode :=
  let node := ApiNode.array p.nextId name length (chars "float") 0
  (.mk (p.nodes ++ [node]) p.connections p.layout (p.nextId + 1), node)

/-- The stored (escaped) object text of an `Obj` (including the
`Abstraction` subclass), `none` for every other class — models
`isinstance(node, Obj)` plus the `parameters["text"]` read. -/
def objTextOf : ApiNode → Option Str
  | .obj _ _ _ t _ _ => some t
  | .abstraction _ _ _ t _ _ _ => some t
  | _ => none

/-- The inlet/outlet inference in `api.Patcher.add_subpatch`: count the
`Obj` nodes of the inner patch whose first text token is one of
`names`; Python's `split()[0]` raises `IndexError` on an empty text. -/
def countIO (nodes : List ApiNode) (names : List Str) : Except ApiErr Int :=
  nodes.foldlM
    (fun acc n =>
      match objTextOf n with
      | none => .ok acc
      | some t =>
        match (pySplitWs t).head? with
        | none => .error .indexError
        | some h => .ok (if h ∈ names then acc + 1 else acc))
    0

/-- `api.Patcher.add_subpatch`. -/
def Patcher.add_subpatch (p : Patcher) (name : Str) (src : Patcher)
    (new_row new_col : Rat) (x_pos y_pos : Int)
    (num_inlets num_outlets : Option Int) (canvas_width canvas_height : Int)
    (inherit_layout graph_on_parent hide_name : Bool)
    (gop_width gop_height : Int) : Except ApiErr (Patcher × ApiNode) := do
  let src :=
    if inherit_layout then
      Patcher.mk src.nodes src.connections
        { src.layout with
          default_margin := p.layout.default_margin,
          row_height := p.layout.row_height,
          column_width := p.layout.column_width }
        src.nextId
    else src
  let num_inlets ←
    match num_inlets with
    | some v => pure (some v)
    | none => do
      let c ← countIO src.nodes [chars "inlet", chars "inlet~"]
      pure (some c)
  let num_outlets ←
    match num_outlets with
    | some v => pure (some v)
    | none => do
      let c ← countIO src.nodes [chars "outlet", chars "outlet~"]
      pure (some c)
  let (cx, cy, was_abs) := resolvePosition p x_pos y_pos new_row new_col
  let node := ApiNode.subpatch p.nextId cx cy name src num_inlets num_outlets
    canvas_width canvas_height graph_on_parent hide_name gop_width gop_height
  let layout' := registerNode p.layout node.nid new_row new_col was_abs
  pure (.mk (p.nodes ++ [node]) p.connections layout' (p.nextId + 1), node)

/-- The `source` argument of `api.Patcher.link`: a bare node or a
`Node.Outlet` (whose index overrides the `outlet` argument). -/
inductive LinkSource where
  | node (n : ApiNode)
  | outlet (owner : ApiNode) (index : Int)

/-- `api.Patcher.link`.  The `self.nodes.index(...)` membership lookup
is CPython identity search, modeled by the `nid` tag; the bounds checks
read the argument nodes' declared counts; the connection is appended
only after every check has passed, so an error leaves the patch as it
was. -/
def Patcher.link (p : Patcher) (source : LinkSource) (sink : ApiNode)
    (outlet inlet : Int) : Except ApiErr Patcher :=
  let (source, outlet) :=
    match source with
    | .node n => (n, outlet)
    | .outlet owner idx => (owner, idx)
  match p.nodes.findIdx? (fun n => n.nid == source.nid) with
  | none => .error .nodeNotFoundError
  | some source_index =>
    match p.nodes.findIdx? (fun n => n.nid == sink.nid) with
    | none => .error .nodeNotFoundError
    | some sink_index =>
      if (match source.num_outlets with
          | some n_out => decide (outlet ≥ n_out)
          | none => false) then
        .error .pdConnectionError
      else if (match sink.num_inlets with
          | some n_in => decide (inlet ≥ n_in)
          | none => false) then
        .error .pdConnectionError
      else
        .ok (.mk p.nodes
          (p.connections ++ [⟨(source_index : Int), outlet, (sink_index : Int), inlet⟩])
          p.layout p.nextId)

/-- One recorded violation of `api.Patcher.validate_connections` (the
Python error message interpolates these values). -/
inductive ConnViolation where
  | invalidOutlet (outlet_index : Int) (node : ApiNode) (num_outlets : Int)
  | negativeOutlet (outlet_index : Int) (node : ApiNode)
  | invalidInlet (inlet_index : Int) (node : ApiNode) (num_inlets : Int)
  | negativeInlet (inlet_index : Int) (node : ApiNode)

/-- Python list indexing `l[i]`: non-negative indices from the front,
negative indices wrap from the back, `none` is an `IndexError`. -/
def pyListGet? (l : List α) (i : Int) : Option α :=
  if 0 ≤ i then l.get? i.toNat
  else
    let j := (l.length : Int) + i
    if 0 ≤ j then l.get? j.toNat else none

/-- One iteration of the error-accumulation loop of
`api.Patcher.validate_connections`. -/
def validateStep (nodes : List ApiNode) (errors : List ConnViolation)
    (conn : Connection) : Except ApiErr (List ConnViolation) :=
  match pyListGet? nodes conn.source, pyListGet? nodes conn.sink with
  | some source_node, some sink_node =>
    let errors :=
      match source_node.num_outlets with
      | some n_out =>
        if conn.outlet_index ≥ n_out then
          errors ++ [ConnViolation.invalidOutlet conn.outlet_index source_node n_out]
        else if conn.outlet_index < (0 : Int) then
          errors ++ [ConnViolation.negativeOutlet conn.outlet_index source_node]
        else errors
      | none => errors
    let errors :=
      match sink_node.num_inlets with
      | some n_in =>
        if conn.inlet_index ≥ n_in then
          errors ++ [ConnViolation.invalidInlet conn.inlet_index sink_node n_in]
        else if conn.inlet_index < (0 : Int) then
          errors ++ [ConnViolation.negativeInlet conn.inlet_index sink_node]
        else errors
      | none => errors
    .ok errors
  | _, _ => .error .indexError

/-- The error-accumulation loop of `api.Patcher.validate_connections`. -/
def validateErrors (p : Patcher) : Except ApiErr (List ConnViolation) :=
  p.connections.foldlM (validateStep p.nodes) []

/-- Result of `api.Patcher.validate_connections`: either the (empty)
returned error list, or the raised `InvalidConnectionError`, which
carries the count interpolated into `"Found {len(errors)} invalid
connection(s)"` together with the enumerated violations. -/
inductive ValidateResult where
  | returned (errors : List ConnViolation)
  | raisedInvalidConnection (countInMessage : Nat) (listed : List ConnViolation)

/-- `api.Patcher.validate_connections`.  When `check_cycles` is set the
source additionally runs `detect_cycles` and emits non-fatal
`CycleWarning` warnings; warnings are a side channel that affects
neither the result nor the patch and are not modeled. -/
def Patcher.validate_connections (p : Patcher) (_check_cycles : Bool) :
    Except ApiErr ValidateResult := do
  let errors ← validateErrors p
  if errors.isEmpty then
    pure (.returned errors)
  else
    pure (.raisedInvalidConnection errors.length errors)

/-! ### Optimizer (`api.Patcher.optimize`, `_remap_after_removal`) -/

/-- Membership of a connection endpoint (a Python int) in the removal
set (a set of list indices, hence naturals). -/
def inRemoval (rem : List Nat) (i : Int) : Bool :=
  if 0 ≤ i then i.toNat ∈ rem else false

/-- The `old_to_new` dictionary built by `_remap_after_removal`: maps a
surviving old index to the count of surviving indices before it;
`none` is a `KeyError` (index removed or out of the `range(len)`). -/
def oldToNew? (numNodes : Nat) (rem : List Nat) (i : Int) : Option Nat :=
  if 0 ≤ i ∧ i.toNat < numNodes ∧ i.toNat ∉ rem then
    some (((List.range i.toNat).filter (fun j => j ∉ rem)).length)
  else none

/-- `api.Patcher._remap_after_removal`: drop removed nodes, drop
connections touching them, remap surviving connections to the
compacted indices, and reset the layout anchors — all skipped when the
removal set is empty. -/
def Patcher.remap_after_removal (p : Patcher) (rem : List Nat) :
    Except ApiErr Patcher :=
  if rem.isEmpty then .ok p
  else do
    let nodes' := (p.nodes.enum.filter (fun iv => iv.1 ∉ rem)).map Prod.snd
    let conns' ← p.connections.foldlM
      (fun (acc : List Connection) conn =>
        if inRemoval rem conn.source ∨ inRemoval rem conn.sink then .ok acc
        else
          match oldToNew? p.nodes.length rem conn.source,
              oldToNew? p.nodes.length rem conn.sink with
          | some ns, some nk =>
            .ok (acc ++ [⟨(ns : Int), conn.outlet_index, (nk : Int), conn.inlet_index⟩])
          | _, _ => .error .keyError)
      []
    pure (.mk nodes' conns' p.layout.reset p.nextId)

/-- The compacted index an endpoint is remapped to by
`_remap_after_removal`: the number of surviving indices before it (the
value of the `old_to_new` dictionary at a surviving key). -/
def newIdxAfter (rem : List Nat) (i : Int) : Int :=
  (((List.range i.toNat).filter (fun j => j ∉ rem)).length : Int)

/-- The remapped form of a surviving connection. -/
def remapConn (rem : List Nat) (c : Connection) : Connection :=
  ⟨newIdxAfter rem c.source, c.outlet_index, newIdxAfter rem c.sink, c.inlet_index⟩

/-- The node list of a patch after compaction by a removal set. -/
def compactNodes (rem : List Nat) (nodes : List ApiNode) : List ApiNode :=
  (nodes.enum.filter (fun iv => iv.1 ∉ rem)).map Prod.snd

/-- `isinstance(node, _PROTECTED_TYPES)`: every class except plain
`Obj` is protected. -/
def isProtectedType : ApiNode → Bool
  | .obj .. => false
  | _ => true

/-- `api._has_active_send_receive`: kinds whose `parameters` dict has a
`send`/`receive` key check it against the inactive values
`{"empty", "-", ""}`; `dict.get` yields `None` (inactive) elsewhere. -/
def hasActiveSendReceive (n : ApiNode) : Bool :=
  let inactive : List Str := [chars "empty", chars "-", []]
  let act : Str → Bool := fun v => v ∉ inactive
  match n with
  | .float _ _ _ _ _ _ _ r s _ _ => act s || act r
  | .bang _ _ _ _ _ _ _ s r _ _ _ _ _ _ _ _ => act s || act r
  | .toggle _ _ _ _ _ s r _ _ _ _ _ _ _ _ _ _ => act s || act r
  | .symbol _ _ _ _ _ _ _ _ r s => act s || act r
  | .numberbox _ _ _ _ _ _ _ _ _ s r _ _ _ _ _ _ _ _ _ _ => act s || act r
  | .vslider _ _ _ _ _ _ _ _ _ s r _ _ _ _ _ _ _ _ _ _ => act s || act r
  | .hslider _ _ _ _ _ _ _ _ _ s r _ _ _ _ _ _ _ _ _ _ => act s || act r
  | .vradio _ _ _ _ _ _ _ s r _ _ _ _ _ _ _ _ _ => act s || act r
  | .hradio _ _ _ _ _ _ _ s r _ _ _ _ _ _ _ _ _ => act s || act r
  | .canvas _ _ _ _ _ _ s r _ _ _ _ _ _ _ => act s || act r
  | .vu _ _ _ _ _ r _ _ _ _ _ _ _ _ => act r
  | _ => false

/-- The statistics dict returned by `api.Patcher.optimize`. -/
structure OptStats where
  nodes_removed : Nat
  connections_removed : Int
  duplicates_removed : Nat
  pass_throughs_collapsed : Nat
  subpatches_optimized : Nat
deriving DecidableEq, Repr

/-- Pass 1 of `optimize`: drop exact-duplicate connection tuples,
keeping first occurrences (the `seen` set compares the 4-tuples). -/
def dedupConnections (conns : List Connection) : List Connection :=
  conns.foldl (fun acc c => if c ∈ acc then acc else acc ++ [c]) []

/-- Data accumulated by pass 2 of `optimize` over the node loop. -/
structure CollapseAcc where
  conns_to_remove : List Connection
  conns_to_add : List Connection
  removal_set : List Nat
  collapsed : Nat

/-- Pass 2 of `optimize` (pass-through collapse).  Python removes the
two bypassed connections by `id()`; after pass 1 the connection tuples
in the list are pairwise distinct, so removal by value is the same
operation. -/
def collapsePass (nodes : List ApiNode) (conns : List Connection)
    (collapsible : List Str) : List Connection × List Nat × Nat :=
  if collapsible.isEmpty then (conns, [], 0)
  else
    let acc := nodes.enum.foldl
      (fun (acc : CollapseAcc) iv =>
        let (idx, node) := iv
        match objTextOf node with
        | none => acc
        | some text =>
          let text_parts := pySplitWs text
          let class_name := text_parts.headD []
          if class_name ∉ collapsible then acc
          else if text_parts.length > 1 then acc
          else if ¬(node.num_inlets = some 1 ∧ node.num_outlets = some 1) then acc
          else
            let incoming := conns.filter (fun c => c.sink = (idx : Int))
            let outgoing := conns.filter (fun c => c.source = (idx : Int))
            match incoming, outgoing with
            | [inc], [out] =>
              { conns_to_remove := acc.conns_to_remove ++ [inc, out],
                conns_to_add := acc.conns_to_add ++
                  [⟨inc.source, inc.outlet_index, out.sink, out.inlet_index⟩],
                removal_set := acc.removal_set ++ [idx],
                collapsed := acc.collapsed + 1 }
            | _, _ => acc)
      ⟨[], [], [], 0⟩
    (conns.filter (fun c => c ∉ acc.conns_to_remove) ++ acc.conns_to_add,
      acc.removal_set, acc.collapsed)

/-- Pass 3 of `optimize` (dead-node pruning): extend the removal set
with unconnected, unprotected nodes without active send/receive. -/
def prunePass (nodes : List ApiNode) (conns : List Connection)
    (removal_set : List Nat) : List Nat :=
  let connected : List Int := conns.flatMap (fun c => [c.source, c.sink])
  nodes.enum.foldl
    (fun (rem : List Nat) iv =>
      let (idx, node) := iv
      if (idx : Int) ∈ connected then rem
      else if idx ∈ rem then rem
      else if isProtectedType node then rem
      else if hasActiveSendReceive node then rem
      else rem ++ [idx])
    removal_set

/-- The non-recursive body of `api.Patcher.optimize` (passes 1-3 plus
the remap), given the node list already processed by the recursive
pass. -/
def optimizeCore (p : Patcher) (collapsible : List Str) (subs : Nat) :
    Except ApiErr (Patcher × OptStats) := do
  let initial_connection_count := p.connections.length
  let deduped := dedupConnections p.connections
  let duplicates_removed := p.connections.length - deduped.length
  let (conns2, removal_set, collapsed) := collapsePass p.nodes deduped collapsible
  let removal_set := prunePass p.nodes conns2 removal_set
  let p2 := Patcher.mk p.nodes conns2 p.layout p.nextId
  let p3 ← p2.remap_after_removal removal_set
  pure (p3,
    { nodes_removed := removal_set.length,
      connections_removed := (initial_connection_count : Int) - p3.connections.length,
      duplicates_removed := duplicates_removed,
      pass_throughs_collapsed := collapsed,
      subpatches_optimized := subs })

mutual

/-- `api.Patcher.optimize`. -/
def Patcher.optimize (p : Patcher) (recursive : Bool) (collapsible : List Str) :
    Except ApiErr (Patcher × OptStats) :=
  match p, recursive with
  | .mk nodes conns layout nid, false =>
    optimizeCore (.mk nodes conns layout nid) collapsible 0
  | .mk nodes conns layout nid, true =>
    match optimizeSubs nodes collapsible with
    | .error e => .error e
    | .ok (nodes', subs) =>
      optimizeCore (Patcher.mk nodes' conns layout nid) collapsible subs
termination_by structural p

/-- The recursive pass of `optimize`: optimize the inner patch of every
`Subpatch` node (in place in Python; rebuilt here), counting them. -/
def optimizeSubs (ns : List ApiNode) (collapsible : List Str) :
    Except ApiErr (List ApiNode × Nat) :=
  match ns with
  | [] => .ok ([], 0)
  | n :: rest =>
    match n with
    | .subpatch nid x y name src ni no cw ch gop hide gw gh =>
      match src.optimize true collapsible with
      | .error e => .error e
      | .ok (src', _) =>
        match optimizeSubs rest collapsible with
        | .error e => .error e
        | .ok (rest', cnt) =>
          .ok (ApiNode.subpatch nid x y name src' ni no cw ch gop hide gw gh :: rest',
            cnt + 1)
    | _ =>
      match optimizeSubs rest collapsible with
      | .error e => .error e
      | .ok (rest', cnt) => .ok (n :: rest', cnt)
termination_by structural ns

end

/-! ### Auto-layout (`api.Patcher.auto_layout`)

The Python loops are unbounded `while` loops; they are modeled with an
explicit `fuel` parameter (`none` = fuel exhausted).  `auto_layout`'s
adjacency structures are CPython sets of ints; they are represented by
their canonical ascending duplicate-free lists.  The DFS sorts its
neighbor sets explicitly (`sorted(outgoing[node_id])`), so its
traversal is unaffected; the BFS relaxation's fixed point, its
termination, and the non-negativity of the assigned coordinates are
insensitive to neighbor iteration order, which is all the verified
claims use. -/

/-- `sorted(...)` of a set of naturals represented as a list. -/
def insertLe {α : Type} (le : α → α → Bool) (x : α) : List α → List α
  | [] => [x]
  | y :: ys => if le x y then x :: y :: ys else y :: insertLe le x ys

/-- Stable insertion sort: the model of Python's stable `sorted`
(elements whose keys compare equal keep their relative order, which
pins the output down uniquely, so any stable sort is a faithful
model). -/
def sortLe {α : Type} (le : α → α → Bool) : List α → List α
  | [] => []
  | x :: xs => insertLe le x (sortLe le xs)

def sortDedup (l : List Nat) : List Nat := sortLe (fun a b => a ≤ b) l.dedup

/-- Build the `outgoing`/`incoming` adjacency dicts of `auto_layout`;
`outgoing[conn.source]` / `incoming[conn.sink]` raise `KeyError` when
the endpoint is not one of the `range(n)` keys. -/
def buildAdjacency (n : Nat) (conns : List Connection) :
    Except ApiErr ((Nat → List Nat) × (Nat → List Nat)) := do
  let _ ← conns.foldlM
    (fun (_ : Unit) c =>
      if 0 ≤ c.source ∧ c.source < (n : Int) then
        if 0 ≤ c.sink ∧ c.sink < (n : Int) then .ok () else .error .keyError
      else .error .keyError)
    ()
  let outgoing := fun (i : Nat) =>
    sortDedup ((conns.filter (fun c => c.source = (i : Int))).map (fun c => c.sink.toNat))
  let incoming := fun (i : Nat) =>
    sortDedup ((conns.filter (fun c => c.sink = (i : Int))).map (fun c => c.source.toNat))
  pure (outgoing, incoming)

/-- The inner `while stack:` loop of the back-edge DFS.  The stack top
is the head; `adj` is kept sorted, so the source's
`sorted(outgoing[node_id])` is `adj node_id` itself. -/
def dfsLoop (adj : Nat → List Nat) (hid : Nat → Bool) :
    Nat → List (Nat × Nat) → List Nat → List Nat → List (Nat × Nat) →
    Option (List Nat × List (Nat × Nat))
  | fuel, stack, on_stack, visited, back =>
    match stack with
    | [] => some (visited, back)
    | (node_id, idx) :: stackRest =>
      match fuel with
      | 0 => none
      | fuel + 1 =>
        let neighbors := adj node_id
        if idx < neighbors.length then
          let stack' := (node_id, idx + 1) :: stackRest
          let neighbor := neighbors.getD idx 0
          if neighbor ∈ on_stack then
            dfsLoop adj hid fuel stack' on_stack visited (back ++ [(node_id, neighbor)])
          else if neighbor ∉ visited ∧ ¬hid neighbor then
            dfsLoop adj hid fuel ((neighbor, 0) :: stack') (on_stack ++ [neighbor])
              visited back
          else
            dfsLoop adj hid fuel stack' on_stack visited back
        else
          dfsLoop adj hid fuel stackRest (on_stack.filter (fun x => x ≠ node_id))
            (visited ++ [node_id]) back
termination_by structural fuel _s _o _v _b => fuel

/-- The `for start in range(n)` loop around the DFS. -/
def dfsAll (adj : Nat → List Nat) (hid : Nat → Bool) (fuel : Nat) :
    List Nat → List Nat → List (Nat × Nat) → Option (List Nat × List (Nat × Nat))
  | [], visited, back => some (visited, back)
  | start :: rest, visited, back =>
    if start ∈ visited ∨ hid start then dfsAll adj hid fuel rest visited back
    else
      match dfsLoop adj hid fuel [(start, 0)] [start] visited back with
      | none => none
      | some (visited', back') => dfsAll adj hid fuel rest visited' back'

/-- Insertion-ordered dict lookup (Python `dict` with `Nat` keys). -/
def aGet (l : List (Nat × Nat)) (k : Nat) : Option Nat :=
  (l.find? (fun kv => kv.1 = k)).map Prod.snd

/-- Insertion-ordered dict update: overwrite in place, append if new. -/
def aSet (l : List (Nat × Nat)) (k : Nat) (v : Nat) : List (Nat × Nat) :=
  if l.any (fun kv => kv.1 = k) then
    l.map (fun kv => if kv.1 = k then (k, v) else kv)
  else l ++ [(k, v)]

/-- The depth-relaxation BFS of `auto_layout` (`while queue:`): a
node's depth is only ever raised; each raise re-enqueues the node.
`depth[current]` is always present (it is set before every enqueue);
`getD` never falls back to its default. -/
def bfsLoop (dagOut : Nat → List Nat) :
    Nat → List Nat → List (Nat × Nat) → Option (List (Nat × Nat))
  | fuel, queue, depth =>
    match queue with
    | [] => some depth
    | current :: queue =>
      match fuel with
      | 0 => none
      | fuel + 1 =>
        let (depth', queue') := (dagOut current).foldl
          (fun (dq : List (Nat × Nat) × List Nat) neighbor =>
            let (d, q) := dq
            let new_depth := (aGet d current).getD 0 + 1
            let raise :=
              match aGet d neighbor with
              | none => true
              | some dn => dn < new_depth
            if raise then (aSet d neighbor new_depth, q ++ [neighbor]) else (d, q))
          (depth, queue)
        bfsLoop dagOut fuel queue' depth'
termination_by structural fuel _q _d => fuel

/-- Comparison key of the `align_columns` row reordering
(`float("inf")` for nodes with no placed parent). -/
def leKey : Option Rat → Option Rat → Bool
  | _, none => true
  | none, some _ => false
  | some a, some b => a ≤ b

/-- Write back the computed position into a node's `parameters`
(Python mutates the dict in place; `Array` parameters have no position
keys — the assignment would create dict entries no modeled operation
ever reads, so the node is left unchanged). -/
def setXY (x y : Int) : ApiNode → ApiNode
  | .obj nid _ _ t ni no => .obj nid x y t ni no
  | .abstraction nid _ _ t ni no sp => .abstraction nid x y t ni no sp
  | .msg nid _ _ t ni no => .msg nid x y t ni no
  | .float nid _ _ w u lo l r s ni no => .float nid x y w u lo l r s ni no
  | .comment nid _ _ c => .comment nid x y c
  | .subpatch nid _ _ nm src ni no cw ch gop hn gw gh =>
    .subpatch nid x y nm src ni no cw ch gop hn gw gh
  | .array nid nm len et sf => .array nid nm len et sf
  | .bang nid _ _ a b c d s r l e f g h i j k => .bang nid x y a b c d s r l e f g h i j k
  | .toggle nid _ _ a b s r l c d e f g h i j k => .toggle nid x y a b s r l c d e f g h i j k
  | .symbol nid _ _ w lo u lp l r s => .symbol nid x y w lo u lp l r s
  | .numberbox nid _ _ w h mn mx lf ini s r l a b c d e f g iv lh =>
    .numberbox nid x y w h mn mx lf ini s r l a b c d e f g iv lh
  | .vslider nid _ _ w h mn mx lf ini s r l a b c d e f g iv st =>
    .vslider nid x y w h mn mx lf ini s r l a b c d e f g iv st
  | .hslider nid _ _ w h mn mx lf ini s r l a b c d e f g iv st =>
    .hslider nid x y w h mn mx lf ini s r l a b c d e f g iv st
  | .vradio nid _ _ a b c d s r l e f g h i j k iv => .vradio nid x y a b c d s r l e f g h i j k iv
  | .hradio nid _ _ a b c d s r l e f g h i j k iv => .hradio nid x y a b c d s r l e f g h i j k iv
  | .canvas nid _ _ a w h s r l b c d e f g => .canvas nid x y a w h s r l b c d e f g
  | .vu nid _ _ w h r l a b c d e f g => .vu nid x y w h r l a b c d e f g

/-- `api.Patcher.auto_layout`.  Returns `.ok none` when `fuel` runs
out (both the DFS and the BFS draw on the same bound). -/
def Patcher.auto_layout (p : Patcher) (margin row_spacing col_spacing : Int)
    (align_columns : Bool) (fuel : Nat) : Except ApiErr (Option Patcher) := do
  if p.nodes.isEmpty then pure (some p)
  else
    let n := p.nodes.length
    let hid : Nat → Bool := fun i => ((p.nodes.get? i).map ApiNode.hidden).getD false
    let (outgoing, incoming) ← buildAdjacency n p.connections
    match dfsAll outgoing hid fuel (List.range n) [] [] with
    | none => pure none
    | some (_, back_edges) =>
      let dagOut : Nat → List Nat := fun i =>
        (outgoing i).filter (fun j => (i, j) ∉ back_edges)
      let dagIn : Nat → List Nat := fun j =>
        (List.range n).filter (fun i => j ∈ outgoing i ∧ (i, j) ∉ back_edges)
      let sources := (List.range n).filter (fun i => (dagIn i).isEmpty ∧ ¬hid i)
      let sources := if sources.isEmpty then (List.range n).filter (fun i => ¬hid i)
        else sources
      let (depth0, queue0) := sources.foldl
        (fun (dq : List (Nat × Nat) × List Nat) src =>
          let (d, q) := dq
          if (aGet d src).isSome then (d, q) else (aSet d src 0, q ++ [src]))
        ([], [])
      match bfsLoop dagOut fuel queue0 depth0 with
      | none => pure none
      | some depth1 =>
        let depth := (List.range n).foldl
          (fun d i => if (aGet d i) = none ∧ ¬hid i then aSet d i 0 else d) depth1
        let rows : List (Nat × List Nat) := depth.foldl
          (fun (rows : List (Nat × List Nat)) kv =>
            let (node_idx, d) := kv
            if rows.any (fun r => r.1 = d) then
              rows.map (fun r => if r.1 = d then (r.1, r.2 ++ [node_idx]) else r)
            else rows ++ [(d, [node_idx])])
          []
        let sorted_depths := sortLe (fun a b => a ≤ b) (rows.map Prod.fst)
        let rows :=
          if align_columns ∧ sorted_depths.length > 1 then
            (List.range (sorted_depths.length - 1)).foldl
              (fun rows k =>
                let depth_idx := k + 1
                let d := sorted_depths.getD depth_idx 0
                let prev_d := sorted_depths.getD (depth_idx - 1) 0
                let prevRow := ((rows.find? (fun r => r.1 = prev_d)).map Prod.snd).getD []
                let prev_positions : List (Nat × Nat) :=
                  prevRow.enum.map (fun iv => (iv.2, iv.1))
                let key : Nat → Option Rat := fun node_idx =>
                  let parents := (incoming node_idx).filter
                    (fun q => prev_positions.any (fun kv => kv.1 = q))
                  if parents.isEmpty then none
                  else
                    some ((((parents.map (fun q => ((aGet prev_positions q).getD 0 : Int))).sum : Int) : Rat)
                      / (parents.length : Rat))
                let curRow := ((rows.find? (fun r => r.1 = d)).map Prod.snd).getD []
                let sortedRow := sortLe (fun a b => leKey (key a) (key b)) curRow
                rows.map (fun r => if r.1 = d then (r.1, sortedRow) else r))
              rows
          else rows
        let nodes' := sorted_depths.foldl
          (fun nodes d =>
            let row_nodes := ((rows.find? (fun r => r.1 = d)).map Prod.snd).getD []
            let y := margin + (d : Int) * row_spacing
            row_nodes.enum.foldl
              (fun (nodes : List ApiNode) iv =>
                let (i, node_idx) := iv
                let x := margin + (i : Int) * col_spacing
                nodes.enum.map (fun jn =>
                  if jn.1 = node_idx then setXY x y jn.2 else jn.2))
              nodes)
          p.nodes
        pure (some (.mk nodes' p.connections p.layout p.nextId))

/-! ### Bridge (`ast.from_builder` / `ast.to_builder`) -/

/-- Python `int()` applied to a float value (exact-decimal model):
truncation toward zero. -/
def truncF (f : PyFloat) : Int := f.m / ((10 : Int) ^ f.k)

mutual

/-- `ast.from_builder`: map each node to its tree element 1:1 in
order, then append one connection element per graph connection. -/
def from_builder (patch : Patcher) : PdPatch :=
  match patch with
  | .mk nodes connections _ _ =>
    ⟨defaultCanvas,
      fromNodes nodes ++ connections.map
        (fun conn => PdElement.connect conn.source conn.outlet_index conn.sink
          conn.inlet_index)⟩
termination_by structural patch

/-- The node loop of `from_builder` (`isinstance` dispatch; the
`Abstraction` case is checked before its superclass `Obj` and both
produce the same `PdObj` form). -/
def fromNodes : List ApiNode → List PdElement
  | [] => []
  | node :: rest =>
    let elem : PdElement :=
      match node with
      | .abstraction _ x y text _ _ _ =>
        let parts := pySplitWs text
        .obj ⟨x, y⟩ (parts.headD []) parts.tail
      | .obj _ x y text _ _ =>
        let parts := pySplitWs text
        .obj ⟨x, y⟩ (parts.headD []) parts.tail
      | .comment _ x y content => .text ⟨x, y⟩ content
      | .msg _ x y text _ _ => .msg ⟨x, y⟩ text
      | .float _ x y width upper lower label receive send _ _ =>
        .floatatom ⟨x, y⟩ width lower upper 0 label receive send
      | .array _ name length element_type save_flag =>
        .array name length element_type save_flag
      | .subpatch _ x y name src _ _ cw ch gop hide gw gh =>
        let inner_ast := from_builder src
        let subpatch_canvas : CanvasProperties :=
          ⟨0, 0, cw, ch, 10, some (chars "(subpatch)"), 0⟩
        let restore : PdRestore := ⟨⟨x, y⟩, name⟩
        let inner_elements :=
          if gop then
            inner_ast.elements ++
              [.coords ⟨0, 0⟩ ⟨1, 0⟩ ⟨1, 0⟩ ⟨0, 0⟩ gw gh 1 (if hide then 1 else 0) 0 0]
          else inner_ast.elements
        .subpatch subpatch_canvas inner_elements (some restore)
      | .bang _ x y size hold interrupt init s r l lx ly f fs bg fg lc =>
        .bng ⟨x, y⟩ size hold interrupt init s r l lx ly f fs bg fg lc
      | .toggle _ x y size init s r l lx ly f fs bg fg lc iv dv =>
        .tgl ⟨x, y⟩ size init s r l lx ly f fs bg fg lc iv dv
      | .symbol _ x y width lower upper lp l r s =>
        .symbolatom ⟨x, y⟩ width lower upper lp l r s
      | .numberbox _ x y w h mn mx lf ini s r l lx ly f fs bg fg lc iv lh =>
        .nbx ⟨x, y⟩ w h mn mx lf ini s r l lx ly f fs bg fg lc iv lh
      | .vslider _ x y w h mn mx lf ini s r l lx ly f fs bg fg lc iv st =>
        .vsl ⟨x, y⟩ w h mn mx lf ini s r l lx ly f fs bg fg lc iv st
      | .hslider _ x y w h mn mx lf ini s r l lx ly f fs bg fg lc iv st =>
        .hsl ⟨x, y⟩ w h mn mx lf ini s r l lx ly f fs bg fg lc iv st
      | .vradio _ x y size no ini num s r l lx ly f fs bg fg lc iv =>
        .vradio ⟨x, y⟩ size no ini num s r l lx ly f fs bg fg lc iv
      | .hradio _ x y size no ini num s r l lx ly f fs bg fg lc iv =>
        .hradio ⟨x, y⟩ size no ini num s r l lx ly f fs bg fg lc iv
      | .canvas _ x y size w h s r l lx ly f fs bg lc =>
        .cnv ⟨x, y⟩ size w h s r l lx ly f fs bg lc
      | .vu _ x y w h r l lx ly f fs bg lc sc =>
        .vu ⟨x, y⟩ w h r l lx ly f fs bg lc sc
    elem :: fromNodes rest
termination_by structural ns => ns

end

/-- Pass-2 endpoint lookup of `to_builder`:
`node_map[i] if i < len(node_map) else None`, with Python negative
indexing (an out-of-range negative index is an `IndexError`). -/
def lookupEndpoint (node_map : List (Option ApiNode)) (i : Int) :
    Except ApiErr (Option ApiNode) :=
  if i < (node_map.length : Int) then
    match pyListGet? node_map i with
    | some v => .ok v
    | none => .error .indexError
  else .ok none

/-- Pass 2 of `to_builder`: replay every connection element through
`link`, with the defensive endpoint lookup of `lookupEndpoint`. -/
def toBuilderPass2 (patch : Patcher) (node_map : List (Option ApiNode)) :
    List PdElement → Except ApiErr Patcher
  | [] => .ok patch
  | elem :: rest =>
    match elem with
    | .connect source_id outlet_id sink_id inlet_id =>
      match lookupEndpoint node_map source_id with
      | .error e => .error e
      | .ok source =>
        match lookupEndpoint node_map sink_id with
        | .error e => .error e
        | .ok sink =>
          match source, sink with
          | some s, some k =>
            match patch.link (.node s) k outlet_id inlet_id with
            | .error e => .error e
            | .ok patch' => toBuilderPass2 patch' node_map rest
          | _, _ => toBuilderPass2 patch node_map rest
    | _ => toBuilderPass2 patch node_map rest


mutual

/-- One step of pass 1 of `to_builder`: process a single element,
appending the created node (or `none` placeholder) to `node_map`.
The `PdSubpatch` branch calls
`to_builder(PdPatch(elem.canvas, elem.elements))`, which processes the
inner element list with the two passes (to keep the recursion
structural, that composition is written out inline here;
`to_builder` itself never consults the canvas argument). -/
def toBuilderStep (patch : Patcher) (node_map : List (Option ApiNode)) :
    PdElement → Except ApiErr (Patcher × List (Option ApiNode))
  | .obj pos class_name args =>
    let (patch, node) := patch.add (objText class_name args) 1 0 pos.x pos.y none none
    .ok (patch, node_map ++ [some node])
  | .msg pos content =>
    let (patch, node) := patch.add_msg content 1 0 pos.x pos.y
    .ok (patch, node_map ++ [some node])
  | .floatatom pos width lower upper _ label receive send =>
    let node := ApiNode.float patch.nextId pos.x pos.y width ⟨truncF upper, 0⟩
      ⟨truncF lower, 0⟩ label receive send (some 1) (some 1)
    let patch := Patcher.mk (patch.nodes ++ [node]) patch.connections patch.layout
      (patch.nextId + 1)
    .ok (patch, node_map ++ [some node])
  | .symbolatom pos width lower upper label_pos label receive send =>
    let node := ApiNode.symbol patch.nextId pos.x pos.y width lower upper label_pos
      label receive send
    let patch := Patcher.mk (patch.nodes ++ [node]) patch.connections patch.layout
      (patch.nextId + 1)
    .ok (patch, node_map ++ [some node])
  | .text pos content =>
    let node := ApiNode.comment patch.nextId pos.x pos.y content
    let patch := Patcher.mk (patch.nodes ++ [node]) patch.connections patch.layout
      (patch.nextId + 1)
    .ok (patch, node_map ++ [some node])
  | .array name size _ _ =>
    let (patch, node) := patch.add_array name size
    .ok (patch, node_map ++ [some node])
  | .subpatch cv elems restore =>
    match toBuilderPass1 Patcher.new [] elems with
    | .error e => .error e
    | .ok (ip, nm) =>
      match toBuilderPass2 ip nm elems with
      | .error e => .error e
      | .ok inner_patch =>
        let name := match restore with | some r => r.name | none => chars "subpatch"
        let pos := match restore with | some r => r.position | none => (⟨0, 0⟩ : Position)
        let gopElem := elems.find? (fun se =>
          match se with
          | .coords _ _ _ _ _ _ g _ _ _ => g ≥ 1
          | _ => false)
        let (gopFlag, hideFlag, gw, gh) :=
          match gopElem with
          | some (.coords _ _ _ _ w h _ hide _ _) => (true, hide != 0, w, h)
          | _ => (false, false, 85, 60)
        match patch.add_subpatch name inner_patch 1 0 pos.x pos.y none none
            cv.width cv.height false gopFlag hideFlag gw gh with
        | .error e => .error e
        | .ok (patch, node) => .ok (patch, node_map ++ [some node])
  | .bng pos size hold interrupt init s r l lx ly f fs bg fg lc =>
    let node := ApiNode.bang patch.nextId pos.x pos.y size hold interrupt init s r l
      lx ly f fs bg fg lc
    let patch := Patcher.mk (patch.nodes ++ [node]) patch.connections patch.layout
      (patch.nextId + 1)
    .ok (patch, node_map ++ [some node])
  | .tgl pos size init s r l lx ly f fs bg fg lc iv dv =>
    let node := ApiNode.toggle patch.nextId pos.x pos.y size init s r l lx ly f fs
      bg fg lc iv dv
    let patch := Patcher.mk (patch.nodes ++ [node]) patch.connections patch.layout
      (patch.nextId + 1)
    .ok (patch, node_map ++ [some node])
  | .nbx pos w h mn mx lf ini s r l lx ly f fs bg fg lc iv lh =>
    let node := ApiNode.numberbox patch.nextId pos.x pos.y w h mn mx lf ini s r l
      lx ly f fs bg fg lc iv lh
    let patch := Patcher.mk (patch.nodes ++ [node]) patch.connections patch.layout
      (patch.nextId + 1)
    .ok (patch, node_map ++ [some node])
  | .vsl pos w h mn mx lf ini s r l lx ly f fs bg fg lc iv st =>
    let node := ApiNode.vslider patch.nextId pos.x pos.y w h mn mx lf ini s r l
      lx ly f fs bg fg lc iv st
    let patch := Patcher.mk (patch.nodes ++ [node]) patch.connections patch.layout
      (patch.nextId + 1)
    .ok (patch, node_map ++ [some node])
  | .hsl pos w h mn mx lf ini s r l lx ly f fs bg fg lc iv st =>
    let node := ApiNode.hslider patch.nextId pos.x pos.y w h mn mx lf ini s r l
      lx ly f fs bg fg lc iv st
    let patch := Patcher.mk (patch.nodes ++ [node]) patch.connections patch.layout
      (patch.nextId + 1)
    .ok (patch, node_map ++ [some node])
  | .vradio pos size no ini num s r l lx ly f fs bg fg lc iv =>
    let node := ApiNode.vradio patch.nextId pos.x pos.y size no ini num s r l
      lx ly f fs bg fg lc iv
    let patch := Patcher.mk (patch.nodes ++ [node]) patch.connections patch.layout
      (patch.nextId + 1)
    .ok (patch, node_map ++ [some node])
  | .hradio pos size no ini num s r l lx ly f fs bg fg lc iv =>
    let node := ApiNode.hradio patch.nextId pos.x pos.y size no ini num s r l
      lx ly f fs bg fg lc iv
    let patch := Patcher.mk (patch.nodes ++ [node]) patch.connections patch.layout
      (patch.nextId + 1)
    .ok (patch, node_map ++ [some node])
  | .cnv pos size w h s r l lx ly f fs bg lc =>
    let node := ApiNode.canvas patch.nextId pos.x pos.y size w h s r l lx ly f fs bg lc
    let patch := Patcher.mk (patch.nodes ++ [node]) patch.connections patch.layout
      (patch.nextId + 1)
    .ok (patch, node_map ++ [some node])
  | .vu pos w h r l lx ly f fs bg lc sc =>
    let node := ApiNode.vu patch.nextId pos.x pos.y w h r l lx ly f fs bg lc sc
    let patch := Patcher.mk (patch.nodes ++ [node]) patch.connections patch.layout
      (patch.nextId + 1)
    .ok (patch, node_map ++ [some node])
  | .connect _ _ _ _ =>
    -- connections are skipped in the first pass (no placeholder)
    .ok (patch, node_map)
  | .coords _ _ _ _ _ _ _ _ _ _ =>
    -- unknown element: placeholder only
    .ok (patch, node_map ++ [none])
termination_by structural e => e

/-- Pass 1 of `to_builder`: fold `toBuilderStep` over the element list. -/
def toBuilderPass1 (patch : Patcher) (node_map : List (Option ApiNode)) :
    List PdElement → Except ApiErr (Patcher × List (Option ApiNode))
  | [] => .ok (patch, node_map)
  | elem :: rest =>
    match toBuilderStep patch node_map elem with
    | .error e => .error e
    | .ok (patch, node_map) => toBuilderPass1 patch node_map rest
termination_by structural es => es

end

/-- `ast.to_builder`: pass 1 creates one node per non-connection
element (recursing into sub-canvases), building the index→node table;
pass 2 replays the connection elements through `link`. -/
def to_builder (ast : PdPatch) : Except ApiErr Patcher :=
  match toBuilderPass1 Patcher.new [] ast.elements with
  | .error e => .error e
  | .ok (patch, node_map) => toBuilderPass2 patch node_map ast.elements

/-! ### Claim-side definitions and concrete instances

Definitions below formalize quantities the claims speak about (never
used by the embedded code above), plus the concrete patches and texts
that the counterexamples and witnesses evaluate. -/

/-- Number of bound violations a connection contributes according to
claim C3's wording: one for an outlet index that is `≥` the source's
declared finite `num_outlets` or negative (never flagged when the
count is unset), plus the symmetric inlet count.  Endpoint indices are
assumed valid (the claim's "graph" hypothesis). -/
def specConnViolations (nodes : List ApiNode) (c : Connection) : Nat :=
  (match (pyListGet? nodes c.source).bind ApiNode.num_outlets with
    | some k => if c.outlet_index ≥ k ∨ c.outlet_index < 0 then 1 else 0
    | none => 0) +
  (match (pyListGet? nodes c.sink).bind ApiNode.num_inlets with
    | some k => if c.inlet_index ≥ k ∨ c.inlet_index < 0 then 1 else 0
    | none => 0)

/-- Total number of bound violations in a patch (claim C3's `N`). -/
def specViolationCount (p : Patcher) : Nat :=
  (p.connections.map (specConnViolations p.nodes)).sum

/-- A patch with declared counts `osc~ (2,1)` / `dac~ (2,0)` and three
bound violations: outlet 5 ≥ 1, inlet 7 ≥ 2, outlet −1 negative. -/
def exValidatePatch : Patcher :=
  .mk [.obj 0 0 0 (chars "osc~") (some 2) (some 1),
       .obj 1 0 0 (chars "dac~") (some 2) (some 0)]
    [⟨0, 5, 1, 0⟩, ⟨0, 0, 1, 7⟩, ⟨0, -1, 1, 0⟩] layoutInit 2

/-- A 7-field canvas-open statement whose trailing field is
non-numeric (the claim-C5 boundary case): `#N canvas 0 0 100 100 foo;`. -/
def exCanvasTokens : List Str :=
  [chars "#N", chars "canvas", chars "0", chars "0", chars "100", chars "100",
    chars "foo"]

/-- A tree whose connection element has source index `-1` (two plain
objects, then `#X connect -1 0 1 0`), exercising claim C6. -/
def exNegConnTree : PdPatch :=
  ⟨defaultCanvas,
    [.obj ⟨0, 0⟩ (chars "foo") [], .obj ⟨0, 0⟩ (chars "bar") [],
      .connect (-1) 0 1 0]⟩

/-- Same tree with source index `-3`, out of range even after Python's
negative-index wrap. -/
def exNeg3ConnTree : PdPatch :=
  ⟨defaultCanvas,
    [.obj ⟨0, 0⟩ (chars "foo") [], .obj ⟨0, 0⟩ (chars "bar") [],
      .connect (-3) 0 1 0]⟩

/-- A patch holding one message box placed through the API, so the
layout anchors are set; `optimize()` removes nothing from it. -/
def exMsgPatch : Patcher := (Patcher.new.add_msg (chars "hi") 1 0 10 10).1

/-- The 3-node connection cycle A→B→C→A of claim C4. -/
def exCyclePatch : Patcher :=
  .mk [.obj 0 0 0 (chars "a") none none, .obj 1 0 0 (chars "b") none none,
       .obj 2 0 0 (chars "c") none none]
    [⟨0, 0, 1, 0⟩, ⟨1, 0, 2, 0⟩, ⟨2, 0, 0, 0⟩] layoutInit 3

/-- A 2-node cycle through a hidden `Array` node (such connections are
rejected by `link`, but the `Patcher` data model admits them). -/
def exHiddenCyclePatch : Patcher :=
  .mk [.obj 0 0 0 (chars "f") none none,
       .array 1 (chars "arr") 10 (chars "float") 0]
    [⟨0, 0, 1, 0⟩, ⟨1, 0, 0, 0⟩] layoutInit 2

/-- The graph of claim C2's counterexample: an `osc~` with explicitly
declared `num_outlets = 3` connected from outlet 2 — valid when built,
but the reconstruction assigns `osc~` the registry's single outlet and
`link` then rejects the replayed connection. -/
def exRegistryOverridePatch : Patcher :=
  let s0 := Patcher.new
  let (s1, osc) := s0.add (chars "osc~") 1 0 10 10 none (some 3)
  let (s2, dac) := s1.add (chars "dac~") 1 0 10 50 none none
  match s2.link (.node osc) dac 2 0 with
  | .ok p => p
  | .error _ => s2

/-- A patch text whose statement stream opens a nested canvas that no
`restore` ever closes: the root canvas holds an `obj`, the still-open
inner canvas holds a `msg`. -/
def exUnterminated : Str :=
  chars "#N canvas 0 0 100 100 10;\n#X obj 1 2 foo;\n#N canvas 0 0 50 50 sub 0;\n#X msg 3 4 hi;\n"

/-- A patch with two connected objects, an unconnected plain object
(removable by `optimize`'s pruning pass), and set layout anchors. -/
def exOptimizePatch : Patcher :=
  .mk [.obj 0 0 0 (chars "osc~") none none,
       .obj 1 0 0 (chars "dac~") none none,
       .obj 2 0 0 (chars "dead") none none]
    [⟨0, 0, 1, 0⟩] ⟨some 2, some 2, DEFAULT_MARGIN, ROW_HEIGHT, COLUMN_WIDTH⟩ 3

/-- Postcondition of pass 1 of `to_builder` on the node-derived prefix
of a `from_builder` element list: one new node per graph node, appended
in order, with freshly allocated consecutive identity tags. -/
def Pass1Post (ns : List ApiNode) (patch : Patcher) (nm : List (Option ApiNode))
    (res : Patcher × List (Option ApiNode)) : Prop :=
  ∃ newNodes : List ApiNode,
    res.1.nodes = patch.nodes ++ newNodes ∧
    res.2 = nm ++ newNodes.map some ∧
    res.1.connections = patch.connections ∧
    res.1.nextId = patch.nextId + ns.length ∧
    newNodes.length = ns.length ∧
    ∀ j (hj : j < newNodes.length), (newNodes.get ⟨j, hj⟩).nid = patch.nextId + j

/-- A two-node graph built through the Patcher API whose round trip
succeeds: `osc~` and `dac~` with registry-consistent endpoint counts. -/
def exRTPatch : Patcher :=
  let s0 := Patcher.new
  let (s1, a) := s0.add (chars "osc~") 1 0 10 10 none none
  let (s2, b) := s1.add (chars "dac~") 1 0 10 50 none none
  match s2.link (.node a) b 0 0 with
  | .ok p => p
  | .error _ => s2

/-- The graph the round trip of `exRTPatch` reconstructs. -/
def exRTResult : Patcher :=
  match to_builder (from_builder exRTPatch) with
  | .ok p => p
  | .error _ => Patcher.new

/-- Depth read of the BFS relaxation (`depth.get(i, 0)`). -/
def dval (d : List (Nat × Nat)) (i : Nat) : Nat := (aGet d i).getD 0

/-- Termination potential of the depth BFS against a ranking `f` on an
`n`-node universe: queue length plus the total remaining headroom of
the depth map below `f`. -/
def sumPhi (f : Nat → Nat) (n : Nat) (d : List (Nat × Nat)) : Nat :=
  ((List.range n).map (fun i => f i - dval d i)).sum

/-- The `x_pos` parameter of a node (`none` for `Array`, which has no
position keys). -/
def xPosQ : ApiNode → Option Int
  | .array _ _ _ _ _ => none
  | .obj _ x _ _ _ _ => some x
  | .abstraction _ x _ _ _ _ _ => some x
  | .msg _ x _ _ _ _ => some x
  | .float _ x _ _ _ _ _ _ _ _ _ => some x
  | .comment _ x _ _ => some x
  | .subpatch _ x _ _ _ _ _ _ _ _ _ _ _ => some x
  | .bang _ x _ _ _ _ _ _ _ _ _ _ _ _ _ _ _ => some x
  | .toggle _ x _ _ _ _ _ _ _ _ _ _ _ _ _ _ _ => some x
  | .symbol _ x _ _ _ _ _ _ _ _ => some x
  | .numberbox _ x _ _ _ _ _ _ _ _ _ _ _ _ _ _ _ _ _ _ _ => some x
  | .vslider _ x _ _ _ _ _ _ _ _ _ _ _ _ _ _ _ _ _ _ _ => some x
  | .hslider _ x _ _ _ _ _ _ _ _ _ _ _ _ _ _ _ _ _ _ _ => some x
  | .vradio _ x _ _ _ _ _ _ _ _ _ _ _ _ _ _ _ _ => some x
  | .hradio _ x _ _ _ _ _ _ _ _ _ _ _ _ _ _ _ _ => some x
  | .canvas _ x _ _ _ _ _ _ _ _ _ _ _ _ _ => some x
  | .vu _ x _ _ _ _ _ _ _ _ _ _ _ _ => some x

/-- The `y_pos` parameter of a node (`none` for `Array`). -/
def yPosQ : ApiNode → Option Int
  | .array _ _ _ _ _ => none
  | .obj _ _ y _ _ _ => some y
  | .abstraction _ _ y _ _ _ _ => some y
  | .msg _ _ y _ _ _ => some y
  | .float _ _ y _ _ _ _ _ _ _ _ => some y
  | .comment _ _ y _ => some y
  | .subpatch _ _ y _ _ _ _ _ _ _ _ _ _ => some y
  | .bang _ _ y _ _ _ _ _ _ _ _ _ _ _ _ _ _ => some y
  | .toggle _ _ y _ _ _ _ _ _ _ _ _ _ _ _ _ _ => some y
  | .symbol _ _ y _ _ _ _ _ _ _ => some y
  | .numberbox _ _ y _ _ _ _ _ _ _ _ _ _ _ _ _ _ _ _ _ _ => some y
  | .vslider _ _ y _ _ _ _ _ _ _ _ _ _ _ _ _ _ _ _ _ _ => some y
  | .hslider _ _ y _ _ _ _ _ _ _ _ _ _ _ _ _ _ _ _ _ _ => some y
  | .vradio _ _ y _ _ _ _ _ _ _ _ _ _ _ _ _ _ _ => some y
  | .hradio _ _ y _ _ _ _ _ _ _ _ _ _ _ _ _ _ _ => some y
  | .canvas _ _ y _ _ _ _ _ _ _ _ _ _ _ _ => some y
  | .vu _ _ y _ _ _ _ _ _ _ _ _ _ _ => some y

/-- The layout `auto_layout` computes for the visible 3-node cycle at
fuel 20 (the run completes well within that bound). -/
def exCycleLayout : Patcher :=
  match exCyclePatch.auto_layout 50 40 120 true 20 with
  | .ok (some q) => q
  | _ => Patcher.new

/-! ### Round-trip normal form and replay infrastructure (C1) -/


/-- Constructor discriminant of a `PdElement` (the element's kind). -/
def elemKind : PdElement → Nat
  | .obj .. => 0
  | .msg .. => 1
  | .floatatom .. => 2
  | .symbolatom .. => 3
  | .text .. => 4
  | .array .. => 5
  | .connect .. => 6
  | .coords .. => 7
  | .bng .. => 8
  | .tgl .. => 9
  | .nbx .. => 10
  | .vsl .. => 11
  | .hsl .. => 12
  | .vradio .. => 13
  | .hradio .. => 14
  | .cnv .. => 15
  | .vu .. => 16
  | .subpatch .. => 17

/-- A well-formed token as `_tokenize` produces and re-reads it: every
backslash starts a two-character escape unit (so no trailing lone
backslash, whose serialized form would capture the appended semicolon),
no unescaped space, tab or semicolon (which would split or end the
token), and no newline or carriage return anywhere (which `_preprocess`
would rewrite on the next parse). -/
def goodTokB : Str → Bool
  | [] => true
  | c :: r =>
    if c = '\\' then
      match r with
      | [] => false
      | d :: r2 => decide (d ≠ '\n' ∧ d ≠ '\r') && goodTokB r2
    else
      decide (c ≠ ' ' ∧ c ≠ '\t' ∧ c ≠ ';' ∧ c ≠ '\\' ∧ c ≠ '\n' ∧ c ≠ '\r') && goodTokB r

/-- A usable token: non-empty and well formed. -/
def okTok (t : Str) : Bool := !t.isEmpty && goodTokB t

/-- Every token of the list is usable. -/
def okToks (ts : List Str) : Bool := ts.all okTok

/-- Message/comment content in parser-normal form: either empty, or the
single-space join of the usable tokens it re-tokenizes to (which is
exactly the shape `_parse_msg`/`_parse_text` produce). -/
def okContent (c : Str) : Bool :=
  c.isEmpty || (okToks (tokenize c) && decide (joinSpace (tokenize c) = c))

/-- The stored decimal is in canonical (trailing-zero-free) form, as
`_parse_float` always leaves it. -/
def canonFB (f : PyFloat) : Bool := decide (canonF f.m f.k = f)

/-- Whether `_parse_obj` would capture a generic object line with this
class name and argument count as one of the fixed GUI schemas. -/
def guiCapture (cls : Str) (n : Nat) : Bool :=
  (decide (cls = chars "bng") && decide (14 ≤ n)) ||
  (decide (cls = chars "tgl") && decide (15 ≤ n)) ||
  (decide (cls = chars "nbx") && decide (18 ≤ n)) ||
  (decide (cls = chars "vsl") && decide (18 ≤ n)) ||
  (decide (cls = chars "hsl") && decide (18 ≤ n)) ||
  (decide (cls = chars "vradio") && decide (15 ≤ n)) ||
  (decide (cls = chars "hradio") && decide (15 ≤ n)) ||
  (decide (cls = chars "cnv") && decide (13 ≤ n)) ||
  (decide (cls = chars "vu") && decide (12 ≤ n))

/-- A canvas record the serializer/parser pair reproduces: an unnamed
canvas must carry the parser's `open_on_load = 0`, a named one a usable
single-token name and the parser's hard-coded `font_size = 10`. -/
def wfCanvasB (c : CanvasProperties) : Bool :=
  match c.name with
  | none => decide (c.open_on_load = 0)
  | some n => okTok n && decide (c.font_size = 10)

mutual

/-- Parser-normal form of one element: string fields are usable tokens
(or normal-form contents), floats are canonical decimals, a generic
object must not collide with a GUI schema, a subpatch carries its
restore record, and no `tgl` element occurs (its serialized line has 14
arguments while `_parse_obj` demands 15, so it cannot survive a second
parse). -/
def wfElemB : PdElement → Bool
  | .obj _ cls args => okTok cls && okToks args && !guiCapture cls args.length
  | .msg _ content => okContent content
  | .floatatom _ _ lo hi _ label receive send =>
      canonFB lo && canonFB hi && okTok label && okTok receive && okTok send
  | .symbolatom _ _ lo hi _ label receive send =>
      canonFB lo && canonFB hi && okTok label && okTok receive && okTok send
  | .text _ content => okContent content
  | .array name _ dtype _ => okTok name && okTok dtype
  | .connect _ _ _ _ => true
  | .coords xf yf xt yt _ _ _ _ _ _ =>
      canonFB xf && canonFB yf && canonFB xt && canonFB yt
  | .bng _ _ _ _ _ send receive label _ _ _ _ _ _ _ =>
      okTok send && okTok receive && okTok label
  | .tgl _ _ _ _ _ _ _ _ _ _ _ _ _ _ _ => false
  | .nbx _ _ _ mn mx _ _ send receive label _ _ _ _ _ _ _ iv _ =>
      canonFB mn && canonFB mx && canonFB iv && okTok send && okTok receive && okTok label
  | .vsl _ _ _ mn mx _ _ send receive label _ _ _ _ _ _ _ iv _ =>
      canonFB mn && canonFB mx && canonFB iv && okTok send && okTok receive && okTok label
  | .hsl _ _ _ mn mx _ _ send receive label _ _ _ _ _ _ _ iv _ =>
      canonFB mn && canonFB mx && canonFB iv && okTok send && okTok receive && okTok label
  | .vradio _ _ _ _ _ send receive label _ _ _ _ _ _ _ _ =>
      okTok send && okTok receive && okTok label
  | .hradio _ _ _ _ _ send receive label _ _ _ _ _ _ _ _ =>
      okTok send && okTok receive && okTok label
  | .cnv _ _ _ _ send receive label _ _ _ _ _ _ =>
      okTok send && okTok receive && okTok label
  | .vu _ _ _ receive label _ _ _ _ _ _ _ =>
      okTok receive && okTok label
  | .subpatch c es r =>
      wfCanvasB c &&
      (match r with
       | none => false
       | some rr => !rr.name.isEmpty && okContent rr.name) &&
      wfListB es
termination_by structural e => e

/-- Parser-normal form of an element list, pointwise. -/
def wfListB : List PdElement → Bool
  | [] => true
  | e :: es => wfElemB e && wfListB es
termination_by structural es => es

end

/-- Parser-normal form of a whole patch. -/
def wfPatchB (p : PdPatch) : Bool := wfCanvasB p.canvas && wfListB p.elements

/-- The `#N canvas` statement the serializer emits for canvas `c`. -/
def canvasLine (c : CanvasProperties) : Str :=
  chars "#N canvas " ++ canvasStr c ++ [';']

mutual

/-- The statement list an element contributes to the serialized
document: one statement for a flat element, and for a subpatch its
canvas line, its elements' statements and its restore line. -/
def stmtsOfElem : PdElement → List Str
  | .subpatch c es r =>
      canvasLine c :: (stmtsOfList es ++
        (match r with
         | some rr => [restoreStr rr]
         | none => []))
  | e => [elemStr e]
termination_by structural e => e

/-- Statements contributed by a list of elements, in order. -/
def stmtsOfList : List PdElement → List Str
  | [] => []
  | e :: es => stmtsOfElem e ++ stmtsOfList es
termination_by structural es => es

end

/-- Whether the two-character string `a b` occurs as a substring. -/
def hasPair (a b : Char) : Str → Bool
  | [] => false
  | [_] => false
  | c :: d :: r => (decide (c = a) && decide (d = b)) || hasPair a b (d :: r)

/-- The statement-splitting scan never cuts inside this string: every
backslash starts a complete two-character escape unit and no unescaped
semicolon occurs. -/
def noCutB : Str → Bool
  | [] => true
  | c :: r =>
    if c = '\\' then
      match r with
      | [] => false
      | _ :: r2 => noCutB r2
    else
      decide (c ≠ ';') && noCutB r

/-- A statement exactly as `_split_statements` re-reads it from the
serialized document: a `#`-led body with no unescaped semicolon,
terminated by one semicolon, free of newline and carriage return. -/
def GoodStmt (s : Str) : Prop :=
  ∃ body, s = body ++ [';'] ∧ body.head? = some '#' ∧ noCutB body = true ∧
    ∀ c ∈ s, c ≠ '\n' ∧ c ≠ '\r'

/-- Base-10 digits of `n`, most significant first, with `[0]` for zero
(the digit list `natRepr` prints). -/
def bigDigits (n : Nat) : List Nat :=
  if n = 0 then [0] else (Nat.digits 10 n).reverse

/-- A patch text whose toggle line carries 16 arguments (more than the
15 `_parse_obj` demands, so the first parse builds a `tgl` element). -/
def exTglIn : Str :=
  chars "#N canvas 0 50 1000 600 10;\n#X obj 10 20 tgl 19 1 snd rcv lbl 3 4 5 6 7 8 9 10 11 12;"

/-- The canvas of `exTglIn`. -/
def exTglCanvas : CanvasProperties := ⟨0, 50, 1000, 600, 10, none, 0⟩

/-- The toggle element the first parse of `exTglIn` produces (the
sixteenth argument `12` is beyond the schema and is dropped). -/
def exTglElem : PdElement :=
  .tgl ⟨10, 20⟩ 19 1 (chars "snd") (chars "rcv") (chars "lbl") 3 4 5 6 7 8 9 10 11

/-- The generic object the second parse produces instead: the
serialized toggle line has only 14 arguments, below the 15 the `tgl`
schema demands, so it falls through to the generic-object branch. -/
def exTglObj : PdElement :=
  .obj ⟨10, 20⟩ (chars "tgl")
    [chars "19", chars "1", chars "snd", chars "rcv", chars "lbl", chars "3",
     chars "4", chars "5", chars "6", chars "7", chars "8", chars "9",
     chars "10", chars "11"]


/-! ## Theorems -/

/-- Claim C9: `link` eagerly bounds-checks at call time — it raises
`PdConnectionError` when the outlet index is `≥` the source's declared
`num_outlets`, or the inlet index is `≥` the sink's declared
`num_inlets` (nodes with unset counts are not checked); an endpoint
that is not a member of the patch raises `NodeNotFoundError`; and on
any failure the patch's node and connection lists are unchanged — the
connection `(source index, outlet, sink index, inlet)` is appended
exactly when every check passes, with nodes, layout state and identity
counter untouched. -/
theorem C9_link_eager_bounds_check (p : Patcher) (source sink : ApiNode)
    (outlet inlet : Int) :
    (p.nodes.findIdx? (fun n => n.nid == source.nid) = none →
      p.link (.node source) sink outlet inlet = .error .nodeNotFoundError) ∧
    (∀ si, p.nodes.findIdx? (fun n => n.nid == source.nid) = some si →
      p.nodes.findIdx? (fun n => n.nid == sink.nid) = none →
      p.link (.node source) sink outlet inlet = .error .nodeNotFoundError) ∧
    (∀ si ki, p.nodes.findIdx? (fun n => n.nid == source.nid) = some si →
      p.nodes.findIdx? (fun n => n.nid == sink.nid) = some ki →
      ((∃ n, source.num_outlets = some n ∧ outlet ≥ n) →
        p.link (.node source) sink outlet inlet = .error .pdConnectionError) ∧
      ((∀ n, source.num_outlets = some n → outlet < n) →
        (∃ m, sink.num_inlets = some m ∧ inlet ≥ m) →
        p.link (.node source) sink outlet inlet = .error .pdConnectionError) ∧
      ((∀ n, source.num_outlets = some n → outlet < n) →
        (∀ m, sink.num_inlets = some m → inlet < m) →
        p.link (.node source) sink outlet inlet =
          .ok (.mk p.nodes
            (p.connections ++ [⟨(si : Int), outlet, (ki : Int), inlet⟩])
            p.layout p.nextId))) := by
  refine ⟨?_, ?_, ?_⟩
  · intro hs
    simp [Patcher.link, hs]
  · intro si hs hk
    simp [Patcher.link, hs, hk]
  · intro si ki hs hk
    refine ⟨?_, ?_, ?_⟩
    · rintro ⟨n, hn, hge⟩
      simp [Patcher.link, hs, hk, hn, hge]
    · intro hok ⟨m, hm, hge⟩
      simp only [Patcher.link, hs, hk, hm]
      cases hno : source.num_outlets with
      | none => simp [hge]
      | some n =>
        have := hok n hno
        simp [this.not_le, hge]
    · intro hok hik
      simp only [Patcher.link, hs, hk]
      cases hno : source.num_outlets with
      | none =>
        cases hni : sink.num_inlets with
        | none => simp
        | some m => simp [(hik m hni).not_le]
      | some n =>
        cases hni : sink.num_inlets with
        | none => simp [(hok n hno).not_le]
        | some m => simp [(hok n hno).not_le, (hik m hni).not_le]

/-- Witness for C9 at a concrete patch: linking the two declared nodes
of `exValidatePatch` within bounds appends exactly the connection
`(0, 0, 1, 1)`, and linking from outlet 5 (the `osc~` declares one
outlet) raises `PdConnectionError`. -/
theorem C9_link_eager_bounds_check_witness :
    exValidatePatch.link (.node (.obj 0 0 0 (chars "osc~") (some 2) (some 1)))
      (.obj 1 0 0 (chars "dac~") (some 2) (some 0)) 0 1 =
      .ok (.mk exValidatePatch.nodes
        (exValidatePatch.connections ++ [⟨0, 0, 1, 1⟩]) exValidatePatch.layout
        exValidatePatch.nextId) ∧
    exValidatePatch.link (.node (.obj 0 0 0 (chars "osc~") (some 2) (some 1)))
      (.obj 1 0 0 (chars "dac~") (some 2) (some 0)) 5 1 =
      .error .pdConnectionError := by
  constructor
  · exact ((C9_link_eager_bounds_check exValidatePatch _ _ 0 1).2.2 0 1
      (by decide) (by decide)).2.2
      (by intro n hn; cases hn; decide) (by intro m hm; cases hm; decide)
  · exact ((C9_link_eager_bounds_check exValidatePatch _ _ 5 1).2.2 0 1
      (by decide) (by decide)).1 ⟨1, rfl, by decide⟩

/-- Monad reduction for `Except`: binding a success applies the
continuation (definitional; stated for `simp`). -/
theorem except_bind_ok {α β ε : Type} (a : α) (f : α → Except ε β) :
    (Except.ok a >>= f : Except ε β) = f a := rfl

/-- `pure` into `Except` is `Except.ok` (definitional). -/
theorem except_pure_def {α ε : Type} (a : α) : (pure a : Except ε α) = Except.ok a := rfl

/-- With valid endpoint indices, one validation step never raises and
grows the accumulator by exactly the number of bound violations claim
C3 counts for that connection. -/
theorem validateStep_ok (nodes : List ApiNode) (acc : List ConnViolation)
    (c : Connection) (h1 : 0 ≤ c.source) (h2 : c.source < (nodes.length : Int))
    (h3 : 0 ≤ c.sink) (h4 : c.sink < (nodes.length : Int)) :
    ∃ r, validateStep nodes acc c = .ok r ∧
      r.length = acc.length + specConnViolations nodes c := by
  obtain ⟨sn, hsn⟩ : ∃ sn, pyListGet? nodes c.source = some sn := by
    have hlt : c.source.toNat < nodes.length := by omega
    simp only [pyListGet?, if_pos h1]
    exact ⟨_, List.get?_eq_get hlt⟩
  obtain ⟨kn, hkn⟩ : ∃ kn, pyListGet? nodes c.sink = some kn := by
    have hlt : c.sink.toNat < nodes.length := by omega
    simp only [pyListGet?, if_pos h3]
    exact ⟨_, List.get?_eq_get hlt⟩
  simp only [validateStep, hsn, hkn]
  refine ⟨_, rfl, ?_⟩
  simp only [specConnViolations, hsn, hkn, Option.some_bind]
  cases hno : sn.num_outlets <;> cases hni : kn.num_inlets <;>
    simp only [hno, hni] <;> (try split_ifs) <;> simp_all <;> try omega

/-- The validation loop with valid endpoints: it runs to completion
and records the total spec-side violation count. -/
theorem validateErrors_go (nodes : List ApiNode) (cs : List Connection)
    (acc : List ConnViolation)
    (h : ∀ c ∈ cs, 0 ≤ c.source ∧ c.source < (nodes.length : Int) ∧
      0 ≤ c.sink ∧ c.sink < (nodes.length : Int)) :
    ∃ r, cs.foldlM (validateStep nodes) acc = .ok r ∧
      r.length = acc.length + (cs.map (specConnViolations nodes)).sum := by
  induction cs generalizing acc with
  | nil => exact ⟨acc, rfl, by simp⟩
  | cons c cs ih =>
    obtain ⟨hc1, hc2, hc3, hc4⟩ := h c (List.mem_cons_self c cs)
    obtain ⟨r1, hr1, hl1⟩ := validateStep_ok nodes acc c hc1 hc2 hc3 hc4
    obtain ⟨r, hr, hl⟩ := ih r1 (fun x hx => h x (List.mem_cons_of_mem c hx))
    refine ⟨r, ?_, ?_⟩
    · simp only [List.foldlM_cons, hr1, except_bind_ok]
      exact hr
    · simp only [List.map_cons, List.sum_cons]
      omega

/-- Claim C3 (amended version of nothing — as stated): for a graph
whose connections reference valid node indices and contain `N` bound
violations (an outlet index `≥` the source's declared finite
`num_outlets`, or negative; symmetrically for inlets — endpoints with
unset counts are never flagged, which is what `specConnViolations`
encodes), `validate_connections` does not stop at the first violation:
with `N = 0` it returns the empty error list, and with `N > 0` it
raises a single `InvalidConnectionError` whose message count and
enumerated list both equal exactly `N`. -/
theorem C3_validate_enumerates_all_violations (p : Patcher) (check_cycles : Bool)
    (h : ∀ c ∈ p.connections, 0 ≤ c.source ∧ c.source < (p.nodes.length : Int) ∧
      0 ≤ c.sink ∧ c.sink < (p.nodes.length : Int)) :
    (specViolationCount p = 0 →
      p.validate_connections check_cycles = .ok (.returned [])) ∧
    (0 < specViolationCount p →
      ∃ listed, p.validate_connections check_cycles =
          .ok (.raisedInvalidConnection (specViolationCount p) listed) ∧
        listed.length = specViolationCount p) := by
  obtain ⟨r, hr, hl⟩ := validateErrors_go p.nodes p.connections [] h
  have hve : validateErrors p = .ok r := hr
  simp only [List.length_nil, Nat.zero_add] at hl
  constructor
  · intro h0
    have : r = [] := by
      rw [specViolationCount] at h0
      exact List.eq_nil_of_length_eq_zero (by rw [hl, h0])
    subst this
    simp [Patcher.validate_connections, hve, except_bind_ok, except_pure_def]
  · intro hpos
    refine ⟨r, ?_, by rw [hl]; rfl⟩
    have : ¬r.isEmpty := by
      rw [List.isEmpty_iff]
      intro he
      rw [he] at hl
      simp only [List.length_nil] at hl
      rw [specViolationCount] at hpos
      omega
    simp [Patcher.validate_connections, hve, this, specViolationCount, hl,
      except_bind_ok, except_pure_def]

/-- Witness for C3 at `exValidatePatch`, which contains exactly three
bound violations (outlet 5 ≥ 1, inlet 7 ≥ 2, negative outlet −1): the
raised error enumerates exactly three. -/
theorem C3_validate_enumerates_all_violations_witness :
    specViolationCount exValidatePatch = 3 ∧
    ∃ listed, exValidatePatch.validate_connections true =
        .ok (.raisedInvalidConnection 3 listed) ∧ listed.length = 3 := by
  have h3 : specViolationCount exValidatePatch = 3 := by decide
  refine ⟨h3, ?_⟩
  have := (C3_validate_enumerates_all_violations exValidatePatch true
    (by decide)).2 (by rw [h3]; norm_num)
  rwa [h3] at this

/-- Counterexample to claim C5 as stated: on the boundary field count
(7 fields) with a non-numeric trailing field — `#N canvas 0 0 100 100
foo;` — the claimed heuristic ("when the field count alone is
ambiguous, decide by whether the field at that position is
non-numeric") would produce a named sub-canvas, but the parser decides
by field count alone and returns a root/main canvas: `name` is `none`
and the non-numeric field is numeric-parsed as the font size, yielding
the parse-failure default 0. -/
theorem C5_counterexample_count_only :
    parse_canvas exCanvasTokens =
      .ok ⟨0, 0, 100, 100, 0, none, 0⟩ := by rfl

/-- Claim C5, amended: a canvas-open statement with fewer than 6
fields is a fatal `ParseError`; with enough fields the parser
distinguishes the forms by field count alone — 8 or more fields is a
named sub-canvas (trailing name and open-flag fields, font size fixed
at 10), 6 or 7 fields is a root/main canvas (`name` unset; with 7
fields the trailing field is numeric-parsed as the font size with
default 0, with 6 fields the font size defaults to 10).  No
non-numeric check is performed at the boundary count. -/
theorem C5_canvas_line_by_field_count (tokens : List Str) :
    (tokens.length < 6 → parse_canvas tokens = .error .invalidCanvasLine) ∧
    (tokens.length ≥ 8 →
      parse_canvas tokens = .ok ⟨parse_int (tk tokens 2) 0, parse_int (tk tokens 3) 0,
        parse_int (tk tokens 4) 0, parse_int (tk tokens 5) 0, 10,
        some (tk tokens 6), parse_int (tk tokens 7) 0⟩) ∧
    (tokens.length = 7 →
      parse_canvas tokens = .ok ⟨parse_int (tk tokens 2) 0, parse_int (tk tokens 3) 0,
        parse_int (tk tokens 4) 0, parse_int (tk tokens 5) 0,
        parse_int (tk tokens 6) 0, none, 0⟩) ∧
    (tokens.length = 6 →
      parse_canvas tokens = .ok ⟨parse_int (tk tokens 2) 0, parse_int (tk tokens 3) 0,
        parse_int (tk tokens 4) 0, parse_int (tk tokens 5) 0, 10, none, 0⟩) := by
  refine ⟨?_, ?_, ?_, ?_⟩
  · intro hlt
    rw [parse_canvas, if_pos hlt]
  · intro hge
    rw [parse_canvas, if_neg (by omega), if_pos hge, if_pos (by omega)]
  · intro h7
    rw [parse_canvas, if_neg (by omega), if_neg (by omega), if_pos (by omega)]
  · intro h6
    rw [parse_canvas, if_neg (by omega), if_neg (by omega), if_neg (by omega)]

/-- Witness for the amended C5 at concrete lines: the 7-field
non-numeric-name line parses as a main canvas, an 8-field line as a
named sub-canvas, and a 3-field line is a fatal error. -/
theorem C5_canvas_line_by_field_count_witness :
    parse_canvas exCanvasTokens = .ok ⟨0, 0, 100, 100, 0, none, 0⟩ ∧
    parse_canvas (exCanvasTokens ++ [chars "1"]) =
      .ok ⟨0, 0, 100, 100, 10, some (chars "foo"), 1⟩ ∧
    parse_canvas [chars "#N", chars "canvas", chars "0"] =
      .error .invalidCanvasLine := by
  refine ⟨?_, ?_, ?_⟩
  · have := (C5_canvas_line_by_field_count exCanvasTokens).2.2.1 (by decide)
    rw [this]; rfl
  · have := (C5_canvas_line_by_field_count (exCanvasTokens ++ [chars "1"])).2.1
      (by decide)
    rw [this]; rfl
  · exact (C5_canvas_line_by_field_count _).1 (by decide)

/-- Counterexample to claim C6 as stated: the tree `exNegConnTree`
carries the connection element `-1 0 1 0`, whose negative source index
the claim says is silently skipped.  It is not skipped: Python's
negative indexing wraps `node_map[-1]` to the last node, and the
reconstructed graph contains the connection `(1, 0, 1, 0)`. -/
theorem C6_counterexample_negative_index_wraps :
    (to_builder exNegConnTree).toOption.map Patcher.connections =
      some [⟨1, 0, 1, 0⟩] := by rfl

/-- Claim C6, amended: in `to_builder`'s second pass, a connection
endpoint index `≥` the length of the node table resolves to no node
and the connection is silently skipped (as is one resolving to a
placeholder entry); but a negative index is Python negative indexing —
if it is `≥ -len` it wraps and resolves to the corresponding entry
from the end of the table (and the connection is replayed against that
node), and if it is `< -len` it raises `IndexError`, aborting the
conversion. -/
theorem C6_out_of_range_endpoint_handling (patch : Patcher)
    (node_map : List (Option ApiNode)) (rest : List PdElement) (s o k i : Int) :
    -- resolution of a single endpoint index
    ((s ≥ (node_map.length : Int) → lookupEndpoint node_map s = .ok none) ∧
     (0 ≤ s → s < (node_map.length : Int) →
       ∃ v, node_map.get? s.toNat = some v ∧ lookupEndpoint node_map s = .ok v) ∧
     (-(node_map.length : Int) ≤ s → s < 0 →
       ∃ v, node_map.get? ((node_map.length : Int) + s).toNat = some v ∧
         lookupEndpoint node_map s = .ok v) ∧
     (s < -(node_map.length : Int) →
       lookupEndpoint node_map s = .error .indexError)) ∧
    -- effect on the replay loop
    ((lookupEndpoint node_map s = .ok none →
      ∀ v, lookupEndpoint node_map k = .ok v →
        toBuilderPass2 patch node_map (.connect s o k i :: rest) =
          toBuilderPass2 patch node_map rest) ∧
     (∀ w, lookupEndpoint node_map s = .ok w → lookupEndpoint node_map k = .ok none →
        toBuilderPass2 patch node_map (.connect s o k i :: rest) =
          toBuilderPass2 patch node_map rest) ∧
     (∀ e, lookupEndpoint node_map s = .error e →
        toBuilderPass2 patch node_map (.connect s o k i :: rest) = .error e) ∧
     (∀ w e, lookupEndpoint node_map s = .ok w → lookupEndpoint node_map k = .error e →
        toBuilderPass2 patch node_map (.connect s o k i :: rest) = .error e)) := by
  constructor
  · refine ⟨?_, ?_, ?_, ?_⟩
    · intro hge
      rw [lookupEndpoint, if_neg (by omega)]
    · intro h0 hlt
      have hlen : s.toNat < node_map.length := by omega
      refine ⟨node_map.get ⟨s.toNat, hlen⟩, List.get?_eq_get hlen, ?_⟩
      rw [lookupEndpoint, if_pos hlt, pyListGet?, if_pos h0,
        List.get?_eq_get hlen]
    · intro hge hneg
      have h0 : 0 ≤ (node_map.length : Int) + s := by omega
      have hlen : ((node_map.length : Int) + s).toNat < node_map.length := by omega
      refine ⟨node_map.get ⟨((node_map.length : Int) + s).toNat, hlen⟩,
        List.get?_eq_get hlen, ?_⟩
      rw [lookupEndpoint, if_pos (by omega), pyListGet?, if_neg (by omega),
        if_pos h0, List.get?_eq_get hlen]
    · intro hlt
      rw [lookupEndpoint, if_pos (by omega), pyListGet?, if_neg (by omega),
        if_neg (by omega)]
  · refine ⟨?_, ?_, ?_, ?_⟩
    · intro hs v hk
      cases v with
      | none => simp [toBuilderPass2, hs, hk]
      | some w => simp [toBuilderPass2, hs, hk]
    · intro w hs hk
      cases w with
      | none => simp [toBuilderPass2, hs, hk]
      | some w => simp [toBuilderPass2, hs, hk]
    · intro e hs
      simp [toBuilderPass2, hs]
    · intro w e hs hk
      simp [toBuilderPass2, hs, hk]

/-- Witness for the amended C6 at concrete trees: index 5 in a 2-node
tree is skipped (empty reconstructed connection list), index −1 wraps
to the last node, and index −3 raises `IndexError`. -/
theorem C6_out_of_range_endpoint_handling_witness :
    (to_builder ⟨defaultCanvas,
        [.obj ⟨0, 0⟩ (chars "foo") [], .obj ⟨0, 0⟩ (chars "bar") [],
          .connect 5 0 1 0]⟩).toOption.map Patcher.connections = some [] ∧
    lookupEndpoint [some (.comment 0 0 0 []), some (.comment 1 0 0 [])] (-1) =
      .ok (some (.comment 1 0 0 [])) ∧
    to_builder exNeg3ConnTree = .error .indexError := by
  refine ⟨by rfl, ?_, by rfl⟩
  have := ((C6_out_of_range_endpoint_handling Patcher.new
    [some (.comment 0 0 0 []), some (.comment 1 0 0 [])] [] (-1) 0 0 0).1.2.2.1
    (by decide) (by decide))
  obtain ⟨v, hv, hl⟩ := this
  have hv' : v = some (.comment 1 0 0 []) := by
    have h2 : some (ApiNode.comment 1 0 0 []) = v := by simpa using hv
    exact h2.symm
  rw [hl, hv']

/-- Claim C10: when the statement stream leaves one or more nested
canvases open — the `parseStep` fold ends with a non-empty
suspended-canvas stack and a still-open current canvas — `parse`
returns without error a `PdPatch` made of the innermost still-open
canvas and only that canvas's accumulated elements; the suspended outer
canvases and their accumulated element lists held on `patch_stack` (the
root canvas's included) appear nowhere in the result. -/
theorem C10_unterminated_canvas_returns_innermost
    (content : Str) (st : ParseState) (cv : CanvasProperties)
    (hfold : (split_statements (preprocess content)).foldlM parseStep
      ⟨[], none, []⟩ = .ok st)
    (hstack : st.patch_stack ≠ [])
    (hcv : st.current_canvas = some cv) :
    parse content = .ok ⟨cv, st.current_elements⟩ := by
  have hne : split_statements (preprocess content) ≠ [] := by
    intro h
    rw [h] at hfold
    simp [List.foldlM, pure, Except.pure] at hfold
    exact hstack (by rw [← hfold])
  unfold parse
  simp [if_neg hne, hfold, except_bind_ok, hcv]

/-- Witness for C10: on the concrete unterminated two-canvas input, the
fold ends with the root canvas and its `obj` suspended on the stack,
and `parse` returns the inner 50×50 canvas named `sub` holding only its
`msg` — the root's `obj` is gone. -/
theorem C10_unterminated_canvas_returns_innermost_witness :
    parse exUnterminated =
      .ok ⟨⟨0, 0, 50, 50, 10, some (chars "sub"), 0⟩, [.msg ⟨3, 4⟩ (chars "hi")]⟩ :=
  C10_unterminated_canvas_returns_innermost exUnterminated
    ⟨[(⟨0, 0, 100, 100, 10, none, 0⟩, [.obj ⟨1, 2⟩ (chars "foo") []])],
      some ⟨0, 0, 50, 50, 10, some (chars "sub"), 0⟩,
      [.msg ⟨3, 4⟩ (chars "hi")]⟩
    ⟨0, 0, 50, 50, 10, some (chars "sub"), 0⟩
    (by rfl) (by simp) (by rfl)

/-- Looking a compacted position up in an index-filtered, enumerated
list returns the element at the original position: the core lemma
behind `_remap_after_removal`'s index remapping. -/
theorem compact_get (P : Nat → Bool) :
    ∀ (l : List ApiNode) (off i : Nat), i < l.length → P (off + i) = true →
      (((l.enumFrom off).filter (fun iv => P iv.1)).map Prod.snd)[
        ((List.range i).filter (fun j => P (off + j))).length]? = l[i]? := by
  intro l
  induction l with
  | nil => intro off i hi; exact absurd hi (by simp)
  | cons a t ih =>
    intro off i hi hP
    cases i with
    | zero =>
      simp only [Nat.add_zero] at hP
      simp [List.enumFrom_cons, List.filter_cons, hP]
    | succ j =>
      have hj : j < t.length := by simpa using hi
      have hP' : P ((off + 1) + j) = true := by
        have h1 : (off + 1) + j = off + (j + 1) := by omega
        rw [h1]; exact hP
      have hmap : (List.map Nat.succ (List.range j)).filter (fun m => P (off + m)) =
          ((List.range j).filter (fun m => P ((off + 1) + m))).map Nat.succ := by
        rw [List.filter_map]
        congr 1
        apply List.filter_congr
        intro m _
        simp only [Function.comp_apply]
        congr 1
        omega
      have hlen : ((List.range (j + 1)).filter (fun m => P (off + m))).length =
          (if P off = true then 1 else 0) +
            ((List.range j).filter (fun m => P ((off + 1) + m))).length := by
        rw [List.range_succ_eq_map, List.filter_cons, hmap]
        by_cases hoff : P off
        · simp only [Nat.add_zero, hoff, if_pos, List.length_cons, List.length_map]
          omega
        · simp only [Nat.add_zero, hoff, Bool.false_eq_true, if_false, List.length_map]
          omega
      rw [hlen]
      rw [List.enumFrom_cons, List.filter_cons]
      rw [List.getElem?_cons_succ]
      by_cases hoff : P off
      · rw [show (if P (off, a).1 = true then (off, a) :: List.filter (fun iv => P iv.1)
            (List.enumFrom (off + 1) t) else List.filter (fun iv => P iv.1)
            (List.enumFrom (off + 1) t)) = (off, a) :: List.filter (fun iv => P iv.1)
            (List.enumFrom (off + 1) t) from by simp [hoff]]
        rw [if_pos hoff]
        simp only [List.map_cons]
        rw [show (1 : Nat) + ((List.range j).filter (fun m => P ((off + 1) + m))).length =
          ((List.range j).filter (fun m => P ((off + 1) + m))).length + 1 from by omega]
        rw [List.getElem?_cons_succ]
        exact ih (off + 1) j hj hP'
      · rw [show (if P (off, a).1 = true then (off, a) :: List.filter (fun iv => P iv.1)
            (List.enumFrom (off + 1) t) else List.filter (fun iv => P iv.1)
            (List.enumFrom (off + 1) t)) = List.filter (fun iv => P iv.1)
            (List.enumFrom (off + 1) t) from by simp [hoff]]
        rw [if_neg hoff, Nat.zero_add]
        exact ih (off + 1) j hj hP'

/-- Elements of the deduplication fold come from the accumulator or
the input. -/
theorem mem_dedup_foldl : ∀ (l acc : List Connection) (c : Connection),
    c ∈ l.foldl (fun acc c => if c ∈ acc then acc else acc ++ [c]) acc →
    c ∈ acc ∨ c ∈ l := by
  intro l
  induction l with
  | nil => intro acc c h; exact Or.inl h
  | cons a t ih =>
    intro acc c h
    simp only [List.foldl_cons] at h
    rcases ih _ c h with h' | h'
    · by_cases ha : a ∈ acc
      · rw [if_pos ha] at h'
        exact Or.inl h'
      · rw [if_neg ha] at h'
        rcases List.mem_append.mp h' with h'' | h''
        · exact Or.inl h''
        · simp only [List.mem_singleton] at h''
          exact Or.inr (by simp [h''])
    · exact Or.inr (List.mem_cons_of_mem a h')

/-- Elements produced by `dedupConnections` come from the input list. -/
theorem mem_dedupConnections {l : List Connection} {c : Connection}
    (h : c ∈ dedupConnections l) : c ∈ l := by
  rcases mem_dedup_foldl l [] c h with h' | h'
  · simp at h'
  · exact h'

/-- With valid endpoint indices, the connection loop of
`_remap_after_removal` never raises `KeyError`: it keeps exactly the
connections not touching the removal set, remapped by `remapConn`. -/
theorem remapConns_ok (numNodes : Nat) (rem : List Nat) :
    ∀ (conns acc : List Connection),
      (∀ c ∈ conns, 0 ≤ c.source ∧ c.source < (numNodes : Int) ∧
        0 ≤ c.sink ∧ c.sink < (numNodes : Int)) →
      conns.foldlM
        (fun (acc : List Connection) conn =>
          if inRemoval rem conn.source ∨ inRemoval rem conn.sink then Except.ok acc
          else
            match oldToNew? numNodes rem conn.source,
                oldToNew? numNodes rem conn.sink with
            | some ns, some nk =>
              Except.ok (acc ++
                [⟨(ns : Int), conn.outlet_index, (nk : Int), conn.inlet_index⟩])
            | _, _ => (Except.error ApiErr.keyError : Except ApiErr (List Connection)))
        acc =
      .ok (acc ++ (conns.filter
          (fun c => ¬(inRemoval rem c.source ∨ inRemoval rem c.sink))).map
        (remapConn rem)) := by
  intro conns
  induction conns with
  | nil => intro acc _; simp [List.foldlM, except_pure_def]
  | cons c t ih =>
    intro acc hv
    obtain ⟨h1, h2, h3, h4⟩ := hv c (List.mem_cons_self c t)
    have hv' := fun x hx => hv x (List.mem_cons_of_mem c hx)
    simp only [List.foldlM_cons]
    by_cases htouch : inRemoval rem c.source ∨ inRemoval rem c.sink
    · rw [if_pos htouch, except_bind_ok, ih acc hv']
      congr 2
      rw [List.filter_cons,
        if_neg (by simp only [decide_eq_true_eq]; exact not_not_intro htouch)]
    · have hsrc : oldToNew? numNodes rem c.source =
          some ((List.range c.source.toNat).filter (fun j => j ∉ rem)).length := by
        rw [oldToNew?, if_pos]
        refine ⟨h1, by omega, ?_⟩
        intro hmem
        exact htouch (Or.inl (by simp [inRemoval, h1, hmem]))
      have hsnk : oldToNew? numNodes rem c.sink =
          some ((List.range c.sink.toNat).filter (fun j => j ∉ rem)).length := by
        rw [oldToNew?, if_pos]
        refine ⟨h3, by omega, ?_⟩
        intro hmem
        exact htouch (Or.inr (by simp [inRemoval, h3, hmem]))
      rw [if_neg htouch, hsrc, hsnk, except_bind_ok]
      rw [ih _ hv']
      rw [List.filter_cons,
        if_pos (by simp only [decide_eq_true_eq]; exact htouch)]
      simp [remapConn, newIdxAfter]

/-- Explicit form of `_remap_after_removal` on a non-empty removal set
with valid connection endpoints. -/
theorem remap_after_removal_ok (p : Patcher) (rem : List Nat)
    (hvalid : ∀ c ∈ p.connections, 0 ≤ c.source ∧ c.source < (p.nodes.length : Int) ∧
      0 ≤ c.sink ∧ c.sink < (p.nodes.length : Int))
    (hne : rem ≠ []) :
    p.remap_after_removal rem =
      .ok (Patcher.mk (compactNodes rem p.nodes)
        ((p.connections.filter
            (fun c => ¬(inRemoval rem c.source ∨ inRemoval rem c.sink))).map
          (remapConn rem))
        p.layout.reset p.nextId) := by
  rw [Patcher.remap_after_removal,
    if_neg (by simp only [List.isEmpty_iff]; exact hne)]
  rw [remapConns_ok p.nodes.length rem p.connections [] hvalid]
  simp [except_bind_ok, except_pure_def, compactNodes]

/-- `compact_get` specialised to `compactNodes`. -/
theorem compactNodes_get (rem : List Nat) (nodes : List ApiNode) (i : Nat)
    (hi : i < nodes.length) (hmem : i ∉ rem) :
    (compactNodes rem nodes)[((List.range i).filter (fun j => j ∉ rem)).length]? =
      nodes[i]? := by
  have h := compact_get (fun j => decide (j ∉ rem)) nodes 0 i hi (by simpa using hmem)
  have hpred : ((List.range i).filter (fun j => decide ((0 + j) ∉ rem))).length =
      ((List.range i).filter (fun j => j ∉ rem)).length := by
    congr 1
    apply List.filter_congr
    intro m _
    simp [Nat.zero_add]
  rw [compactNodes]
  rw [show nodes.enum = nodes.enumFrom 0 from rfl]
  simp only [Nat.zero_add] at h
  exact h

/-- The remapped index is in bounds of the compacted node list. -/
theorem compactNodes_lt (rem : List Nat) (nodes : List ApiNode) (i : Nat)
    (hi : i < nodes.length) (hmem : i ∉ rem) :
    ((List.range i).filter (fun j => j ∉ rem)).length <
      (compactNodes rem nodes).length := by
  have h := compactNodes_get rem nodes i hi hmem
  by_contra hge
  rw [List.getElem?_eq_none (by omega)] at h
  rw [List.getElem?_eq_getElem hi] at h
  exact absurd h (by simp)

/-- A list is pointwise related to its image under a map. -/
theorem forall2_map_self {α β : Type} (R : α → β → Prop) (f : α → β) :
    ∀ (l : List α), (∀ a ∈ l, R a (f a)) → List.Forall₂ R l (l.map f) := by
  intro l
  induction l with
  | nil => intro _; simp
  | cons a t ih =>
    intro h
    simp only [List.map_cons]
    exact List.Forall₂.cons (h a (List.mem_cons_self a t))
      (ih (fun x hx => h x (List.mem_cons_of_mem a hx)))

/-- Compaction only removes nodes: the compacted list is an
order-preserving subsequence of the original. -/
theorem compactNodes_sublist (rem : List Nat) (nodes : List ApiNode) :
    (compactNodes rem nodes).Sublist nodes := by
  have h1 : (nodes.enum.filter (fun iv => iv.1 ∉ rem)).Sublist nodes.enum :=
    List.filter_sublist _
  have h2 := h1.map Prod.snd
  rw [List.enum_map_snd] at h2
  exact h2

/-- The per-connection facts of claim C8 for one surviving
connection: indices are remapped in bounds and the compacted list at
the new index holds the very node the original index held. -/
theorem remapConn_props (rem : List Nat) (nodes : List ApiNode) (c : Connection)
    (h1 : 0 ≤ c.source) (h2 : c.source < (nodes.length : Int))
    (h3 : 0 ≤ c.sink) (h4 : c.sink < (nodes.length : Int))
    (hs : ¬(inRemoval rem c.source ∨ inRemoval rem c.sink)) :
    (remapConn rem c).outlet_index = c.outlet_index ∧
    (remapConn rem c).inlet_index = c.inlet_index ∧
    0 ≤ (remapConn rem c).source ∧
    (remapConn rem c).source < ((compactNodes rem nodes).length : Int) ∧
    0 ≤ (remapConn rem c).sink ∧
    (remapConn rem c).sink < ((compactNodes rem nodes).length : Int) ∧
    (compactNodes rem nodes)[(remapConn rem c).source.toNat]? =
      nodes[c.source.toNat]? ∧
    (compactNodes rem nodes)[(remapConn rem c).sink.toNat]? =
      nodes[c.sink.toNat]? := by
  have hisrc : c.source.toNat < nodes.length := by omega
  have hisnk : c.sink.toNat < nodes.length := by omega
  have hmsrc : c.source.toNat ∉ rem := by
    intro hm
    exact hs (Or.inl (by simp [inRemoval, if_pos h1, hm]))
  have hmsnk : c.sink.toNat ∉ rem := by
    intro hm
    exact hs (Or.inr (by simp [inRemoval, if_pos h3, hm]))
  have hltsrc := compactNodes_lt rem nodes c.source.toNat hisrc hmsrc
  have hltsnk := compactNodes_lt rem nodes c.sink.toNat hisnk hmsnk
  refine ⟨rfl, rfl, ?_, ?_, ?_, ?_, ?_, ?_⟩
  · simp [remapConn, newIdxAfter]
  · simp only [remapConn, newIdxAfter]
    exact_mod_cast hltsrc
  · simp [remapConn, newIdxAfter]
  · simp only [remapConn, newIdxAfter]
    exact_mod_cast hltsnk
  · simp only [remapConn, newIdxAfter, Int.toNat_natCast]
    exact compactNodes_get rem nodes c.source.toNat hisrc hmsrc
  · simp only [remapConn, newIdxAfter, Int.toNat_natCast]
    exact compactNodes_get rem nodes c.sink.toNat hisnk hmsnk

/-- Counterexample to claim C8 as stated: on a patch where `optimize()`
removes nothing, the layout anchor state is not reset — the message-box
patch keeps its `row_head` anchor `some 0` (a reset would leave
`none`), because `_remap_after_removal` returns early on an empty
removal set. -/
theorem C8_counterexample_layout_not_reset :
    (exMsgPatch.optimize false []).toOption.map
      (fun r => r.1.layout.row_head) = some (some 0) := rfl

/-- Claim C8 (amended): for every patch whose connections reference
valid node indices, `_remap_after_removal` with a non-empty removal set
succeeds, resets the layout anchor state, keeps an order-preserving
subsequence of the nodes, drops every connection that touches the
removal set, and remaps each surviving connection in order so that its
indices lie within the compacted node list and point at the very node
objects its old indices pointed at; with an empty removal set it
returns the patch completely unchanged.  Consequently `optimize()`
(default passes) succeeds, its surviving connections are in bounds of
the compacted node list and endpoint-preserving, and the layout anchor
state is reset exactly when at least one node was removed — when
nothing is removed the anchors are preserved, not reset. -/
theorem C8_optimize_remap_and_reset (p : Patcher)
    (hvalid : ∀ c ∈ p.connections,
      0 ≤ c.source ∧ c.source < (p.nodes.length : Int) ∧
      0 ≤ c.sink ∧ c.sink < (p.nodes.length : Int)) :
    (∀ rem : List Nat, rem ≠ [] →
      ∃ q, p.remap_after_removal rem = .ok q ∧
        q.layout = p.layout.reset ∧
        q.nodes.Sublist p.nodes ∧
        List.Forall₂ (fun c c' =>
            c'.outlet_index = c.outlet_index ∧ c'.inlet_index = c.inlet_index ∧
            0 ≤ c'.source ∧ c'.source < (q.nodes.length : Int) ∧
            0 ≤ c'.sink ∧ c'.sink < (q.nodes.length : Int) ∧
            q.nodes[c'.source.toNat]? = p.nodes[c.source.toNat]? ∧
            q.nodes[c'.sink.toNat]? = p.nodes[c.sink.toNat]?)
          (p.connections.filter
            (fun c => ¬(inRemoval rem c.source ∨ inRemoval rem c.sink)))
          q.connections) ∧
    p.remap_after_removal [] = .ok p ∧
    (∃ q stats, p.optimize false [] = .ok (q, stats) ∧
      q.nodes.Sublist p.nodes ∧
      (∀ c' ∈ q.connections,
        0 ≤ c'.source ∧ c'.source < (q.nodes.length : Int) ∧
        0 ≤ c'.sink ∧ c'.sink < (q.nodes.length : Int) ∧
        ∃ c ∈ p.connections,
          c'.outlet_index = c.outlet_index ∧ c'.inlet_index = c.inlet_index ∧
          q.nodes[c'.source.toNat]? = p.nodes[c.source.toNat]? ∧
          q.nodes[c'.sink.toNat]? = p.nodes[c.sink.toNat]?) ∧
      (stats.nodes_removed = 0 → q.layout = p.layout) ∧
      (stats.nodes_removed ≠ 0 → q.layout = p.layout.reset)) := by
  obtain ⟨nodes, conns, layout, nid⟩ := p
  refine ⟨?_, ?_, ?_⟩
  · intro rem hne
    refine ⟨_, remap_after_removal_ok _ rem hvalid hne, rfl, compactNodes_sublist rem nodes, ?_⟩
    apply forall2_map_self
    intro c hc
    obtain ⟨hcm, hcs⟩ := List.mem_filter.mp hc
    have hsurv : ¬(inRemoval rem c.source ∨ inRemoval rem c.sink) := by
      simpa using hcs
    obtain ⟨h1, h2, h3, h4⟩ := hvalid c hcm
    exact remapConn_props rem nodes c h1 h2 h3 h4 hsurv
  · rw [Patcher.remap_after_removal]
    rfl
  · have hded : ∀ c ∈ dedupConnections conns,
        0 ≤ c.source ∧ c.source < ((nodes : List ApiNode).length : Int) ∧
        0 ≤ c.sink ∧ c.sink < (nodes.length : Int) := by
      intro c hc
      exact hvalid c (mem_dedupConnections hc)
    by_cases hR : prunePass nodes (dedupConnections conns) [] = []
    · refine ⟨Patcher.mk nodes (dedupConnections conns) layout nid,
        ⟨0, (conns.length : Int) - (dedupConnections conns).length,
          conns.length - (dedupConnections conns).length, 0, 0⟩, ?_, ?_, ?_, ?_, ?_⟩
      · show optimizeCore (Patcher.mk nodes conns layout nid) [] 0 = _
        rw [optimizeCore]
        simp only [Patcher.nodes, Patcher.connections, Patcher.layout, Patcher.nextId]
        rw [show collapsePass nodes (dedupConnections conns) [] =
          (dedupConnections conns, [], 0) from rfl]
        rw [hR]
        rw [show (Patcher.mk nodes (dedupConnections conns) layout
            nid).remap_after_removal [] = .ok (Patcher.mk nodes (dedupConnections conns)
            layout nid) from by rw [Patcher.remap_after_removal]; rfl]
        simp [except_bind_ok, except_pure_def, hR]
      · exact List.Sublist.refl nodes
      · intro c' hc'
        obtain ⟨h1, h2, h3, h4⟩ := hded c' hc'
        exact ⟨h1, h2, h3, h4, c', mem_dedupConnections hc', rfl, rfl, rfl, rfl⟩
      · intro _; rfl
      · intro h0; exact absurd rfl h0
    · have hrok := remap_after_removal_ok
        (Patcher.mk nodes (dedupConnections conns) layout nid)
        (prunePass nodes (dedupConnections conns) []) hded hR
      simp only [Patcher.nodes, Patcher.connections, Patcher.layout,
        Patcher.nextId] at hrok
      refine ⟨Patcher.mk
          (compactNodes (prunePass nodes (dedupConnections conns) []) nodes)
          (((dedupConnections conns).filter
            (fun c => ¬(inRemoval (prunePass nodes (dedupConnections conns) []) c.source ∨
              inRemoval (prunePass nodes (dedupConnections conns) []) c.sink))).map
            (remapConn (prunePass nodes (dedupConnections conns) [])))
          layout.reset nid,
        ⟨(prunePass nodes (dedupConnections conns) []).length,
          (conns.length : Int) - (((dedupConnections conns).filter
            (fun c => ¬(inRemoval (prunePass nodes (dedupConnections conns) []) c.source ∨
              inRemoval (prunePass nodes (dedupConnections conns) []) c.sink))).map
            (remapConn (prunePass nodes (dedupConnections conns) []))).length,
          conns.length - (dedupConnections conns).length, 0, 0⟩, ?_, ?_, ?_, ?_, ?_⟩
      · show optimizeCore (Patcher.mk nodes conns layout nid) [] 0 = _
        rw [optimizeCore]
        simp only [Patcher.nodes, Patcher.connections, Patcher.layout, Patcher.nextId]
        rw [show collapsePass nodes (dedupConnections conns) [] =
          (dedupConnections conns, [], 0) from rfl]
        rw [hrok]
        simp [except_bind_ok, except_pure_def]
      · exact compactNodes_sublist _ nodes
      · intro c' hc'
        obtain ⟨c, hcmem, hceq⟩ := List.mem_map.mp hc'
        obtain ⟨hcm, hcs⟩ := List.mem_filter.mp hcmem
        have hsurv : ¬(inRemoval (prunePass nodes (dedupConnections conns) []) c.source ∨
            inRemoval (prunePass nodes (dedupConnections conns) []) c.sink) := by
          simpa using hcs
        obtain ⟨h1, h2, h3, h4⟩ := hded c hcm
        obtain ⟨ho, hil, hb1, hb2, hb3, hb4, hg1, hg2⟩ :=
          remapConn_props (prunePass nodes (dedupConnections conns) []) nodes c
            h1 h2 h3 h4 hsurv
        subst hceq
        exact ⟨hb1, hb2, hb3, hb4, c, mem_dedupConnections hcm, ho, hil, hg1, hg2⟩
      · intro h0
        exact absurd (List.length_eq_zero.mp h0) hR
      · intro _; rfl

/-- Witness for the amended C8 at a concrete patch: the hypotheses hold
for `exOptimizePatch` and `optimize()` removes its dead object,
yielding in-bounds endpoint-preserving connections and a reset layout. -/
theorem C8_optimize_remap_and_reset_witness :
    (∀ c ∈ exOptimizePatch.connections,
      0 ≤ c.source ∧ c.source < (exOptimizePatch.nodes.length : Int) ∧
      0 ≤ c.sink ∧ c.sink < (exOptimizePatch.nodes.length : Int)) ∧
    (∃ q stats, exOptimizePatch.optimize false [] = .ok (q, stats) ∧
      q.nodes.Sublist exOptimizePatch.nodes ∧
      (∀ c' ∈ q.connections,
        0 ≤ c'.source ∧ c'.source < (q.nodes.length : Int) ∧
        0 ≤ c'.sink ∧ c'.sink < (q.nodes.length : Int) ∧
        ∃ c ∈ exOptimizePatch.connections,
          c'.outlet_index = c.outlet_index ∧ c'.inlet_index = c.inlet_index ∧
          q.nodes[c'.source.toNat]? = exOptimizePatch.nodes[c.source.toNat]? ∧
          q.nodes[c'.sink.toNat]? = exOptimizePatch.nodes[c.sink.toNat]?) ∧
      (stats.nodes_removed = 0 → q.layout = exOptimizePatch.layout) ∧
      (stats.nodes_removed ≠ 0 → q.layout = exOptimizePatch.layout.reset)) :=
  ⟨by decide, (C8_optimize_remap_and_reset exOptimizePatch (by decide)).2.2⟩


/-- Assembling step for `Pass1Post` over a cons cell. -/
theorem pass1_post_cons {n : ApiNode} {rest : List ApiNode} {patch p1 : Patcher}
    {nm : List (Option ApiNode)} {b : ApiNode}
    {res : Patcher × List (Option ApiNode)}
    (hrest : Pass1Post rest p1 (nm ++ [some b]) res)
    (hnodes : p1.nodes = patch.nodes ++ [b])
    (hnid : b.nid = patch.nextId)
    (hnext : p1.nextId = patch.nextId + 1)
    (hconns : p1.connections = patch.connections) :
    Pass1Post (n :: rest) patch nm res := by
  obtain ⟨nn, h1, h2, h3, h4, h5, h6⟩ := hrest
  refine ⟨b :: nn, ?_, ?_, ?_, ?_, ?_, ?_⟩
  · rw [h1, hnodes]
    simp
  · rw [h2]
    simp
  · rw [h3, hconns]
  · rw [h4, hnext]
    simp only [List.length_cons]
    omega
  · simp [h5]
  · intro j hj
    cases j with
    | zero => simpa using hnid
    | succ j' =>
      have hj' : j' < nn.length := by simpa using hj
      have := h6 j' hj'
      simp only [List.get_cons_succ]
      rw [this, hnext]
      omega

/-- Binding an `Except.error` short-circuits (definitional). -/
theorem except_bind_error {α β ε : Type} (e : ε) (f : α → Except ε β) :
    (Except.error e >>= f : Except ε β) = Except.error e := rfl

/-- Shape of a successful `add_subpatch` call as `to_builder` makes it:
one node appended with the next identity tag. -/
theorem add_subpatch_ok_shape {p : Patcher} {name : Str} {src : Patcher}
    {x y : Int} {cw ch : Int} {gop hide : Bool} {gw gh : Int}
    {P : Patcher} {B : ApiNode}
    (h : p.add_subpatch name src 1 0 x y none none cw ch false gop hide gw gh =
      .ok (P, B)) :
    P.nodes = p.nodes ++ [B] ∧ B.nid = p.nextId ∧
    P.connections = p.connections ∧ P.nextId = p.nextId + 1 := by
  simp only [Patcher.add_subpatch, Bool.false_eq_true, if_false] at h
  cases hc1 : countIO src.nodes [chars "inlet", chars "inlet~"] with
  | error e =>
    rw [hc1] at h
    simp [except_bind_error] at h
  | ok c1 =>
    rw [hc1] at h
    cases hc2 : countIO src.nodes [chars "outlet", chars "outlet~"] with
    | error e =>
      rw [hc2] at h
      simp [except_bind_error, except_bind_ok, except_pure_def] at h
    | ok c2 =>
      rw [hc2] at h
      simp only [except_bind_ok, except_pure_def, Except.ok.injEq,
        Prod.mk.injEq] at h
      obtain ⟨hP, hB⟩ := h
      subst hP
      subst hB
      exact ⟨rfl, rfl, rfl, rfl⟩

/-- Evaluation of `toBuilderStep` on each non-subpatch element kind
(one definitional equation per kind). -/
theorem toBuilderStep_obj (patch : Patcher) (nm : List (Option ApiNode))
    (pos : Position) (cn : Str) (args : List Str) :
    toBuilderStep patch nm (.obj pos cn args) =
      .ok ((patch.add (objText cn args) 1 0 pos.x pos.y none none).1,
        nm ++ [some (patch.add (objText cn args) 1 0 pos.x pos.y none none).2]) := rfl

theorem toBuilderStep_msg (patch : Patcher) (nm : List (Option ApiNode))
    (pos : Position) (content : Str) :
    toBuilderStep patch nm (.msg pos content) =
      .ok ((patch.add_msg content 1 0 pos.x pos.y).1,
        nm ++ [some (patch.add_msg content 1 0 pos.x pos.y).2]) := rfl

theorem toBuilderStep_floatatom (patch : Patcher) (nm : List (Option ApiNode))
    (pos : Position) (width : Int) (lower upper : PyFloat) (lp : Int)
    (label receive send : Str) :
    toBuilderStep patch nm (.floatatom pos width lower upper lp label receive send) =
      .ok (Patcher.mk (patch.nodes ++ [ApiNode.float patch.nextId pos.x pos.y width
          ⟨truncF upper, 0⟩ ⟨truncF lower, 0⟩ label receive send (some 1) (some 1)])
        patch.connections patch.layout (patch.nextId + 1),
        nm ++ [some (ApiNode.float patch.nextId pos.x pos.y width
          ⟨truncF upper, 0⟩ ⟨truncF lower, 0⟩ label receive send (some 1) (some 1))]) := rfl

theorem toBuilderStep_symbolatom (patch : Patcher) (nm : List (Option ApiNode))
    (pos : Position) (width : Int) (lower upper : PyFloat) (lp : Int)
    (label receive send : Str) :
    toBuilderStep patch nm (.symbolatom pos width lower upper lp label receive send) =
      .ok (Patcher.mk (patch.nodes ++ [ApiNode.symbol patch.nextId pos.x pos.y width
          lower upper lp label receive send])
        patch.connections patch.layout (patch.nextId + 1),
        nm ++ [some (ApiNode.symbol patch.nextId pos.x pos.y width
          lower upper lp label receive send)]) := rfl

theorem toBuilderStep_text (patch : Patcher) (nm : List (Option ApiNode))
    (pos : Position) (content : Str) :
    toBuilderStep patch nm (.text pos content) =
      .ok (Patcher.mk (patch.nodes ++ [ApiNode.comment patch.nextId pos.x pos.y content])
        patch.connections patch.layout (patch.nextId + 1),
        nm ++ [some (ApiNode.comment patch.nextId pos.x pos.y content)]) := rfl

theorem toBuilderStep_array (patch : Patcher) (nm : List (Option ApiNode))
    (name : Str) (size : Int) (et : Str) (sf : Int) :
    toBuilderStep patch nm (.array name size et sf) =
      .ok ((patch.add_array name size).1,
        nm ++ [some (patch.add_array name size).2]) := rfl

theorem toBuilderStep_bng (patch : Patcher) (nm : List (Option ApiNode))
    (pos : Position) (size hold interrupt init : Int) (s r l : Str)
    (lx ly f fs bg fg lc : Int) :
    toBuilderStep patch nm (.bng pos size hold interrupt init s r l lx ly f fs bg fg lc) =
      .ok (Patcher.mk (patch.nodes ++ [ApiNode.bang patch.nextId pos.x pos.y size hold
          interrupt init s r l lx ly f fs bg fg lc])
        patch.connections patch.layout (patch.nextId + 1),
        nm ++ [some (ApiNode.bang patch.nextId pos.x pos.y size hold
          interrupt init s r l lx ly f fs bg fg lc)]) := rfl

theorem toBuilderStep_tgl (patch : Patcher) (nm : List (Option ApiNode))
    (pos : Position) (size init : Int) (s r l : Str)
    (lx ly f fs bg fg lc iv dv : Int) :
    toBuilderStep patch nm (.tgl pos size init s r l lx ly f fs bg fg lc iv dv) =
      .ok (Patcher.mk (patch.nodes ++ [ApiNode.toggle patch.nextId pos.x pos.y size init
          s r l lx ly f fs bg fg lc iv dv])
        patch.connections patch.layout (patch.nextId + 1),
        nm ++ [some (ApiNode.toggle patch.nextId pos.x pos.y size init
          s r l lx ly f fs bg fg lc iv dv)]) := rfl

theorem toBuilderStep_nbx (patch : Patcher) (nm : List (Option ApiNode))
    (pos : Position) (w h : Int) (mn mx : PyFloat) (lf ini : Int) (s r l : Str)
    (lx ly f fs bg fg lc : Int) (iv : PyFloat) (lh : Int) :
    toBuilderStep patch nm (.nbx pos w h mn mx lf ini s r l lx ly f fs bg fg lc iv lh) =
      .ok (Patcher.mk (patch.nodes ++ [ApiNode.numberbox patch.nextId pos.x pos.y w h
          mn mx lf ini s r l lx ly f fs bg fg lc iv lh])
        patch.connections patch.layout (patch.nextId + 1),
        nm ++ [some (ApiNode.numberbox patch.nextId pos.x pos.y w h
          mn mx lf ini s r l lx ly f fs bg fg lc iv lh)]) := rfl

theorem toBuilderStep_vsl (patch : Patcher) (nm : List (Option ApiNode))
    (pos : Position) (w h : Int) (mn mx : PyFloat) (lf ini : Int) (s r l : Str)
    (lx ly f fs bg fg lc : Int) (iv : PyFloat) (st : Int) :
    toBuilderStep patch nm (.vsl pos w h mn mx lf ini s r l lx ly f fs bg fg lc iv st) =
      .ok (Patcher.mk (patch.nodes ++ [ApiNode.vslider patch.nextId pos.x pos.y w h
          mn mx lf ini s r l lx ly f fs bg fg lc iv st])
        patch.connections patch.layout (patch.nextId + 1),
        nm ++ [some (ApiNode.vslider patch.nextId pos.x pos.y w h
          mn mx lf ini s r l lx ly f fs bg fg lc iv st)]) := rfl

theorem toBuilderStep_hsl (patch : Patcher) (nm : List (Option ApiNode))
    (pos : Position) (w h : Int) (mn mx : PyFloat) (lf ini : Int) (s r l : Str)
    (lx ly f fs bg fg lc : Int) (iv : PyFloat) (st : Int) :
    toBuilderStep patch nm (.hsl pos w h mn mx lf ini s r l lx ly f fs bg fg lc iv st) =
      .ok (Patcher.mk (patch.nodes ++ [ApiNode.hslider patch.nextId pos.x pos.y w h
          mn mx lf ini s r l lx ly f fs bg fg lc iv st])
        patch.connections patch.layout (patch.nextId + 1),
        nm ++ [some (ApiNode.hslider patch.nextId pos.x pos.y w h
          mn mx lf ini s r l lx ly f fs bg fg lc iv st)]) := rfl

theorem toBuilderStep_vradio (patch : Patcher) (nm : List (Option ApiNode))
    (pos : Position) (size no ini num : Int) (s r l : Str)
    (lx ly f fs bg fg lc iv : Int) :
    toBuilderStep patch nm (.vradio pos size no ini num s r l lx ly f fs bg fg lc iv) =
      .ok (Patcher.mk (patch.nodes ++ [ApiNode.vradio patch.nextId pos.x pos.y size no
          ini num s r l lx ly f fs bg fg lc iv])
        patch.connections patch.layout (patch.nextId + 1),
        nm ++ [some (ApiNode.vradio patch.nextId pos.x pos.y size no
          ini num s r l lx ly f fs bg fg lc iv)]) := rfl

theorem toBuilderStep_hradio (patch : Patcher) (nm : List (Option ApiNode))
    (pos : Position) (size no ini num : Int) (s r l : Str)
    (lx ly f fs bg fg lc iv : Int) :
    toBuilderStep patch nm (.hradio pos size no ini num s r l lx ly f fs bg fg lc iv) =
      .ok (Patcher.mk (patch.nodes ++ [ApiNode.hradio patch.nextId pos.x pos.y size no
          ini num s r l lx ly f fs bg fg lc iv])
        patch.connections patch.layout (patch.nextId + 1),
        nm ++ [some (ApiNode.hradio patch.nextId pos.x pos.y size no
          ini num s r l lx ly f fs bg fg lc iv)]) := rfl

theorem toBuilderStep_cnv (patch : Patcher) (nm : List (Option ApiNode))
    (pos : Position) (size w h : Int) (s r l : Str)
    (lx ly f fs bg lc : Int) :
    toBuilderStep patch nm (.cnv pos size w h s r l lx ly f fs bg lc) =
      .ok (Patcher.mk (patch.nodes ++ [ApiNode.canvas patch.nextId pos.x pos.y size w h
          s r l lx ly f fs bg lc])
        patch.connections patch.layout (patch.nextId + 1),
        nm ++ [some (ApiNode.canvas patch.nextId pos.x pos.y size w h
          s r l lx ly f fs bg lc)]) := rfl

theorem toBuilderStep_vu (patch : Patcher) (nm : List (Option ApiNode))
    (pos : Position) (w h : Int) (r l : Str) (lx ly f fs bg lc sc : Int) :
    toBuilderStep patch nm (.vu pos w h r l lx ly f fs bg lc sc) =
      .ok (Patcher.mk (patch.nodes ++ [ApiNode.vu patch.nextId pos.x pos.y w h
          r l lx ly f fs bg lc sc])
        patch.connections patch.layout (patch.nextId + 1),
        nm ++ [some (ApiNode.vu patch.nextId pos.x pos.y w h
          r l lx ly f fs bg lc sc)]) := rfl

/-- A successful `toBuilderStep` on a subpatch element appends exactly
one node with the next identity tag. -/
theorem toBuilderStep_subpatch_ok {patch : Patcher} {nm : List (Option ApiNode)}
    {cv : CanvasProperties} {els : List PdElement} {restore : Option PdRestore}
    {r : Patcher × List (Option ApiNode)}
    (h : toBuilderStep patch nm (.subpatch cv els restore) = .ok r) :
    ∃ P B, r = (P, nm ++ [some B]) ∧ P.nodes = patch.nodes ++ [B] ∧
      B.nid = patch.nextId ∧ P.nextId = patch.nextId + 1 ∧
      P.connections = patch.connections := by
  simp only [toBuilderStep] at h
  split at h
  · simp at h
  · split at h
    · simp at h
    · split at h
      · simp at h
      · rename_i P B heq
        obtain ⟨hn, hb, hc, hx⟩ := add_subpatch_ok_shape heq
        simp only [Except.ok.injEq] at h
        exact ⟨P, B, h.symm, hn, hb, hx, hc⟩

/-- Pass 1 of `to_builder` on a `from_builder` node prefix satisfies
`Pass1Post`: one node per graph node, in order, with identity tags
numbered from the starting counter. -/
theorem pass1_fromNodes : ∀ (ns : List ApiNode) (patch : Patcher)
    (nm : List (Option ApiNode)) (res : Patcher × List (Option ApiNode)),
    toBuilderPass1 patch nm (fromNodes ns) = .ok res → Pass1Post ns patch nm res := by
  intro ns
  induction ns with
  | nil =>
    intro patch nm res h
    simp only [fromNodes, toBuilderPass1, Except.ok.injEq] at h
    subst h
    exact ⟨[], by simp, by simp, rfl, by simp, rfl, by intro j hj; simp at hj⟩
  | cons n rest ih =>
    intro patch nm res h
    cases n with
    | obj nid0 x y text ni no =>
      simp only [fromNodes, toBuilderPass1, toBuilderStep_obj] at h
      exact pass1_post_cons (ih _ _ _ h) rfl rfl rfl rfl
    | abstraction nid0 x y text ni no sp =>
      simp only [fromNodes, toBuilderPass1, toBuilderStep_obj] at h
      exact pass1_post_cons (ih _ _ _ h) rfl rfl rfl rfl
    | msg nid0 x y text ni no =>
      simp only [fromNodes, toBuilderPass1, toBuilderStep_msg] at h
      exact pass1_post_cons (ih _ _ _ h) rfl rfl rfl rfl
    | float nid0 x y w up lo lb rc sd ni no =>
      simp only [fromNodes, toBuilderPass1, toBuilderStep_floatatom] at h
      exact pass1_post_cons (ih _ _ _ h) rfl rfl rfl rfl
    | comment nid0 x y content =>
      simp only [fromNodes, toBuilderPass1, toBuilderStep_text] at h
      exact pass1_post_cons (ih _ _ _ h) rfl rfl rfl rfl
    | array nid0 name len et sf =>
      simp only [fromNodes, toBuilderPass1, toBuilderStep_array] at h
      exact pass1_post_cons (ih _ _ _ h) rfl rfl rfl rfl
    | symbol nid0 x y w lo up lp lb rc sd =>
      simp only [fromNodes, toBuilderPass1, toBuilderStep_symbolatom] at h
      exact pass1_post_cons (ih _ _ _ h) rfl rfl rfl rfl
    | bang nid0 x y size hold intr init s r l lx ly f fs bg fg lc =>
      simp only [fromNodes, toBuilderPass1, toBuilderStep_bng] at h
      exact pass1_post_cons (ih _ _ _ h) rfl rfl rfl rfl
    | toggle nid0 x y size init s r l lx ly f fs bg fg lc iv dv =>
      simp only [fromNodes, toBuilderPass1, toBuilderStep_tgl] at h
      exact pass1_post_cons (ih _ _ _ h) rfl rfl rfl rfl
    | numberbox nid0 x y w hh mn mx lf ini s r l lx ly f fs bg fg lc iv lh =>
      simp only [fromNodes, toBuilderPass1, toBuilderStep_nbx] at h
      exact pass1_post_cons (ih _ _ _ h) rfl rfl rfl rfl
    | vslider nid0 x y w hh mn mx lf ini s r l lx ly f fs bg fg lc iv st =>
      simp only [fromNodes, toBuilderPass1, toBuilderStep_vsl] at h
      exact pass1_post_cons (ih _ _ _ h) rfl rfl rfl rfl
    | hslider nid0 x y w hh mn mx lf ini s r l lx ly f fs bg fg lc iv st =>
      simp only [fromNodes, toBuilderPass1, toBuilderStep_hsl] at h
      exact pass1_post_cons (ih _ _ _ h) rfl rfl rfl rfl
    | vradio nid0 x y size no2 ini num s r l lx ly f fs bg fg lc iv =>
      simp only [fromNodes, toBuilderPass1, toBuilderStep_vradio] at h
      exact pass1_post_cons (ih _ _ _ h) rfl rfl rfl rfl
    | hradio nid0 x y size no2 ini num s r l lx ly f fs bg fg lc iv =>
      simp only [fromNodes, toBuilderPass1, toBuilderStep_hradio] at h
      exact pass1_post_cons (ih _ _ _ h) rfl rfl rfl rfl
    | canvas nid0 x y size w hh s r l lx ly f fs bg lc =>
      simp only [fromNodes, toBuilderPass1, toBuilderStep_cnv] at h
      exact pass1_post_cons (ih _ _ _ h) rfl rfl rfl rfl
    | vu nid0 x y w hh r l lx ly f fs bg lc sc =>
      simp only [fromNodes, toBuilderPass1, toBuilderStep_vu] at h
      exact pass1_post_cons (ih _ _ _ h) rfl rfl rfl rfl
    | subpatch nid0 x y name src ni no cw ch gop hide gw gh =>
      simp only [fromNodes, toBuilderPass1] at h
      split at h
      · simp at h
      · rename_i p1 nm1 heq
        obtain ⟨P, B, hres, hn, hb, hx, hc⟩ := toBuilderStep_subpatch_ok heq
        obtain ⟨hp1, hnm1⟩ := Prod.mk.injEq .. |>.mp hres
        subst hp1
        subst hnm1
        exact pass1_post_cons (ih _ _ _ h) hn hb hx hc

/-- Pass 1 over an appended element list runs the two halves in
sequence. -/
theorem pass1_append : ∀ (es1 es2 : List PdElement) (patch : Patcher)
    (nm : List (Option ApiNode)),
    toBuilderPass1 patch nm (es1 ++ es2) =
      match toBuilderPass1 patch nm es1 with
      | .error e => .error e
      | .ok (p', nm') => toBuilderPass1 p' nm' es2 := by
  intro es1
  induction es1 with
  | nil => intro es2 patch nm; simp [toBuilderPass1]
  | cons e es1 ih =>
    intro es2 patch nm
    simp only [List.cons_append, toBuilderPass1]
    cases toBuilderStep patch nm e with
    | error err => rfl
    | ok pr =>
      cases pr with
      | mk p' nm' => exact ih es2 p' nm'

/-- Pass 1 skips connection elements without touching patch or node
map. -/
theorem pass1_connects : ∀ (conns : List Connection) (patch : Patcher)
    (nm : List (Option ApiNode)),
    toBuilderPass1 patch nm (conns.map (fun c =>
      PdElement.connect c.source c.outlet_index c.sink c.inlet_index)) =
      .ok (patch, nm) := by
  intro conns
  induction conns with
  | nil => intro patch nm; rfl
  | cons c rest ih =>
    intro patch nm
    simp only [List.map_cons, toBuilderPass1]
    rw [show toBuilderStep patch nm
      (PdElement.connect c.source c.outlet_index c.sink c.inlet_index) =
      .ok (patch, nm) from rfl]
    exact ih patch nm

/-- Pass 2 ignores every node-derived element of a `from_builder`
prefix. -/
theorem pass2_skip_fromNodes : ∀ (ns : List ApiNode) (es : List PdElement)
    (patch : Patcher) (nm : List (Option ApiNode)),
    toBuilderPass2 patch nm (fromNodes ns ++ es) = toBuilderPass2 patch nm es := by
  intro ns
  induction ns with
  | nil => intro es patch nm; rfl
  | cons n rest ih =>
    intro es patch nm
    cases n <;>
      simp only [fromNodes, List.cons_append, toBuilderPass2] <;>
      exact ih es patch nm

/-- In a node list with consecutive identity tags, the identity search
of `link` finds exactly the list position. -/
theorem findIdx_nid : ∀ (l : List ApiNode) (base : Nat),
    (∀ j (hj : j < l.length), (l.get ⟨j, hj⟩).nid = base + j) →
    ∀ i, i < l.length →
    l.findIdx? (fun n => n.nid == base + i) = some i := by
  intro l
  induction l with
  | nil => intro base h i hi; simp at hi
  | cons a t ih =>
    intro base h i hi
    have ha : a.nid = base := by simpa using h 0 (by simp)
    cases i with
    | zero =>
      rw [List.findIdx?_cons]
      simp [ha]
    | succ j =>
      have hredir : base + (j + 1) = (base + 1) + j := by omega
      rw [hredir]
      rw [List.findIdx?_cons]
      have hne : (a.nid == (base + 1) + j) = false := by
        simp [ha]; omega
      rw [hne]
      simp only [Bool.false_eq_true, if_false]
      rw [List.findIdx?_succ]
      have ht : ∀ j' (hj' : j' < t.length), (t.get ⟨j', hj'⟩).nid = (base + 1) + j' := by
        intro j' hj'
        have := h (j' + 1) (by simpa using Nat.succ_lt_succ hj')
        simp only [List.get_cons_succ] at this
        rw [this]; omega
      rw [ih (base + 1) ht j (by simpa using hi)]
      rfl

/-- Endpoint lookup over the pass-1 node map hits the node at a valid
non-negative index. -/
theorem lookupEndpoint_map_some (l : List ApiNode) (i : Int) (h0 : 0 ≤ i)
    (hl : i < (l.length : Int)) :
    lookupEndpoint (l.map some) i =
      .ok (some (l.get ⟨i.toNat, by omega⟩)) := by
  rw [lookupEndpoint, if_pos (by simpa using hl)]
  rw [pyListGet?, if_pos h0]
  rw [List.get?_map, List.get?_eq_get (by omega)]
  rfl

/-- Pass 2 over the connection elements of `from_builder`: under valid
endpoint indices, a successful replay appends exactly the original
connection tuples, in order, leaving the nodes untouched. -/
theorem pass2_connects : ∀ (conns : List Connection) (patch : Patcher) (G' : Patcher),
    (∀ j (hj : j < patch.nodes.length), (patch.nodes.get ⟨j, hj⟩).nid = j) →
    (∀ c ∈ conns, 0 ≤ c.source ∧ c.source < (patch.nodes.length : Int) ∧
      0 ≤ c.sink ∧ c.sink < (patch.nodes.length : Int)) →
    toBuilderPass2 patch (patch.nodes.map some)
      (conns.map (fun c =>
        PdElement.connect c.source c.outlet_index c.sink c.inlet_index)) = .ok G' →
    G'.nodes = patch.nodes ∧ G'.connections = patch.connections ++ conns := by
  intro conns
  induction conns with
  | nil =>
    intro patch G' _ _ h
    simp only [List.map_nil, toBuilderPass2, Except.ok.injEq] at h
    subst h
    exact ⟨rfl, by simp⟩
  | cons c rest ih =>
    intro patch G' hnids hvalid h
    obtain ⟨h1, h2, h3, h4⟩ := hvalid c (List.mem_cons_self c rest)
    have hslt : c.source.toNat < patch.nodes.length := by omega
    have hklt : c.sink.toNat < patch.nodes.length := by omega
    simp only [List.map_cons, toBuilderPass2] at h
    rw [lookupEndpoint_map_some patch.nodes c.source h1 h2,
      lookupEndpoint_map_some patch.nodes c.sink h3 h4] at h
    simp only [Patcher.link] at h
    rw [show (patch.nodes.get ⟨c.source.toNat, by omega⟩).nid = c.source.toNat from
      hnids _ _] at h
    rw [show (patch.nodes.get ⟨c.sink.toNat, by omega⟩).nid = c.sink.toNat from
      hnids _ _] at h
    have hfs := findIdx_nid patch.nodes 0 (by simpa using hnids) c.source.toNat hslt
    have hfk := findIdx_nid patch.nodes 0 (by simpa using hnids) c.sink.toNat hklt
    simp only [Nat.zero_add] at hfs hfk
    rw [hfs, hfk] at h
    split at h
    · simp at h
    · rename_i patch1 heq
      simp only [] at heq
      have hfinal : ∀ patch1 : Patcher,
          (Except.ok (Patcher.mk patch.nodes (patch.connections ++
            [(⟨(c.source.toNat : Int), c.outlet_index, (c.sink.toNat : Int),
              c.inlet_index⟩ : Connection)]) patch.layout patch.nextId) :
            Except ApiErr Patcher) = Except.ok patch1 →
          toBuilderPass2 patch1 (List.map some patch.nodes)
            (List.map (fun c =>
              PdElement.connect c.source c.outlet_index c.sink c.inlet_index)
              rest) = Except.ok G' →
          G'.nodes = patch.nodes ∧
            G'.connections = patch.connections ++ c :: rest := by
        intro patch1 heq h
        have htup : (⟨(c.source.toNat : Int), c.outlet_index,
            (c.sink.toNat : Int), c.inlet_index⟩ : Connection) = c := by
          obtain ⟨cs, co, ck, ci⟩ := c
          simp only [Connection.mk.injEq]
          refine ⟨Int.toNat_of_nonneg h1, ?_, Int.toNat_of_nonneg h3, ?_⟩ <;> trivial
        rw [htup] at heq
        simp only [Except.ok.injEq] at heq
        rw [← heq] at h
        obtain ⟨hg1, hg2⟩ := ih
          (Patcher.mk patch.nodes (patch.connections ++ [c]) patch.layout
            patch.nextId)
          G' hnids (fun x hx => hvalid x (List.mem_cons_of_mem c hx)) h
        refine ⟨hg1, ?_⟩
        rw [hg2]
        simp [Patcher.connections]
      rcases hno : (patch.nodes.get ⟨c.source.toNat, hslt⟩).num_outlets with _ | v1
      · rw [hno] at heq
        simp only [] at heq
        rw [if_neg (by simp)] at heq
        rcases hni : (patch.nodes.get ⟨c.sink.toNat, hklt⟩).num_inlets with _ | v2
        · rw [hni] at heq
          simp only [] at heq
          rw [if_neg (by simp)] at heq
          exact hfinal patch1 heq h
        · rw [hni] at heq
          simp only [] at heq
          by_cases hb2 : c.inlet_index ≥ v2
          · rw [if_pos (by simpa using hb2)] at heq
            simp at heq
          · rw [if_neg (by simpa using hb2)] at heq
            exact hfinal patch1 heq h
      · rw [hno] at heq
        simp only [] at heq
        by_cases hb1 : c.outlet_index ≥ v1
        · rw [if_pos (by simpa using hb1)] at heq
          simp at heq
        · rw [if_neg (by simpa using hb1)] at heq
          rcases hni : (patch.nodes.get ⟨c.sink.toNat, hklt⟩).num_inlets with _ | v2
          · rw [hni] at heq
            simp only [] at heq
            rw [if_neg (by simp)] at heq
            exact hfinal patch1 heq h
          · rw [hni] at heq
            simp only [] at heq
            by_cases hb2 : c.inlet_index ≥ v2
            · rw [if_pos (by simpa using hb2)] at heq
              simp at heq
            · rw [if_neg (by simpa using hb2)] at heq
              exact hfinal patch1 heq h

/-- Counterexample to claim C2 as stated: a graph built with the
Patcher API (an `osc~` declared with `num_outlets = 3`, linked from
outlet 2 to a `dac~`) whose round trip raises `PdConnectionError`
instead of reproducing the graph — reconstruction refills the outlet
count from the registry (`osc~` gets 1), and `link` then rejects the
replayed connection. -/
theorem C2_counterexample_registry_override :
    to_builder (from_builder exRegistryOverridePatch) =
      .error .pdConnectionError := rfl

/-- Claim C2 (amended): for every graph `G` whose connection endpoint
indices are valid, if the round trip `to_builder (from_builder G)`
succeeds with `G'`, then `G'` has the same node count, the same
connection count, and for every connection the identical
`(source index, outlet, sink index, inlet)` tuple as `G` — the
connection lists are equal outright. -/
theorem C2_roundtrip_preserves_graph (G G' : Patcher)
    (hvalid : ∀ c ∈ G.connections, 0 ≤ c.source ∧ c.source < (G.nodes.length : Int) ∧
      0 ≤ c.sink ∧ c.sink < (G.nodes.length : Int))
    (hok : to_builder (from_builder G) = .ok G') :
    G'.nodes.length = G.nodes.length ∧
    G'.connections.length = G.connections.length ∧
    G'.connections = G.connections := by
  obtain ⟨ns, conns, layout, nid⟩ := G
  rw [show from_builder (Patcher.mk ns conns layout nid) =
    ⟨defaultCanvas, fromNodes ns ++ conns.map (fun conn =>
      PdElement.connect conn.source conn.outlet_index conn.sink conn.inlet_index)⟩
    from rfl] at hok
  simp only [to_builder] at hok
  rw [pass1_append] at hok
  cases hp1 : toBuilderPass1 Patcher.new [] (fromNodes ns) with
  | error e =>
    rw [hp1] at hok
    simp at hok
  | ok pr =>
    obtain ⟨P1, nmap⟩ := pr
    obtain ⟨p1n, p1c, p1l, p1i⟩ := P1
    rw [hp1] at hok
    simp only [] at hok
    rw [pass1_connects] at hok
    simp only [] at hok
    obtain ⟨newNodes, hn1, hn2, hn3, hn4, hn5, hn6⟩ := pass1_fromNodes ns _ _ _ hp1
    dsimp only [Patcher.nodes, Patcher.new, Patcher.connections,
      Patcher.nextId] at hn1 hn2 hn3 hn4 hn6
    simp only [List.nil_append, Nat.zero_add] at hn1 hn2 hn3 hn4 hn6
    subst hn1
    subst hn2
    subst hn3
    have hcast : (p1n.length : Int) = (ns.length : Int) := by rw [hn5]
    have hvalid' : ∀ c ∈ conns, 0 ≤ c.source ∧
        c.source < ((Patcher.mk p1n [] p1l p1i).nodes.length : Int) ∧
        0 ≤ c.sink ∧
        c.sink < ((Patcher.mk p1n [] p1l p1i).nodes.length : Int) := by
      intro c hc
      obtain ⟨k1, k2, k3, k4⟩ := hvalid c hc
      refine ⟨k1, ?_, k3, ?_⟩
      · show c.source < (p1n.length : Int)
        rw [hcast]; exact k2
      · show c.sink < (p1n.length : Int)
        rw [hcast]; exact k4
    have hnids : ∀ j (hj : j < (Patcher.mk p1n [] p1l p1i).nodes.length),
        ((Patcher.mk p1n [] p1l p1i).nodes.get ⟨j, hj⟩).nid = j := by
      intro j hj
      exact hn6 j hj
    rw [pass2_skip_fromNodes] at hok
    obtain ⟨hg1, hg2⟩ := pass2_connects conns (Patcher.mk p1n [] p1l p1i)
      G' hnids hvalid' hok
    refine ⟨?_, ?_, ?_⟩
    · rw [hg1]
      exact hn5
    · rw [hg2]
      show ([] ++ conns).length = conns.length
      simp
    · rw [hg2]
      show [] ++ conns = conns
      simp

/-- Witness for the amended C2: the concrete two-node graph has valid
endpoint indices, its round trip succeeds, and node count, connection
count and connection tuples are preserved. -/
theorem C2_roundtrip_preserves_graph_witness :
    (∀ c ∈ exRTPatch.connections, 0 ≤ c.source ∧
      c.source < (exRTPatch.nodes.length : Int) ∧
      0 ≤ c.sink ∧ c.sink < (exRTPatch.nodes.length : Int)) ∧
    to_builder (from_builder exRTPatch) = .ok exRTResult ∧
    (exRTResult.nodes.length = exRTPatch.nodes.length ∧
      exRTResult.connections.length = exRTPatch.connections.length ∧
      exRTResult.connections = exRTPatch.connections) :=
  ⟨by decide, rfl,
    C2_roundtrip_preserves_graph exRTPatch exRTResult (by decide) rfl⟩


/-- The depth relaxation diverges on a 2-cycle: from either one-node
queue state with the invariant inequality between the two depths, the
BFS never empties its queue, at any fuel. -/
theorem bfs_two_cycle_diverges (dag : Nat → List Nat)
    (h0 : dag 0 = [1]) (h1 : dag 1 = [0]) :
    ∀ fuel : Nat,
      (∀ a b : Nat, b ≤ a → bfsLoop dag fuel [0] [(0, a), (1, b)] = none) ∧
      (∀ a b : Nat, a ≤ b → bfsLoop dag fuel [1] [(0, a), (1, b)] = none) := by
  intro fuel
  induction fuel with
  | zero => exact ⟨fun a b _ => rfl, fun a b _ => rfl⟩
  | succ f ih =>
    constructor
    · intro a b hba
      rw [bfsLoop, h0]
      simp [aGet, aSet, List.find?]
      rw [if_pos (by omega : b < a + 1)]
      exact ih.2 a (a + 1) (by omega)
    · intro a b hab
      rw [bfsLoop, h1]
      simp [aGet, aSet, List.find?]
      rw [if_pos (by omega : a < b + 1)]
      exact ih.1 (b + 1) b (by omega)

/-- Divergence from the initial seed state of the hidden-cycle graph. -/
theorem bfs_two_cycle_diverges_init (dag : Nat → List Nat)
    (h0 : dag 0 = [1]) (h1 : dag 1 = [0]) :
    ∀ fuel : Nat, bfsLoop dag fuel [0] [(0, 0)] = none := by
  intro fuel
  cases fuel with
  | zero => rfl
  | succ f =>
    rw [bfsLoop, h0]
    simp [aGet, aSet, List.find?]
    exact (bfs_two_cycle_diverges dag h0 h1 f).2 0 1 (by omega)

/-- The back-edge DFS on the hidden-cycle shape: node 1 is hidden, so
the DFS visits only node 0 and finds no back edge, at any fuel with two
steps of headroom. -/
theorem dfs_two_hidden (adj : Nat → List Nat) (hid : Nat → Bool)
    (ha0 : adj 0 = [1]) (hh0 : hid 0 = false) (hh1 : hid 1 = true) :
    ∀ f : Nat, dfsAll adj hid (Nat.succ (Nat.succ f)) [0, 1] [] [] =
      some ([0], []) := by
  intro f
  rw [dfsAll, if_neg (by simp [hh0])]
  rw [dfsLoop]
  simp [ha0, hh1]
  rw [dfsLoop]
  rw [ha0]
  simp only [List.length_singleton, Nat.lt_irrefl, if_false, List.filter_cons,
    List.filter_nil]
  rw [dfsLoop]
  simp only []
  rw [dfsAll]
  rw [if_pos (by simp [hh1])]
  rfl

/-- `auto_layout` on the hidden-cycle patch returns the fuel-exhausted
marker at every fuel: the undetected cycle makes the depth BFS diverge. -/
theorem hidden_cycle_auto_layout_none : ∀ fuel : Nat,
    exHiddenCyclePatch.auto_layout 50 40 120 true fuel = .ok none := by
  intro fuel
  match fuel with
  | 0 => rfl
  | 1 => rfl
  | (f + 2) =>
    rw [Patcher.auto_layout]
    simp only [except_bind_ok, except_pure_def, buildAdjacency]
    rw [if_neg (by simp [exHiddenCyclePatch, Patcher.nodes])]
    rw [show List.foldlM
        (fun (_ : Unit) c =>
          if 0 ≤ c.source ∧ c.source < (exHiddenCyclePatch.nodes.length : Int) then
            if 0 ≤ c.sink ∧ c.sink < (exHiddenCyclePatch.nodes.length : Int) then
              Except.ok ()
            else Except.error ApiErr.keyError
          else Except.error ApiErr.keyError)
        () exHiddenCyclePatch.connections = Except.ok () from by rfl]
    simp only [except_bind_ok, except_pure_def]
    rw [show List.range exHiddenCyclePatch.nodes.length = [0, 1] from by rfl]
    rw [show ((f : Nat) + 2) = Nat.succ (Nat.succ f) from rfl]
    rw [dfs_two_hidden
      (fun i => sortDedup
        (List.map (fun c => c.sink.toNat)
          (List.filter (fun c => decide (c.source = (i : Int)))
            exHiddenCyclePatch.connections)))
      (fun i => (Option.map ApiNode.hidden (exHiddenCyclePatch.nodes.get? i)).getD false)
      (by rfl) (by rfl) (by rfl) f]
    simp only []
    rw [show (List.foldl
        (fun (dq : List (Nat × Nat) × List Nat) src =>
          if (aGet dq.1 src).isSome = true then (dq.1, dq.2)
          else (aSet dq.1 src 0, dq.2 ++ [src]))
        ([], [])
        (if (List.filter
              (fun i => decide
                ((List.filter (fun (i_1 : Nat) => decide
                    (i ∈ sortDedup (List.map (fun c => c.sink.toNat)
                        (List.filter (fun c => decide (c.source = (i_1 : Int)))
                          exHiddenCyclePatch.connections)) ∧
                      (i_1, i) ∉ ([] : List (Nat × Nat)))) [0, 1]).isEmpty = true ∧
                  ¬(Option.map ApiNode.hidden
                    (exHiddenCyclePatch.nodes.get? i)).getD false = true))
              [0, 1]).isEmpty = true then
          List.filter (fun i => decide
            ¬(Option.map ApiNode.hidden
              (exHiddenCyclePatch.nodes.get? i)).getD false = true) [0, 1]
        else
          List.filter (fun i => decide
            ((List.filter (fun (i_1 : Nat) => decide
                (i ∈ sortDedup (List.map (fun c => c.sink.toNat)
                    (List.filter (fun c => decide (c.source = (i_1 : Int)))
                      exHiddenCyclePatch.connections)) ∧
                  (i_1, i) ∉ ([] : List (Nat × Nat)))) [0, 1]).isEmpty = true ∧
              ¬(Option.map ApiNode.hidden
                (exHiddenCyclePatch.nodes.get? i)).getD false = true)) [0, 1]))
      = (([(0, 0)], [0]) : List (Nat × Nat) × List Nat) from by rfl]
    rw [show bfsLoop
        (fun i => List.filter (fun j => decide ((i, j) ∉ ([] : List (Nat × Nat))))
          (sortDedup (List.map (fun c => c.sink.toNat)
            (List.filter (fun c => decide (c.source = (i : Int)))
              exHiddenCyclePatch.connections))))
        f.succ.succ (([(0, 0)], [0]) : List (Nat × Nat) × List Nat).2
        (([(0, 0)], [0]) : List (Nat × Nat) × List Nat).1 = none
      from bfs_two_cycle_diverges_init _ (by rfl) (by rfl) _]

/-- Head unfolding of the assoc-list lookup. -/
theorem aGet_cons (a : Nat × Nat) (t : List (Nat × Nat)) (j : Nat) :
    aGet (a :: t) j = if a.1 = j then some a.2 else aGet t j := by
  by_cases h : a.1 = j <;> simp [aGet, List.find?, h]

/-- Overwriting one key leaves other lookups unchanged. -/
theorem aGet_map_set_ne : ∀ (d : List (Nat × Nat)) (k v j : Nat), j ≠ k →
    aGet (d.map (fun kv => if kv.1 = k then (k, v) else kv)) j = aGet d j := by
  intro d k v j hj
  induction d with
  | nil => rfl
  | cons a t ih =>
    simp only [List.map_cons]
    by_cases ha : a.1 = k
    · rw [if_pos ha, aGet_cons, aGet_cons]
      rw [if_neg (by simpa using fun h => hj h.symm : ¬(k, v).1 = j)]
      rw [if_neg (by rw [ha]; exact fun h => hj h.symm)]
      exact ih
    · rw [if_neg ha, aGet_cons, aGet_cons]
      by_cases haj : a.1 = j
      · rw [if_pos haj, if_pos haj]
      · rw [if_neg haj, if_neg haj]
        exact ih

/-- Overwriting an existing key is observed by its lookup. -/
theorem aGet_map_set_self : ∀ (d : List (Nat × Nat)) (k v : Nat),
    d.any (fun kv => kv.1 = k) = true →
    aGet (d.map (fun kv => if kv.1 = k then (k, v) else kv)) k = some v := by
  intro d k v hany
  induction d with
  | nil => simp at hany
  | cons a t ih =>
    simp only [List.map_cons]
    by_cases ha : a.1 = k
    · rw [if_pos ha, aGet_cons]
      simp
    · rw [if_neg ha, aGet_cons, if_neg ha]
      apply ih
      simp only [List.any_cons, Bool.or_eq_true_iff] at hany
      rcases hany with h | h
      · exact absurd (by simpa using h) ha
      · exact h

/-- Lookup through a single appended binding. -/
theorem aGet_append_single : ∀ (d : List (Nat × Nat)) (k v j : Nat),
    aGet (d ++ [(k, v)]) j =
      match aGet d j with
      | some x => some x
      | none => if k = j then some v else none := by
  intro d k v j
  induction d with
  | nil =>
    rw [List.nil_append, aGet_cons]
    rfl
  | cons a t ih =>
    rw [List.cons_append, aGet_cons, aGet_cons]
    by_cases ha : a.1 = j
    · rw [if_pos ha, if_pos ha]
    · rw [if_neg ha, if_neg ha]
      exact ih

/-- `aSet` then `aGet` at the written key. -/
theorem aGet_aSet_self (d : List (Nat × Nat)) (k v : Nat) :
    aGet (aSet d k v) k = some v := by
  rw [aSet]
  by_cases hany : d.any (fun kv => kv.1 = k)
  · rw [if_pos hany]
    exact aGet_map_set_self d k v hany
  · rw [if_neg hany]
    rw [aGet_append_single]
    have : aGet d k = none := by
      induction d with
      | nil => rfl
      | cons a t ih =>
        simp only [List.any_cons, Bool.or_eq_true_iff, not_or] at hany
        rw [aGet_cons, if_neg (by simpa using hany.1)]
        exact ih hany.2
    rw [this]
    simp

/-- `aSet` then `aGet` at another key. -/
theorem aGet_aSet_ne (d : List (Nat × Nat)) (k v j : Nat) (hj : j ≠ k) :
    aGet (aSet d k v) j = aGet d j := by
  rw [aSet]
  by_cases hany : d.any (fun kv => kv.1 = k)
  · rw [if_pos hany]
    exact aGet_map_set_ne d k v j hj
  · rw [if_neg hany, aGet_append_single]
    cases h : aGet d j with
    | some x => rfl
    | none =>
      simp only []
      rw [if_neg (fun hh => hj hh.symm)]

/-- A pointwise-equal-except-one-strict-drop update strictly decreases
a sum over `range n`. -/
theorem list_sum_map_update (g g' : Nat → Nat) (v : Nat) :
    ∀ n, v < n → (∀ i, i ≠ v → g' i = g i) → g' v + 1 ≤ g v →
    ((List.range n).map g').sum + 1 ≤ ((List.range n).map g).sum := by
  intro n
  induction n with
  | zero => intro h; omega
  | succ m ih =>
    intro hv hsame hdec
    rw [List.range_succ, List.map_append, List.map_append, List.sum_append,
      List.sum_append]
    by_cases hvm : v = m
    · have heq : (List.range m).map g' = (List.range m).map g := by
        apply List.map_congr_left
        intro i hi
        exact hsame i (by rw [hvm]; exact Nat.ne_of_lt (List.mem_range.mp hi))
      rw [heq]
      simp only [List.map_cons, List.map_nil, List.sum_cons, List.sum_nil]
      subst hvm
      omega
    · have hlt : v < m := by omega
      have := ih hlt hsame hdec
      have hm : g' m = g m := hsame m (fun h => hvm h.symm)
      simp only [List.map_cons, List.map_nil, List.sum_cons, List.sum_nil]
      omega

/-- One relaxation pass over a neighbor list preserves the depth-below-
ranking invariant and does not increase the termination potential
(every enqueue is paid for by a strict depth raise). -/
theorem bfs_fold (f : Nat → Nat) (n cur : Nat) :
    ∀ (ns : List Nat), (∀ v ∈ ns, f cur < f v ∧ v < n) →
    ∀ (d : List (Nat × Nat)) (q : List Nat), (∀ i, dval d i ≤ f i) →
    (∀ i, dval (ns.foldl
      (fun (dq : List (Nat × Nat) × List Nat) neighbor =>
        let (d, q) := dq
        let new_depth := (aGet d cur).getD 0 + 1
        let raise :=
          match aGet d neighbor with
          | none => true
          | some dn => dn < new_depth
        if raise then (aSet d neighbor new_depth, q ++ [neighbor]) else (d, q))
      (d, q)).1 i ≤ f i) ∧
    (ns.foldl
      (fun (dq : List (Nat × Nat) × List Nat) neighbor =>
        let (d, q) := dq
        let new_depth := (aGet d cur).getD 0 + 1
        let raise :=
          match aGet d neighbor with
          | none => true
          | some dn => dn < new_depth
        if raise then (aSet d neighbor new_depth, q ++ [neighbor]) else (d, q))
      (d, q)).2.length + sumPhi f n (ns.foldl
      (fun (dq : List (Nat × Nat) × List Nat) neighbor =>
        let (d, q) := dq
        let new_depth := (aGet d cur).getD 0 + 1
        let raise :=
          match aGet d neighbor with
          | none => true
          | some dn => dn < new_depth
        if raise then (aSet d neighbor new_depth, q ++ [neighbor]) else (d, q))
      (d, q)).1 ≤ q.length + sumPhi f n d := by
  intro ns
  induction ns with
  | nil => intro _ d q hd; exact ⟨hd, by simp⟩
  | cons v rest ih =>
    intro hns d q hd
    obtain ⟨hfv, hvn⟩ := hns v (List.mem_cons_self v rest)
    have hrest := fun x hx => hns x (List.mem_cons_of_mem v hx)
    simp only [List.foldl_cons]
    have hnd : (aGet d cur).getD 0 + 1 ≤ f v := by
      have := hd cur
      rw [dval] at this
      omega
    by_cases hraise : (match aGet d v with
        | none => true
        | some dn => decide (dn < (aGet d cur).getD 0 + 1)) = true
    · rw [if_pos hraise]
      have holdlt : dval d v < (aGet d cur).getD 0 + 1 := by
        rw [dval]
        cases hav : aGet d v with
        | none => simp
        | some dn =>
          rw [hav] at hraise
          simp only [decide_eq_true_eq] at hraise
          simpa using hraise
      have hd' : ∀ i, dval (aSet d v ((aGet d cur).getD 0 + 1)) i ≤ f i := by
        intro i
        by_cases hiv : i = v
        · subst hiv
          rw [dval, aGet_aSet_self]
          simpa using hnd
        · rw [dval, aGet_aSet_ne d v _ i hiv]
          exact hd i
      obtain ⟨r1, r2⟩ := ih hrest (aSet d v ((aGet d cur).getD 0 + 1)) (q ++ [v]) hd'
      refine ⟨r1, le_trans r2 ?_⟩
      have hsum : sumPhi f n (aSet d v ((aGet d cur).getD 0 + 1)) + 1 ≤
          sumPhi f n d := by
        rw [sumPhi, sumPhi]
        apply list_sum_map_update _ _ v n hvn
        · intro i hiv
          rw [dval, aGet_aSet_ne d v _ i hiv]
          rfl
        · have h1 : dval (aSet d v ((aGet d cur).getD 0 + 1)) v =
              (aGet d cur).getD 0 + 1 := by
            rw [dval, aGet_aSet_self]
            rfl
          rw [h1]
          omega
      have hlen : (q ++ [v]).length = q.length + 1 := by simp
      omega
    · rw [if_neg hraise]
      exact ih hrest d q hd

/-- The depth BFS terminates whenever the traversed adjacency admits a
strict ranking — in particular whenever it is a DAG: fuel at least the
initial potential suffices. -/
theorem bfsLoop_term (dag : Nat → List Nat) (f : Nat → Nat) (n : Nat)
    (hrank : ∀ u v, v ∈ dag u → f u < f v)
    (hedge : ∀ u v, v ∈ dag u → v < n) :
    ∀ (fuel : Nat) (q : List Nat) (d : List (Nat × Nat)),
    (∀ i, dval d i ≤ f i) →
    q.length + sumPhi f n d ≤ fuel →
    (bfsLoop dag fuel q d).isSome := by
  intro fuel
  induction fuel with
  | zero =>
    intro q d _ hb
    cases q with
    | nil => rw [bfsLoop]; rfl
    | cons c rest => simp at hb
  | succ F ih =>
    intro q d hd hb
    cases q with
    | nil => rw [bfsLoop]; rfl
    | cons cur rest =>
      rw [bfsLoop]
      obtain ⟨r1, r2⟩ := bfs_fold f n cur (dag cur)
        (fun v hv => ⟨hrank cur v hv, hedge cur v hv⟩) d rest hd
      simp only []
      apply ih _ _ r1
      refine le_trans r2 ?_
      simp only [List.length_cons] at hb
      omega

/-- Counterexample to claim C4 as stated: `auto_layout` does not
terminate on every graph.  A 2-cycle that passes through a hidden
(`Array`) node is invisible to the back-edge DFS (which skips hidden
nodes), no back edge is excluded, and the depth BFS then relaxes the
two depths forever: no fuel ever completes the layout. -/
theorem C4_counterexample_hidden_cycle_diverges :
    ¬ ∃ (fuel : Nat) (q : Patcher),
      exHiddenCyclePatch.auto_layout 50 40 120 true fuel = .ok (some q) := by
  rintro ⟨fuel, q, hq⟩
  rw [hidden_cycle_auto_layout_none fuel] at hq
  simp at hq

/-- Claim C4 (amended): the depth-assigning BFS of `auto_layout`
terminates on every graph whose post-exclusion adjacency admits a
strict ranking — in particular whenever back-edge exclusion leaves a
DAG — with fuel bounded by the explicit potential `sumPhi`; and for the
visible 3-node cycle A→B→C→A the DFS does exclude the closing edge,
`auto_layout` completes at fuel 20, and every node is assigned
non-negative coordinates. -/
theorem C4_bfs_termination_on_ranked_dag
    (dag : Nat → List Nat) (f : Nat → Nat) (n : Nat)
    (hrank : ∀ u v, v ∈ dag u → f u < f v)
    (hedge : ∀ u v, v ∈ dag u → v < n) :
    (∀ (fuel : Nat) (queue : List Nat) (depth : List (Nat × Nat)),
      (∀ i, dval depth i ≤ f i) →
      queue.length + sumPhi f n depth ≤ fuel →
      (bfsLoop dag fuel queue depth).isSome) ∧
    (exCyclePatch.auto_layout 50 40 120 true 20 = .ok (some exCycleLayout) ∧
      exCycleLayout.nodes.all (fun nd =>
        ((xPosQ nd).all (fun x => decide (0 ≤ x))) &&
        ((yPosQ nd).all (fun y => decide (0 ≤ y)))) = true) :=
  ⟨bfsLoop_term dag f n hrank hedge, by rfl, by rfl⟩

/-- Witness for C4 at the 3-cycle's residual DAG 0→1→2 with the
identity ranking: the BFS finishes within its potential (4 steps from
the seed state), and the concrete layout facts hold. -/
theorem C4_bfs_termination_on_ranked_dag_witness :
    (bfsLoop (fun i => if i = 0 then [1] else if i = 1 then [2] else [])
      4 [0] [(0, 0)]).isSome ∧
    (exCyclePatch.auto_layout 50 40 120 true 20 = .ok (some exCycleLayout) ∧
      exCycleLayout.nodes.all (fun nd =>
        ((xPosQ nd).all (fun x => decide (0 ≤ x))) &&
        ((yPosQ nd).all (fun y => decide (0 ≤ y)))) = true) := by
  have hrank : ∀ u v, v ∈ (fun i => if i = 0 then [1] else
      if i = 1 then [2] else ([] : List Nat)) u → (fun i => i) u < (fun i => i) v := by
    intro u v hv
    by_cases h0 : u = 0
    · subst h0; simp at hv; subst hv; decide
    · by_cases h1 : u = 1
      · subst h1; simp at hv; subst hv; decide
      · simp [h0, h1] at hv
  have hedge : ∀ u v, v ∈ (fun i => if i = 0 then [1] else
      if i = 1 then [2] else ([] : List Nat)) u → v < 3 := by
    intro u v hv
    by_cases h0 : u = 0
    · subst h0; simp at hv; omega
    · by_cases h1 : u = 1
      · subst h1; simp at hv; omega
      · simp [h0, h1] at hv
  have h := C4_bfs_termination_on_ranked_dag
    (fun i => if i = 0 then [1] else if i = 1 then [2] else []) (fun i => i) 3
    hrank hedge
  refine ⟨h.1 4 [0] [(0, 0)] ?_ (by decide), h.2⟩
  intro i
  cases i with
  | zero => simp [dval, aGet, List.find?]
  | succ j => simp [dval, aGet, List.find?]


/-- C1 counterexample: parsing `exTglIn` yields a `tgl` element, but
serializing that tree and parsing again yields a generic `obj` element
in its place (the serializer emits 14 toggle arguments while the parser
demands 15), so the element-kind sequence of the round trip differs. -/
theorem C1_counterexample_tgl_collapse :
    parse exTglIn = .ok ⟨exTglCanvas, [exTglElem]⟩ ∧
    parse (serialize ⟨exTglCanvas, [exTglElem]⟩) = .ok ⟨exTglCanvas, [exTglObj]⟩ ∧
    elemKind exTglElem ≠ elemKind exTglObj :=
  ⟨rfl, rfl, by decide⟩

theorem tokenizeGo_nil (cur : Str) :
    tokenizeGo [] cur = if cur = [] then [] else [cur.reverse] := rfl

theorem tokenizeGo_esc (d : Char) (rest cur : Str) :
    tokenizeGo ('\\' :: d :: rest) cur = tokenizeGo rest (d :: '\\' :: cur) := rfl

theorem tokenizeGo_cons (c : Char) (rest cur : Str) (h : c ≠ '\\') :
    tokenizeGo (c :: rest) cur =
      if c = ' ' ∨ c = '\t' then
        (if cur = [] then tokenizeGo rest [] else cur.reverse :: tokenizeGo rest [])
      else if c = ';' then
        (if cur = [] then tokenizeGo rest [] else cur.reverse :: tokenizeGo rest [])
      else tokenizeGo rest (c :: cur) := by
  rw [tokenizeGo.eq_def]
  split
  · rename_i heq
    exact absurd heq (by simp)
  · rename_i d r heq
    rw [List.cons.injEq] at heq
    exact absurd heq.1 h
  · rename_i c2 r2 hno heq
    injection heq with h1 h2
    subst h1
    subst h2
    rfl

theorem splitGo_nil (cur : Str) :
    splitStatementsGo [] cur =
      if pyStrip cur.reverse = [] then [] else [pyStrip cur.reverse] := rfl

theorem splitGo_esc (d : Char) (rest cur : Str) :
    splitStatementsGo ('\\' :: d :: rest) cur = splitStatementsGo rest (d :: '\\' :: cur) := rfl

theorem splitGo_cons (c : Char) (rest cur : Str) (h : c ≠ '\\') :
    splitStatementsGo (c :: rest) cur =
      if c = ';' then
        (if pyStrip ((';' :: cur).reverse) = [] then splitStatementsGo rest []
         else pyStrip ((';' :: cur).reverse) :: splitStatementsGo rest [])
      else splitStatementsGo rest (c :: cur) := by
  rw [splitStatementsGo.eq_def]
  split
  · rename_i heq
    exact absurd heq (by simp)
  · rename_i d r heq
    rw [List.cons.injEq] at heq
    exact absurd heq.1 h
  · rename_i c2 r2 hno heq
    injection heq with h1 h2
    subst h1
    subst h2
    rfl

theorem tokenizeGo_chunk : ∀ (t : Str), goodTokB t = true →
    ∀ rest cur, tokenizeGo (t ++ rest) cur = tokenizeGo rest (t.reverse ++ cur) := by
  intro t
  induction t using goodTokB.induct with
  | case1 =>
    intro _ rest cur
    simp
  | case2 =>
    intro h
    rw [goodTokB.eq_def] at h
    simp at h
  | case3 c2 r2 ih =>
    intro h rest cur
    have h2 : goodTokB r2 = true := by
      rw [goodTokB.eq_def] at h
      simp at h
      exact h.2
    rw [List.cons_append, List.cons_append, tokenizeGo_esc, ih h2]
    simp
  | case4 c r hc ih =>
    intro h rest cur
    rw [goodTokB.eq_def] at h
    simp only [if_neg hc, Bool.and_eq_true, decide_eq_true_eq] at h
    rw [List.cons_append, tokenizeGo_cons c _ _ hc,
      if_neg (by rintro (hsp | htb) <;> simp_all), if_neg h.1.2.2.1,
      ih h.2]
    simp

theorem joinSpace_nil : joinSpace [] = [] := rfl

theorem joinSpace_single (t : Str) : joinSpace [t] = t := by
  simp [joinSpace, List.intercalate]

theorem joinSpace_cons (t : Str) (ts : List Str) (h : ts ≠ []) :
    joinSpace (t :: ts) = t ++ ' ' :: joinSpace ts := by
  cases ts with
  | nil => exact absurd rfl h
  | cons t2 ts2 =>
    simp [joinSpace, List.intercalate, List.intersperse]

theorem tokenize_build_gen : ∀ (ts : List Str),
    (∀ t ∈ ts, t ≠ [] ∧ goodTokB t = true) → ts ≠ [] →
    ∀ tail, (∀ cur : Str, cur ≠ [] → tokenizeGo tail cur = [cur.reverse]) →
    tokenizeGo (joinSpace ts ++ tail) [] = ts := by
  intro ts
  induction ts with
  | nil => intro _ h; exact absurd rfl h
  | cons t ts ih =>
    intro hok _ tail htail
    have ht := hok t (by simp)
    cases ts with
    | nil =>
      rw [joinSpace_single, tokenizeGo_chunk t ht.2, htail _ (by simp [ht.1])]
      simp
    | cons t2 ts2 =>
      rw [joinSpace_cons t (t2 :: ts2) (by simp), List.append_assoc,
        tokenizeGo_chunk t ht.2, List.cons_append,
        tokenizeGo_cons ' ' _ _ (by decide), if_pos (Or.inl rfl),
        if_neg (by simp [ht.1])]
      rw [ih (fun u hu => hok u (by simp [hu])) (by simp) tail htail]
      simp

theorem tokenize_line (ts : List Str)
    (hok : ∀ t ∈ ts, t ≠ [] ∧ goodTokB t = true) (hne : ts ≠ []) :
    tokenize (joinSpace ts ++ [';']) = ts := by
  unfold tokenize
  refine tokenize_build_gen ts hok hne [';'] ?_
  intro cur hc
  rw [tokenizeGo_cons ';' _ _ (by decide), if_neg (by decide), if_pos rfl,
    if_neg hc, tokenizeGo_nil, if_pos rfl]

theorem tokenize_line_sp (ts : List Str)
    (hok : ∀ t ∈ ts, t ≠ [] ∧ goodTokB t = true) (hne : ts ≠ []) :
    tokenize (joinSpace ts ++ [' ', ';']) = ts := by
  unfold tokenize
  refine tokenize_build_gen ts hok hne [' ', ';'] ?_
  intro cur hc
  rw [tokenizeGo_cons ' ' _ _ (by decide), if_pos (Or.inl rfl), if_neg hc,
    tokenizeGo_cons ';' _ _ (by decide), if_neg (by decide), if_pos rfl,
    if_pos rfl, tokenizeGo_nil, if_pos rfl]

theorem digitChar_toNat (d : Nat) (h : d < 10) : (digitChar d).toNat = 48 + d := by
  interval_cases d <;> rfl

theorem digitVal_digitChar (d : Nat) (h : d < 10) : digitVal (digitChar d) = some d := by
  interval_cases d <;> rfl

theorem natReprGo_eq : ∀ (fuel n : Nat) (acc : Str), n ≤ fuel →
    natReprGo fuel n acc = ((Nat.digits 10 n).reverse.map digitChar) ++ acc := by
  intro fuel
  induction fuel with
  | zero =>
    intro n acc h
    interval_cases n
    simp [natReprGo]
  | succ fuel ih =>
    intro n acc h
    cases n with
    | zero => simp [natReprGo]
    | succ n =>
      have hdiv : (n + 1) / 10 ≤ fuel := by
        have := Nat.div_lt_self (Nat.succ_pos n) (by norm_num : 1 < 10)
        omega
      rw [show natReprGo (fuel + 1) (n + 1) acc =
        natReprGo fuel ((n + 1) / 10) (digitChar ((n + 1) % 10) :: acc) from rfl]
      rw [ih ((n + 1) / 10) _ hdiv]
      rw [Nat.digits_def' (show (1 : Nat) < 10 by norm_num) (Nat.succ_pos n)]
      simp

theorem natRepr_eq (n : Nat) (h : n ≠ 0) :
    natRepr n = (Nat.digits 10 n).reverse.map digitChar := by
  unfold natRepr
  rw [if_neg h, natReprGo_eq n n [] le_rfl]
  simp

theorem foldl_digit_shift (ds : List Nat) : ∀ acc : Nat,
    ds.foldl (fun a d => a * 10 + d) acc =
      acc * 10 ^ ds.length + ds.foldl (fun a d => a * 10 + d) 0 := by
  induction ds with
  | nil => intro acc; simp
  | cons d ds ih =>
    intro acc
    rw [List.foldl_cons, List.foldl_cons, ih (acc * 10 + d), ih (0 * 10 + d)]
    simp [pow_succ]
    ring

theorem foldl_reverse_digits (ds : List Nat) :
    ds.reverse.foldl (fun a d => a * 10 + d) 0 = Nat.ofDigits 10 ds := by
  induction ds with
  | nil => simp [Nat.ofDigits]
  | cons d ds ih =>
    rw [List.reverse_cons, List.foldl_append, ih, Nat.ofDigits_cons]
    simp
    ring

theorem pyDigitRunGo_digits : ∀ (ds : List Nat), (∀ d ∈ ds, d < 10) →
    ∀ acc cnt, pyDigitRunGo (ds.map digitChar) acc cnt =
      some (ds.foldl (fun a d => a * 10 + d) acc, cnt + ds.length) := by
  intro ds
  induction ds with
  | nil => intro _ acc cnt; simp [pyDigitRunGo]
  | cons d ds ih =>
    intro h acc cnt
    have hd : d < 10 := h d (by simp)
    have hstep : pyDigitRunGo (digitChar d :: List.map digitChar ds) acc cnt =
        pyDigitRunGo (List.map digitChar ds) (acc * 10 + d) (cnt + 1) := by
      interval_cases d <;> rfl
    rw [List.map_cons, hstep, ih (fun x hx => h x (by simp [hx]))]
    rw [List.foldl_cons]
    simp
    omega

theorem pyDigitRun_digits (ds : List Nat) (h : ∀ d ∈ ds, d < 10) (hne : ds ≠ []) :
    pyDigitRun (ds.map digitChar) = some (ds.foldl (fun a d => a * 10 + d) 0) := by
  cases ds with
  | nil => exact absurd rfl hne
  | cons d ds2 =>
    have hd : d < 10 := h d (by simp)
    have harm : pyDigitRun (digitChar d :: List.map digitChar ds2) =
        (match pyDigitRunGo (digitChar d :: List.map digitChar ds2) 0 0 with
         | some (v, _) => some v
         | none => none) := by
      interval_cases d <;> rfl
    rw [List.map_cons, harm, ← List.map_cons, pyDigitRunGo_digits (d :: ds2) h 0 0]

theorem natRepr_val (n : Nat) : pyDigitRun (natRepr n) = some n := by
  by_cases h : n = 0
  · subst h; rfl
  · rw [natRepr_eq n h]
    rw [pyDigitRun_digits _ ?dig ?dne]
    case dig =>
      intro d hd
      exact Nat.digits_lt_base (by norm_num) (by simpa using hd)
    case dne =>
      simp [Nat.digits_ne_nil_iff_ne_zero.mpr h]
    have hv := foldl_reverse_digits (Nat.digits 10 n)
    rw [Nat.ofDigits_digits] at hv
    rw [hv]

theorem dropWhile_id (p : Char → Bool) : ∀ (l : Str), (∀ c ∈ l, p c = false) →
    l.dropWhile p = l
  | [], _ => rfl
  | c :: r, h => by
    rw [List.dropWhile_cons, if_neg (by simp [h c (by simp)])]

theorem pyStrip_eq_self (s : Str) (h : ∀ c ∈ s, pyIsSpace c = false) : pyStrip s = s := by
  unfold pyStrip
  rw [dropWhile_id _ s h, dropWhile_id _ s.reverse (fun c hc => h c (by simpa using hc)),
    List.reverse_reverse]

theorem natRepr_mem_digit (n : Nat) : ∀ c ∈ natRepr n, ∃ d, d < 10 ∧ c = digitChar d := by
  by_cases h : n = 0
  · subst h
    intro c hc
    simp [natRepr] at hc
    exact ⟨0, by norm_num, by simpa using hc⟩
  · rw [natRepr_eq n h]
    intro c hc
    simp at hc
    obtain ⟨d, hd, rfl⟩ := hc
    exact ⟨d, Nat.digits_lt_base (by norm_num) hd, rfl⟩

theorem digit_char_facts (c : Char) (h : ∃ d, d < 10 ∧ c = digitChar d) :
    pyIsSpace c = false ∧ c ≠ ' ' ∧ c ≠ '\t' ∧ c ≠ ';' ∧ c ≠ '\\' ∧ c ≠ '\n' ∧
      c ≠ '\r' ∧ c ≠ '+' ∧ c ≠ '-' ∧ c ≠ '_' ∧ ((c == 'e' || c == 'E') = false) ∧
      ((c == '.') = false) := by
  obtain ⟨d, hd, rfl⟩ := h
  interval_cases d <;> decide

theorem natRepr_ne_nil (n : Nat) : natRepr n ≠ [] := by
  by_cases h : n = 0
  · subst h; simp [natRepr]
  · rw [natRepr_eq n h]
    simp [Nat.digits_ne_nil_iff_ne_zero.mpr h]

theorem pyInt?_natRepr (n : Nat) : pyInt? (natRepr n) = some (n : Int) := by
  unfold pyInt?
  rw [pyStrip_eq_self _ (fun c hc => (digit_char_facts c (natRepr_mem_digit n c hc)).1)]
  split
  · rename_i heq
    exact absurd heq (natRepr_ne_nil n)
  · rename_i rest heq
    have hmem : '+' ∈ natRepr n := by rw [heq]; simp
    obtain ⟨d, hd, hcd⟩ := natRepr_mem_digit n _ hmem
    exact absurd rfl ((digit_char_facts _ ⟨d, hd, hcd⟩).2.2.2.2.2.2.2.1)
  · rename_i rest heq
    have hmem : '-' ∈ natRepr n := by rw [heq]; simp
    obtain ⟨d, hd, hcd⟩ := natRepr_mem_digit n _ hmem
    exact absurd rfl ((digit_char_facts _ ⟨d, hd, hcd⟩).2.2.2.2.2.2.2.2.1)
  · rw [natRepr_val n]
    rfl

theorem pyInt?_intRepr (i : Int) : pyInt? (intRepr i) = some i := by
  unfold intRepr
  by_cases h : i < 0
  · rw [if_pos h]
    unfold pyInt?
    rw [pyStrip_eq_self _ ?hs]
    case hs =>
      intro c hc
      simp at hc
      rcases hc with rfl | hc
      · rfl
      · exact (digit_char_facts c (natRepr_mem_digit _ c hc)).1
    split
    · rename_i heq
      exact absurd heq (by simp)
    · rename_i rest heq
      rw [List.cons.injEq] at heq
      exact absurd heq.1 (by decide)
    · rename_i rest heq
      rw [List.cons.injEq] at heq
      rw [← heq.2, natRepr_val]
      simp
      rw [abs_of_nonpos h.le]
      ring
    · rename_i hn1 hn2 hn3
      exact (hn3 (natRepr i.natAbs) rfl).elim
  · rw [if_neg h, pyInt?_natRepr]
    congr 1
    omega

theorem parse_int_intRepr (i d : Int) : parse_int (intRepr i) d = i := by
  unfold parse_int
  rw [pyInt?_intRepr]
  rfl

theorem canonF_k_le : ∀ (m : Int) (k : Nat), (canonF m k).k ≤ k := by
  intro m k
  induction k generalizing m with
  | zero => rfl
  | succ k ih =>
    rw [canonF]
    split
    · exact le_trans (ih (m / 10)) (Nat.le_succ k)
    · exact le_rfl

theorem canonF_self (m : Int) (k : Nat) (h : k = 0 ∨ ¬(m % 10 = 0)) :
    canonF m k = ⟨m, k⟩ := by
  cases k with
  | zero => rfl
  | succ k =>
    rw [canonF, if_neg ?hnd]
    case hnd =>
      rcases h with h | h
      · exact absurd h (by simp)
      · exact h

theorem canonFB_elim (f : PyFloat) (h : canonFB f = true) :
    f.k = 0 ∨ ¬(f.m % 10 = 0) := by
  unfold canonFB at h
  rw [decide_eq_true_eq] at h
  by_cases hk : f.k = 0
  · exact Or.inl hk
  · refine Or.inr fun hd => ?_
    obtain ⟨k2, hk2⟩ := Nat.exists_eq_succ_of_ne_zero hk
    have : (canonF f.m f.k).k ≤ k2 := by
      rw [hk2, canonF, if_pos hd]
      exact canonF_k_le _ _
    rw [h] at this
    omega

theorem splitOnFirst_none (p : Char → Bool) : ∀ (l : Str), (∀ c ∈ l, p c = false) →
    splitOnFirst p l = (l, none) := by
  intro l
  induction l with
  | nil => intro _; rfl
  | cons c r ih =>
    intro h
    rw [splitOnFirst, if_neg (by simp [h c (by simp)]), ih (fun u hu => h u (by simp [hu]))]

theorem splitOnFirst_found (p : Char → Bool) (c : Char) (hc : p c = true) :
    ∀ (x y : Str), (∀ u ∈ x, p u = false) →
    splitOnFirst p (x ++ c :: y) = (x, some y) := by
  intro x
  induction x with
  | nil =>
    intro y _
    rw [List.nil_append, splitOnFirst, if_pos hc]
  | cons a r ih =>
    intro y h
    rw [List.cons_append, splitOnFirst, if_neg (by simp [h a (by simp)]),
      ih y (fun u hu => h u (by simp [hu]))]

theorem pyDigitRunOpt_digits (ds : List Nat) (h : ∀ d ∈ ds, d < 10) :
    pyDigitRunOpt (ds.map digitChar) =
      some (ds.foldl (fun a d => a * 10 + d) 0, ds.length) := by
  cases ds with
  | nil => rfl
  | cons d ds2 =>
    have hd : d < 10 := h d (by simp)
    have harm : pyDigitRunOpt (digitChar d :: List.map digitChar ds2) =
        pyDigitRunGo (digitChar d :: List.map digitChar ds2) 0 0 := by
      interval_cases d <;> rfl
    rw [List.map_cons, harm, ← List.map_cons, pyDigitRunGo_digits (d :: ds2) h 0 0]
    simp

theorem bigDigits_lt (n : Nat) : ∀ d ∈ bigDigits n, d < 10 := by
  intro d hd
  unfold bigDigits at hd
  by_cases h : n = 0
  · rw [if_pos h] at hd
    simp at hd
    omega
  · rw [if_neg h] at hd
    exact Nat.digits_lt_base (by norm_num) (by simpa using hd)

theorem bigDigits_ne_nil (n : Nat) : bigDigits n ≠ [] := by
  unfold bigDigits
  by_cases h : n = 0
  · simp [h]
  · simp [h, Nat.digits_ne_nil_iff_ne_zero.mpr h]

theorem natRepr_map (n : Nat) : natRepr n = (bigDigits n).map digitChar := by
  unfold bigDigits
  by_cases h : n = 0
  · subst h; rfl
  · rw [if_neg h, natRepr_eq n h]

theorem bigDigits_val (n : Nat) :
    (bigDigits n).foldl (fun a d => a * 10 + d) 0 = n := by
  unfold bigDigits
  by_cases h : n = 0
  · simp [h]
  · rw [if_neg h]
    have hv := foldl_reverse_digits (Nat.digits 10 n)
    rw [Nat.ofDigits_digits] at hv
    exact hv

theorem foldl_zeros (p : Nat) :
    (List.replicate p 0).foldl (fun a d => a * 10 + d) 0 = 0 := by
  induction p with
  | zero => rfl
  | succ p ih => simpa using ih

theorem pyFloatBody_print_zero (mm : Nat) :
    pyFloatBody? (floatRepr ⟨(mm : Int), 0⟩) = some ⟨(mm : Int), 0⟩ := by
  have hrep : floatRepr ⟨(mm : Int), 0⟩ = (bigDigits mm).map digitChar ++ '.' :: ['0'] := by
    unfold floatRepr
    simp [natRepr_map]
  rw [hrep]
  have h1 : splitOnFirst (fun c => c == 'e' || c == 'E')
      ((bigDigits mm).map digitChar ++ '.' :: ['0']) =
      ((bigDigits mm).map digitChar ++ '.' :: ['0'], none) := by
    refine splitOnFirst_none _ _ ?_
    intro c hcmem
    simp at hcmem
    rcases hcmem with ⟨d, hd, rfl⟩ | rfl | rfl
    · exact (digit_char_facts _ ⟨d, bigDigits_lt mm d hd, rfl⟩).2.2.2.2.2.2.2.2.2.2.1
    · rfl
    · rfl
  have h2 : splitOnFirst (fun c => c == '.')
      ((bigDigits mm).map digitChar ++ '.' :: ['0']) =
      ((bigDigits mm).map digitChar, some ['0']) := by
    refine splitOnFirst_found _ '.' rfl _ ['0'] ?_
    intro u hu
    simp at hu
    obtain ⟨d, hd, rfl⟩ := hu
    exact (digit_char_facts _ ⟨d, bigDigits_lt mm d hd, rfl⟩).2.2.2.2.2.2.2.2.2.2.2
  have h3 : pyDigitRunOpt ((bigDigits mm).map digitChar) =
      some (mm, (bigDigits mm).length) := by
    rw [pyDigitRunOpt_digits (bigDigits mm) (bigDigits_lt mm), bigDigits_val]
  unfold pyFloatBody?
  simp only [h1, h2, h3]
  rw [show pyDigitRunOpt ['0'] = some (0, 1) from rfl]
  simp
  rw [canonF, if_pos (by omega)]
  rw [canonF]
  simp [PyFloat.mk.injEq]

theorem pyFloatBody_print_pos (mm k : Nat) (hk : k ≠ 0) (hnd : ¬(mm % 10 = 0)) :
    pyFloatBody? (floatRepr ⟨(mm : Int), k⟩) = some ⟨(mm : Int), k⟩ := by
  have hL : 1 ≤ (bigDigits mm).length := by
    have := bigDigits_ne_nil mm
    cases h : bigDigits mm with
    | nil => exact absurd h this
    | cons a l => simp [h]
  have hPmem : ∀ d ∈ List.replicate (k + 1 - (bigDigits mm).length) 0 ++ bigDigits mm,
      d < 10 := by
    intro d hd
    rcases List.mem_append.mp hd with hd | hd
    · have := List.eq_of_mem_replicate hd
      omega
    · exact bigDigits_lt mm d hd
  have hPlen : k + 1 ≤ (List.replicate (k + 1 - (bigDigits mm).length) 0 ++
      bigDigits mm).length := by
    rw [List.length_append, List.length_replicate]
    omega
  have hrep : floatRepr ⟨(mm : Int), k⟩ =
      ((List.replicate (k + 1 - (bigDigits mm).length) 0 ++ bigDigits mm).take
        ((List.replicate (k + 1 - (bigDigits mm).length) 0 ++ bigDigits mm).length - k)).map
          digitChar ++
      '.' :: ((List.replicate (k + 1 - (bigDigits mm).length) 0 ++ bigDigits mm).drop
        ((List.replicate (k + 1 - (bigDigits mm).length) 0 ++ bigDigits mm).length - k)).map
          digitChar := by
    unfold floatRepr
    simp only [if_neg (show ¬((mm : Int) < 0) by omega), Int.natAbs_ofNat, if_neg hk,
      natRepr_map, List.map_take, List.map_drop, List.map_append, List.map_replicate,
      List.length_map, show digitChar 0 = '0' from rfl]
    simp [List.length_append, List.length_replicate, List.length_map]
  have hPval : (List.replicate (k + 1 - (bigDigits mm).length) 0 ++ bigDigits mm).foldl
      (fun a d => a * 10 + d) 0 = mm := by
    rw [List.foldl_append, foldl_zeros]
    exact bigDigits_val mm
  generalize hPdef : List.replicate (k + 1 - (bigDigits mm).length) 0 ++ bigDigits mm = P
    at hrep hPmem hPlen hPval
  have hIPlen : (P.take (P.length - k)).length = P.length - k := by
    simp
  have hFPlen : (P.drop (P.length - k)).length = k := by
    simp
    omega
  have hsplit : P.take (P.length - k) ++ P.drop (P.length - k) = P :=
    List.take_append_drop _ _
  have hvalsplit : (P.take (P.length - k)).foldl (fun a d => a * 10 + d) 0 * 10 ^ k +
      (P.drop (P.length - k)).foldl (fun a d => a * 10 + d) 0 = mm := by
    calc (P.take (P.length - k)).foldl (fun a d => a * 10 + d) 0 * 10 ^ k +
        (P.drop (P.length - k)).foldl (fun a d => a * 10 + d) 0
        = (P.drop (P.length - k)).foldl (fun a d => a * 10 + d)
            ((P.take (P.length - k)).foldl (fun a d => a * 10 + d) 0) := by
          rw [foldl_digit_shift (P.drop (P.length - k))
            ((P.take (P.length - k)).foldl (fun a d => a * 10 + d) 0), hFPlen]
      _ = (P.take (P.length - k) ++ P.drop (P.length - k)).foldl
            (fun a d => a * 10 + d) 0 := by rw [List.foldl_append]
      _ = P.foldl (fun a d => a * 10 + d) 0 := by rw [hsplit]
      _ = mm := hPval
  have hIPmem : ∀ d ∈ P.take (P.length - k), d < 10 :=
    fun d hd => hPmem d (List.mem_of_mem_take hd)
  have hFPmem : ∀ d ∈ P.drop (P.length - k), d < 10 :=
    fun d hd => hPmem d (List.mem_of_mem_drop hd)
  rw [hrep]
  have h1 : splitOnFirst (fun c => c == 'e' || c == 'E')
      ((P.take (P.length - k)).map digitChar ++ '.' :: (P.drop (P.length - k)).map digitChar) =
      ((P.take (P.length - k)).map digitChar ++ '.' :: (P.drop (P.length - k)).map digitChar,
        none) := by
    refine splitOnFirst_none _ _ ?_
    intro c hcmem
    rw [List.mem_append] at hcmem
    rcases hcmem with hcm | hcm
    · obtain ⟨d, hd, rfl⟩ := List.mem_map.mp hcm
      exact (digit_char_facts _ ⟨d, hIPmem d hd, rfl⟩).2.2.2.2.2.2.2.2.2.2.1
    · rw [List.mem_cons] at hcm
      rcases hcm with rfl | hcm
      · rfl
      · obtain ⟨d, hd, rfl⟩ := List.mem_map.mp hcm
        exact (digit_char_facts _ ⟨d, hFPmem d hd, rfl⟩).2.2.2.2.2.2.2.2.2.2.1
  have h2 : splitOnFirst (fun c => c == '.')
      ((P.take (P.length - k)).map digitChar ++ '.' :: (P.drop (P.length - k)).map digitChar) =
      ((P.take (P.length - k)).map digitChar, some ((P.drop (P.length - k)).map digitChar)) := by
    refine splitOnFirst_found _ '.' rfl _ _ ?_
    intro u hu
    obtain ⟨d, hd, rfl⟩ := List.mem_map.mp hu
    exact (digit_char_facts _ ⟨d, hIPmem d hd, rfl⟩).2.2.2.2.2.2.2.2.2.2.2
  have h3 := pyDigitRunOpt_digits (P.take (P.length - k)) hIPmem
  have h4 := pyDigitRunOpt_digits (P.drop (P.length - k)) hFPmem
  unfold pyFloatBody?
  simp only [h1, h2, h3, h4, hIPlen, hFPlen]
  rw [if_neg (show ¬(P.length - k + k = 0) by omega)]
  rw [if_neg (by simp)]
  rw [if_neg (show ¬((0 : Int) ≤ 0 - Int.ofNat k) by
    simp only [Int.ofNat_eq_natCast]; omega)]
  rw [show (-(0 - Int.ofNat k)).toNat = k by simp only [Int.ofNat_eq_natCast]; omega]
  rw [hvalsplit]
  rw [canonF_self _ _ (Or.inr (by simp only [Int.ofNat_eq_natCast]; omega))]
  rfl

theorem floatRepr_nonneg_mem (mm k : Nat) :
    ∀ c ∈ floatRepr ⟨(mm : Int), k⟩, (∃ d, d < 10 ∧ c = digitChar d) ∨ c = '.' := by
  by_cases hk : k = 0
  · subst hk
    have hrep : floatRepr ⟨(mm : Int), 0⟩ = (bigDigits mm).map digitChar ++ '.' :: ['0'] := by
      unfold floatRepr
      simp [natRepr_map]
    rw [hrep]
    intro c hc
    rw [List.mem_append] at hc
    rcases hc with hc | hc
    · obtain ⟨d, hd, rfl⟩ := List.mem_map.mp hc
      exact Or.inl ⟨d, bigDigits_lt mm d hd, rfl⟩
    · rw [List.mem_cons] at hc
      rcases hc with rfl | hc
      · exact Or.inr rfl
      · simp at hc
        subst hc
        exact Or.inl ⟨0, by norm_num, rfl⟩
  · have hrep : floatRepr ⟨(mm : Int), k⟩ =
        ((List.replicate (k + 1 - (bigDigits mm).length) 0 ++ bigDigits mm).take
          ((List.replicate (k + 1 - (bigDigits mm).length) 0 ++ bigDigits mm).length - k)).map
            digitChar ++
        '.' :: ((List.replicate (k + 1 - (bigDigits mm).length) 0 ++ bigDigits mm).drop
          ((List.replicate (k + 1 - (bigDigits mm).length) 0 ++ bigDigits mm).length - k)).map
            digitChar := by
      unfold floatRepr
      simp only [if_neg (show ¬((mm : Int) < 0) by omega), Int.natAbs_ofNat, if_neg hk,
        natRepr_map, List.map_take, List.map_drop, List.map_append, List.map_replicate,
        List.length_map, show digitChar 0 = '0' from rfl]
      simp [List.length_append, List.length_replicate, List.length_map]
    have hPmem : ∀ d ∈ List.replicate (k + 1 - (bigDigits mm).length) 0 ++ bigDigits mm,
        d < 10 := by
      intro d hd
      rcases List.mem_append.mp hd with hd | hd
      · have := List.eq_of_mem_replicate hd
        omega
      · exact bigDigits_lt mm d hd
    rw [hrep]
    intro c hc
    rw [List.mem_append] at hc
    rcases hc with hc | hc
    · obtain ⟨d, hd, rfl⟩ := List.mem_map.mp hc
      exact Or.inl ⟨d, hPmem d (List.mem_of_mem_take hd), rfl⟩
    · rw [List.mem_cons] at hc
      rcases hc with rfl | hc
      · exact Or.inr rfl
      · obtain ⟨d, hd, rfl⟩ := List.mem_map.mp hc
        exact Or.inl ⟨d, hPmem d (List.mem_of_mem_drop hd), rfl⟩

theorem floatRepr_neg_eq (f : PyFloat) (h : f.m < 0) :
    floatRepr f = '-' :: floatRepr ⟨(f.m.natAbs : Int), f.k⟩ := by
  unfold floatRepr
  by_cases hk : f.k = 0 <;>
    simp [h, hk, Int.natAbs_ofNat, Int.natAbs_abs,
      show ¬(|f.m| < 0) from not_lt.mpr (abs_nonneg _)]

theorem pyFloatBody_print (mm k : Nat) (hc : k = 0 ∨ ¬(mm % 10 = 0)) :
    pyFloatBody? (floatRepr ⟨(mm : Int), k⟩) = some ⟨(mm : Int), k⟩ := by
  by_cases hk : k = 0
  · subst hk
    exact pyFloatBody_print_zero mm
  · exact pyFloatBody_print_pos mm k hk (hc.resolve_left hk)

theorem floatRepr_nonneg_ne_nil (mm k : Nat) : floatRepr ⟨(mm : Int), k⟩ ≠ [] := by
  unfold floatRepr
  by_cases hk : k = 0 <;> simp [hk, show ¬((mm : Int) < 0) by omega, Int.natAbs_ofNat]

theorem pyFloat?_floatRepr (f : PyFloat) (h : canonFB f = true) :
    pyFloat? (floatRepr f) = some f := by
  have hcanon := canonFB_elim f h
  obtain ⟨m, k⟩ := f
  simp only [] at hcanon
  by_cases hm : m < 0
  · rw [floatRepr_neg_eq ⟨m, k⟩ hm]
    unfold pyFloat?
    rw [pyStrip_eq_self _ ?st]
    case st =>
      intro c hcm
      rw [List.mem_cons] at hcm
      rcases hcm with rfl | hcm
      · rfl
      · rcases floatRepr_nonneg_mem _ _ c hcm with ⟨d, hd, rfl⟩ | rfl
        · exact (digit_char_facts _ ⟨d, hd, rfl⟩).1
        · rfl
    split
    · rename_i heq
      exact absurd heq (by simp)
    · rename_i rest heq
      rw [List.cons.injEq] at heq
      exact absurd heq.1 (by decide)
    · rename_i rest heq
      rw [List.cons.injEq] at heq
      rw [← heq.2, pyFloatBody_print _ _ ?canon]
      case canon =>
        rcases hcanon with hck | hcd
        · exact Or.inl hck
        · refine Or.inr fun hdd => hcd ?_
          have hdd2 : m.natAbs % 10 = 0 := hdd
          omega
      simp [PyFloat.mk.injEq]
      rw [abs_of_nonpos hm.le]
      ring
    · rename_i hn1 hn2 hn3
      exact (hn3 _ rfl).elim
  · obtain ⟨mm, rfl⟩ : ∃ mm : Nat, m = (mm : Int) := ⟨m.toNat, by omega⟩
    unfold pyFloat?
    rw [pyStrip_eq_self _ ?st2]
    case st2 =>
      intro c hcm
      rcases floatRepr_nonneg_mem _ _ c hcm with ⟨d, hd, rfl⟩ | rfl
      · exact (digit_char_facts _ ⟨d, hd, rfl⟩).1
      · rfl
    split
    · rename_i heq
      exact absurd heq (floatRepr_nonneg_ne_nil mm k)
    · rename_i rest heq
      have hmem : '+' ∈ floatRepr ⟨(mm : Int), k⟩ := by rw [heq]; simp
      rcases floatRepr_nonneg_mem _ _ _ hmem with ⟨d, hd, hcd⟩ | hcd
      · exact absurd rfl ((digit_char_facts _ ⟨d, hd, hcd⟩).2.2.2.2.2.2.2.1)
      · exact absurd hcd (by decide)
    · rename_i rest heq
      have hmem : '-' ∈ floatRepr ⟨(mm : Int), k⟩ := by rw [heq]; simp
      rcases floatRepr_nonneg_mem _ _ _ hmem with ⟨d, hd, hcd⟩ | hcd
      · exact absurd rfl ((digit_char_facts _ ⟨d, hd, hcd⟩).2.2.2.2.2.2.2.2.1)
      · exact absurd hcd (by decide)
    · refine pyFloatBody_print mm k ?_
      rcases hcanon with hck | hcd
      · exact Or.inl hck
      · refine Or.inr fun hdd => hcd ?_
        have hdd2 : (mm : Int).natAbs % 10 = 0 := hdd
        omega

theorem parse_float_floatRepr (f d : PyFloat) (h : canonFB f = true) :
    parse_float (floatRepr f) d = f := by
  unfold parse_float
  rw [pyFloat?_floatRepr f h]
  rfl

theorem goodTok_noCut : ∀ (t : Str), goodTokB t = true → noCutB t = true := by
  intro t
  induction t using goodTokB.induct with
  | case1 => intro _; rfl
  | case2 =>
    intro h
    rw [goodTokB.eq_def] at h
    simp at h
  | case3 c2 r2 ih =>
    intro h
    rw [goodTokB.eq_def] at h
    simp at h
    rw [noCutB.eq_def]
    simp
    exact ih h.2
  | case4 c r hc ih =>
    intro h
    rw [goodTokB.eq_def] at h
    simp only [if_neg hc, Bool.and_eq_true, decide_eq_true_eq] at h
    rw [noCutB.eq_def]
    simp only [if_neg hc, Bool.and_eq_true, decide_eq_true_eq]
    exact ⟨h.1.2.2.1, ih h.2⟩

theorem noCut_append : ∀ (x : Str), noCutB x = true → ∀ y, noCutB y = true →
    noCutB (x ++ y) = true := by
  intro x
  induction x using noCutB.induct with
  | case1 => intro _ y hy; exact hy
  | case2 =>
    intro h
    rw [noCutB.eq_def] at h
    simp at h
  | case3 c2 r2 ih =>
    intro h y hy
    rw [noCutB.eq_def] at h
    simp at h
    rw [List.cons_append, List.cons_append, noCutB.eq_def]
    simp
    exact ih h y hy
  | case4 c r hc ih =>
    intro h y hy
    rw [noCutB.eq_def] at h
    simp only [if_neg hc, Bool.and_eq_true, decide_eq_true_eq] at h
    rw [List.cons_append, noCutB.eq_def]
    simp only [if_neg hc, Bool.and_eq_true, decide_eq_true_eq]
    exact ⟨h.1, ih h.2 y hy⟩

theorem noCut_joinSpace : ∀ (ts : List Str), (∀ t ∈ ts, goodTokB t = true) →
    noCutB (joinSpace ts) = true := by
  intro ts
  induction ts with
  | nil => intro _; rfl
  | cons t ts ih =>
    intro h
    cases ts with
    | nil =>
      rw [joinSpace_single]
      exact goodTok_noCut t (h t (by simp))
    | cons t2 ts2 =>
      rw [joinSpace_cons t (t2 :: ts2) (by simp)]
      refine noCut_append t (goodTok_noCut t (h t (by simp))) _ ?_
      have h2 := ih (fun u hu => h u (by simp [hu]))
      have : (' ' :: joinSpace (t2 :: ts2)) = [' '] ++ joinSpace (t2 :: ts2) := rfl
      rw [this]
      exact noCut_append [' '] rfl _ h2

theorem splitGo_chunk : ∀ (b : Str), noCutB b = true →
    ∀ rest cur, splitStatementsGo (b ++ rest) cur = splitStatementsGo rest (b.reverse ++ cur) := by
  intro b
  induction b using noCutB.induct with
  | case1 => intro _ rest cur; simp
  | case2 =>
    intro h
    rw [noCutB.eq_def] at h
    simp at h
  | case3 c2 r2 ih =>
    intro h rest cur
    rw [noCutB.eq_def] at h
    simp at h
    rw [List.cons_append, List.cons_append, splitGo_esc, ih h]
    simp
  | case4 c r hc ih =>
    intro h rest cur
    rw [noCutB.eq_def] at h
    simp only [if_neg hc, Bool.and_eq_true, decide_eq_true_eq] at h
    rw [List.cons_append, splitGo_cons c _ _ hc, if_neg h.1, ih h.2]
    simp

theorem dropWhile_sp_append (p : Char → Bool) : ∀ (ws l : Str),
    (∀ c ∈ ws, p c = true) → (ws ++ l).dropWhile p = l.dropWhile p := by
  intro ws
  induction ws with
  | nil => intro l _; rfl
  | cons c ws ih =>
    intro l h
    rw [List.cons_append, List.dropWhile_cons, if_pos (h c (by simp))]
    exact ih l (fun u hu => h u (by simp [hu]))

theorem pyStrip_stmt (ws body : Str) (hws : ∀ c ∈ ws, pyIsSpace c = true)
    (hhead : body.head? = some '#') : pyStrip (ws ++ (body ++ [';'])) = body ++ [';'] := by
  unfold pyStrip
  rw [dropWhile_sp_append _ ws _ hws]
  cases body with
  | nil => exact absurd hhead (by simp)
  | cons c bs =>
    have hc : c = '#' := by simpa using hhead
    subst hc
    rw [List.cons_append, List.dropWhile_cons, if_neg (by decide)]
    rw [show ('#' :: (bs ++ [';'])).reverse = ';' :: (bs.reverse ++ ['#']) by simp]
    rw [List.dropWhile_cons, if_neg (by decide)]
    simp

theorem pyStrip_all_space (l : Str) (h : ∀ c ∈ l, pyIsSpace c = true) :
    pyStrip l = [] := by
  have h1 : List.dropWhile pyIsSpace l = [] :=
    List.dropWhile_eq_nil_iff.mpr (fun c hc => by simp [h c hc])
  unfold pyStrip
  rw [h1]
  rfl

theorem intercalate_cons_ne (s : Str) (x : Str) (l : List Str) (h : l ≠ []) :
    List.intercalate s (x :: l) = x ++ s ++ List.intercalate s l := by
  cases l with
  | nil => exact absurd rfl h
  | cons y l2 =>
    simp [List.intercalate, List.intersperse]

theorem split_doc : ∀ (stmts : List Str), (∀ s ∈ stmts, GoodStmt s) →
    ∀ cur, (∀ c ∈ cur, pyIsSpace c = true) →
    splitStatementsGo (List.intercalate ['\n'] stmts) cur = stmts := by
  intro stmts
  induction stmts with
  | nil =>
    intro _ cur hcur
    rw [show List.intercalate ['\n'] [] = [] from rfl, splitGo_nil,
      if_pos (pyStrip_all_space _ (fun c hc => hcur c (by simpa using hc)))]
  | cons s rest ih =>
    intro h cur hcur
    obtain ⟨body, rfl, hhead, hnc, hchars⟩ := h s (by simp)
    have hstrip : pyStrip (cur.reverse ++ (body ++ [';'])) = body ++ [';'] :=
      pyStrip_stmt cur.reverse body (fun c hc => hcur c (by simpa using hc)) hhead
    cases rest with
    | nil =>
      rw [show List.intercalate ['\n'] [body ++ [';']] = body ++ [';'] by
        simp [List.intercalate]]
      rw [splitGo_chunk body hnc [';'] cur]
      rw [splitGo_cons ';' _ _ (by decide), if_pos rfl]
      rw [show ((';' :: (body.reverse ++ cur)).reverse) = cur.reverse ++ (body ++ [';'])
        by simp]
      rw [hstrip, if_neg (by simp)]
      rw [show splitStatementsGo [] [] = [] from rfl]
    | cons s2 rest2 =>
      rw [intercalate_cons_ne _ _ _ (by simp)]
      simp only [List.append_assoc, List.singleton_append]
      rw [splitGo_chunk body hnc _ cur]
      simp only [List.cons_append, List.singleton_append]
      rw [splitGo_cons ';' _ _ (by decide), if_pos rfl]
      rw [show ((';' :: (body.reverse ++ cur)).reverse) = cur.reverse ++ (body ++ [';'])
        by simp]
      rw [hstrip, if_neg (by simp)]
      rw [splitGo_cons '\n' _ _ (by decide), if_neg (by decide)]
      rw [List.nil_append]
      rw [ih (fun u hu => h u (by simp [hu])) ['\n'] (by intro c hc; simp at hc; simp [hc, pyIsSpace])]

theorem hasPair_cons_ne (a b c : Char) (l : Str) (hc : c ≠ a) :
    hasPair a b (c :: l) = hasPair a b l := by
  cases l with
  | nil => rfl
  | cons d r =>
    rw [hasPair]
    simp [hc]

theorem hasPair_not_mem_a (a b : Char) : ∀ (s : Str), a ∉ s → hasPair a b s = false := by
  intro s
  induction s using hasPair.induct a b with
  | case1 => intro _; rfl
  | case2 => intro _; rfl
  | case3 c d r ih =>
    intro h
    rw [hasPair]
    simp at h ⊢
    exact ⟨fun hca => absurd hca.symm h.1, ih (by simp [h.2.1, h.2.2])⟩

theorem hasPair_not_mem_b (a b : Char) : ∀ (s : Str), b ∉ s → hasPair a b s = false := by
  intro s
  induction s using hasPair.induct a b with
  | case1 => intro _; rfl
  | case2 => intro _; rfl
  | case3 c d r ih =>
    intro h
    rw [hasPair]
    simp at h ⊢
    exact ⟨fun _ hdb => absurd hdb.symm h.2.1, ih (by simp [h.2.1, h.2.2])⟩

theorem hasPair_append_f (a b : Char) : ∀ (x : Str), hasPair a b x = false →
    ∀ y, hasPair a b y = false → ¬(x.getLast? = some a ∧ y.head? = some b) →
    hasPair a b (x ++ y) = false := by
  intro x
  induction x using hasPair.induct a b with
  | case1 =>
    intro _ y hy _
    exact hy
  | case2 c =>
    intro _ y hy hb
    cases y with
    | nil => rfl
    | cons d y2 =>
      rw [List.singleton_append, hasPair]
      simp at hb ⊢
      refine ⟨fun hca hdb => hb ?_ ?_, hy⟩
      · simp [hca]
      · simp [hdb]
  | case3 c d r ih =>
    intro h y hy hb
    rw [hasPair] at h
    simp at h
    rw [List.cons_append, List.cons_append, hasPair]
    simp only [Bool.or_eq_false_iff, Bool.and_eq_false_iff]
    constructor
    · by_cases hca : c = a
      · exact Or.inr (decide_eq_false (h.1 hca))
      · exact Or.inl (decide_eq_false hca)
    · rw [← List.cons_append]
      refine ih h.2 y hy ?_
      intro hlast
      exact hb ⟨by rw [← hlast.1]; rfl, hlast.2⟩

theorem replaceGo_id_pair (a b : Char) (rep : Str) : ∀ (s : Str) (fuel : Nat),
    hasPair a b s = false → pyReplaceGo [a, b] rep fuel s = s := by
  intro s
  induction s with
  | nil => intro fuel _; cases fuel <;> rfl
  | cons c rest ih =>
    intro fuel h
    cases fuel with
    | zero => rfl
    | succ fuel =>
      rw [pyReplaceGo]
      rw [if_neg ?nopre]
      case nopre =>
        intro hcon
        have hpre := hcon.2
        rw [List.isPrefixOf] at hpre
        cases rest with
        | nil =>
          simp [List.isPrefixOf] at hpre
        | cons d r2 =>
          simp [List.isPrefixOf] at hpre
          rw [hasPair] at h
          simp at h
          exact h.1 hpre.1.symm hpre.2.symm
      congr 1
      refine ih fuel ?_
      cases rest with
      | nil => rfl
      | cons d r2 =>
        rw [hasPair] at h
        simp at h
        have := h.2
        simpa using this

theorem replaceGo_id_single (a : Char) (rep : Str) : ∀ (s : Str) (fuel : Nat),
    a ∉ s → pyReplaceGo [a] rep fuel s = s := by
  intro s
  induction s with
  | nil => intro fuel _; cases fuel <;> rfl
  | cons c rest ih =>
    intro fuel h
    cases fuel with
    | zero => rfl
    | succ fuel =>
      simp at h
      rw [pyReplaceGo]
      rw [if_neg ?nop]
      case nop =>
        intro hcon
        have hpre := hcon.2
        simp [List.isPrefixOf] at hpre
        exact h.1 hpre
      congr 1
      exact ih fuel (by simp [h.2])

theorem mem_intercalate_nl (c : Char) : ∀ (stmts : List Str),
    c ∈ List.intercalate ['\n'] stmts → c = '\n' ∨ ∃ s ∈ stmts, c ∈ s := by
  intro stmts
  induction stmts with
  | nil => intro h; simp [List.intercalate] at h
  | cons s rest ih =>
    intro h
    cases rest with
    | nil =>
      rw [show List.intercalate ['\n'] [s] = s by simp [List.intercalate]] at h
      exact Or.inr ⟨s, by simp, h⟩
    | cons s2 rest2 =>
      rw [intercalate_cons_ne _ _ _ (by simp)] at h
      simp only [List.append_assoc, List.singleton_append, List.mem_append,
        List.mem_cons] at h
      rcases h with h | h | h
      · exact Or.inr ⟨s, by simp, h⟩
      · exact Or.inl h
      · rcases ih h with h2 | ⟨u, hu, hcu⟩
        · exact Or.inl h2
        · exact Or.inr ⟨u, by simp [hu], hcu⟩

theorem doc_no_pair (stmts : List Str) (h : ∀ s ∈ stmts, GoodStmt s) :
    hasPair '\\' '\n' (List.intercalate ['\n'] stmts) = false := by
  induction stmts with
  | nil => rfl
  | cons s rest ih =>
    obtain ⟨body, hs, hhead, hnc, hchars⟩ := h s (by simp)
    have hnos : hasPair '\\' '\n' s = false := by
      refine hasPair_not_mem_b _ _ s fun hmem => ?_
      exact (hchars '\n' hmem).1 rfl
    cases rest with
    | nil =>
      rw [show List.intercalate ['\n'] [s] = s by simp [List.intercalate]]
      exact hnos
    | cons s2 rest2 =>
      rw [intercalate_cons_ne _ _ _ (by simp), List.append_assoc, List.singleton_append]
      refine hasPair_append_f _ _ s hnos _ ?_ ?_
      · rw [hasPair_cons_ne _ _ _ _ (by decide)]
        exact ih (fun u hu => h u (by simp [hu]))
      · intro hcon
        have hlast : s.getLast? = some ';' := by
          rw [hs]
          simp
        rw [hlast] at hcon
        simp at hcon

theorem preprocess_id (doc : Str) (hnr : '\r' ∉ doc)
    (hpair : hasPair '\\' '\n' doc = false) : preprocess doc = doc := by
  unfold preprocess pyReplace
  rw [replaceGo_id_pair '\r' '\n' _ doc _ (hasPair_not_mem_a _ _ doc hnr)]
  rw [replaceGo_id_single '\r' _ doc _ hnr]
  rw [replaceGo_id_pair '\\' '\n' _ doc _ hpair]

theorem goodTok_of_plain : ∀ (t : Str),
    (∀ c ∈ t, (∃ d, d < 10 ∧ c = digitChar d) ∨ c = '-' ∨ c = '.') →
    goodTokB t = true := by
  intro t
  induction t with
  | nil => intro _; rfl
  | cons c r ih =>
    intro h
    have hc := h c (by simp)
    have hne : ¬(c = '\\') := by
      rcases hc with ⟨d, hd, rfl⟩ | rfl | rfl
      · exact (digit_char_facts _ ⟨d, hd, rfl⟩).2.2.2.2.1
      · decide
      · decide
    rw [goodTokB.eq_def]
    simp only [if_neg hne, Bool.and_eq_true, decide_eq_true_eq]
    refine ⟨⟨?_, ?_, ?_, hne, ?_, ?_⟩, ih (fun u hu => h u (by simp [hu]))⟩ <;>
      (rcases hc with ⟨d, hd, rfl⟩ | rfl | rfl)
    · exact (digit_char_facts _ ⟨d, hd, rfl⟩).2.1
    · decide
    · decide
    · exact (digit_char_facts _ ⟨d, hd, rfl⟩).2.2.1
    · decide
    · decide
    · exact (digit_char_facts _ ⟨d, hd, rfl⟩).2.2.2.1
    · decide
    · decide
    · exact (digit_char_facts _ ⟨d, hd, rfl⟩).2.2.2.2.2.1
    · decide
    · decide
    · exact (digit_char_facts _ ⟨d, hd, rfl⟩).2.2.2.2.2.2.1
    · decide
    · decide

theorem intRepr_mem (i : Int) : ∀ c ∈ intRepr i,
    (∃ d, d < 10 ∧ c = digitChar d) ∨ c = '-' ∨ c = '.' := by
  intro c hc
  unfold intRepr at hc
  by_cases h : i < 0
  · rw [if_pos h, List.mem_cons] at hc
    rcases hc with rfl | hc
    · exact Or.inr (Or.inl rfl)
    · exact Or.inl (natRepr_mem_digit _ c hc)
  · rw [if_neg h] at hc
    exact Or.inl (natRepr_mem_digit _ c hc)

theorem okTok_intRepr (i : Int) : intRepr i ≠ [] ∧ goodTokB (intRepr i) = true := by
  constructor
  · unfold intRepr
    by_cases h : i < 0
    · simp [h]
    · simpa [h] using natRepr_ne_nil i.natAbs
  · exact goodTok_of_plain _ (intRepr_mem i)

theorem floatRepr_mem (f : PyFloat) : ∀ c ∈ floatRepr f,
    (∃ d, d < 10 ∧ c = digitChar d) ∨ c = '-' ∨ c = '.' := by
  intro c hc
  by_cases h : f.m < 0
  · rw [floatRepr_neg_eq f h, List.mem_cons] at hc
    rcases hc with rfl | hc
    · exact Or.inr (Or.inl rfl)
    · rcases floatRepr_nonneg_mem _ _ c hc with hd | rfl
      · exact Or.inl hd
      · exact Or.inr (Or.inr rfl)
  · obtain ⟨m, k⟩ := f
    simp only [] at h hc
    obtain ⟨mm, rfl⟩ : ∃ mm : Nat, m = (mm : Int) := ⟨m.toNat, by omega⟩
    rcases floatRepr_nonneg_mem mm k c hc with hd | rfl
    · exact Or.inl hd
    · exact Or.inr (Or.inr rfl)

theorem okTok_floatRepr (f : PyFloat) : floatRepr f ≠ [] ∧ goodTokB (floatRepr f) = true := by
  constructor
  · by_cases h : f.m < 0
    · rw [floatRepr_neg_eq f h]
      simp
    · obtain ⟨m, k⟩ := f
      simp only [] at h
      obtain ⟨mm, rfl⟩ : ∃ mm : Nat, m = (mm : Int) := ⟨m.toNat, by omega⟩
      exact floatRepr_nonneg_ne_nil mm k
  · exact goodTok_of_plain _ (floatRepr_mem f)

theorem okTok_spec (t : Str) (h : okTok t = true) : t ≠ [] ∧ goodTokB t = true := by
  unfold okTok at h
  simp at h
  refine ⟨?_, h.2⟩
  intro hnil
  rw [hnil] at h
  simp at h

theorem joinSpace_split_piece : ∀ (pre : List Str) (u v : Str) (rest : List Str),
    joinSpace (pre ++ (u ++ ' ' :: v) :: rest) = joinSpace (pre ++ u :: v :: rest) := by
  intro pre
  induction pre with
  | nil =>
    intro u v rest
    cases rest with
    | nil =>
      rw [List.nil_append, List.nil_append, joinSpace_single,
        joinSpace_cons _ [v] (by simp), joinSpace_single]
    | cons w rest2 =>
      rw [List.nil_append, List.nil_append,
        joinSpace_cons _ (w :: rest2) (by simp),
        joinSpace_cons _ (v :: w :: rest2) (by simp),
        joinSpace_cons _ (w :: rest2) (by simp)]
      simp
  | cons p pre ih =>
    intro u v rest
    rw [List.cons_append, List.cons_append,
      joinSpace_cons _ (pre ++ (u ++ ' ' :: v) :: rest) (by simp),
      joinSpace_cons _ (pre ++ u :: v :: rest) (by simp),
      ih u v rest]

theorem joinSpace_join : ∀ (pre : List Str) (ts : List Str), ts ≠ [] →
    joinSpace (pre ++ [joinSpace ts]) = joinSpace (pre ++ ts) := by
  intro pre
  induction pre with
  | nil =>
    intro ts _
    rw [List.nil_append, List.nil_append, joinSpace_single]
  | cons p pre ih =>
    intro ts hts
    rw [List.cons_append, List.cons_append,
      joinSpace_cons _ (pre ++ [joinSpace ts]) (by simp),
      joinSpace_cons _ (pre ++ ts) (by simp [hts]),
      ih ts hts]

theorem step_connect (stack : List (CanvasProperties × List PdElement))
    (cc : CanvasProperties) (elems : List PdElement) (s o k i : Int) :
    parseStep ⟨stack, some cc, elems⟩ (elemStr (.connect s o k i)) =
      .ok ⟨stack, some cc, elems ++ [.connect s o k i]⟩ := by
  have htoks : tokenize (elemStr (.connect s o k i)) =
      [chars "#X", chars "connect", intRepr s, intRepr o, intRepr k, intRepr i] := by
    rw [show elemStr (.connect s o k i) =
      joinSpace [chars "#X", chars "connect", intRepr s, intRepr o, intRepr k, intRepr i]
        ++ [';'] from rfl]
    refine tokenize_line _ ?_ (by simp)
    intro t ht
    simp at ht
    rcases ht with rfl | rfl | rfl | rfl | rfl | rfl
    · exact ⟨by decide, by decide⟩
    · exact ⟨by decide, by decide⟩
    · exact okTok_intRepr s
    · exact okTok_intRepr o
    · exact okTok_intRepr k
    · exact okTok_intRepr i
  unfold parseStep parse_connect
  rw [htoks]
  simp +decide [tk, parse_int_intRepr]
  rfl

theorem step_array (stack : List (CanvasProperties × List PdElement))
    (cc : CanvasProperties) (elems : List PdElement) (name : Str) (size : Int)
    (dtype : Str) (save_flag : Int)
    (h : wfElemB (.array name size dtype save_flag) = true) :
    parseStep ⟨stack, some cc, elems⟩ (elemStr (.array name size dtype save_flag)) =
      .ok ⟨stack, some cc, elems ++ [.array name size dtype save_flag]⟩ := by
  rw [show wfElemB (.array name size dtype save_flag) =
    (okTok name && okTok dtype) from rfl] at h
  simp only [Bool.and_eq_true] at h
  have htoks : tokenize (elemStr (.array name size dtype save_flag)) =
      [chars "#X", chars "array", name, intRepr size, dtype, intRepr save_flag] := by
    rw [show elemStr (.array name size dtype save_flag) =
      joinSpace [chars "#X", chars "array", name, intRepr size, dtype,
        intRepr save_flag] ++ [';'] from rfl]
    refine tokenize_line _ ?_ (by simp)
    intro t ht
    simp at ht
    rcases ht with rfl | rfl | rfl | rfl | rfl | rfl
    · exact ⟨by decide, by decide⟩
    · exact ⟨by decide, by decide⟩
    · exact okTok_spec _ h.1
    · exact okTok_intRepr size
    · exact okTok_spec _ h.2
    · exact okTok_intRepr save_flag
  unfold parseStep parse_array
  rw [htoks]
  simp +decide [tk, parse_int_intRepr]
  rfl

theorem step_msg (stack : List (CanvasProperties × List PdElement))
    (cc : CanvasProperties) (elems : List PdElement) (pos : Position) (content : Str)
    (h : wfElemB (.msg pos content) = true) :
    parseStep ⟨stack, some cc, elems⟩ (elemStr (.msg pos content)) =
      .ok ⟨stack, some cc, elems ++ [.msg pos content]⟩ := by
  rw [show wfElemB (.msg pos content) = okContent content from rfl] at h
  by_cases hce : content = []
  · subst hce
    have hrep : elemStr (.msg pos []) =
        joinSpace [chars "#X", chars "msg", intRepr pos.x, intRepr pos.y] ++ [' ', ';'] := by
      simp [elemStr, joinSpace, List.intercalate, List.intersperse, posStr,
        List.append_assoc]
    have htoks : tokenize (elemStr (.msg pos [])) =
        [chars "#X", chars "msg", intRepr pos.x, intRepr pos.y] := by
      rw [hrep]
      refine tokenize_line_sp _ ?_ (by simp)
      intro t ht
      simp at ht
      rcases ht with rfl | rfl | rfl | rfl
      · exact ⟨by decide, by decide⟩
      · exact ⟨by decide, by decide⟩
      · exact okTok_intRepr pos.x
      · exact okTok_intRepr pos.y
    unfold parseStep parse_msg
    rw [htoks]
    simp +decide [tk, parse_int_intRepr]
    rfl
  · unfold okContent at h
    simp only [Bool.or_eq_true, Bool.and_eq_true, decide_eq_true_eq] at h
    rcases h with h | ⟨hok, hjoin⟩
    · exact absurd (by simpa using h) hce
    have hts : tokenize content ≠ [] := by
      intro hnil
      rw [hnil] at hjoin
      exact hce hjoin.symm
    have hrep : elemStr (.msg pos content) =
        joinSpace ([chars "#X", chars "msg", intRepr pos.x, intRepr pos.y] ++
          tokenize content) ++ [';'] := by
      rw [← joinSpace_join [chars "#X", chars "msg", intRepr pos.x, intRepr pos.y]
        (tokenize content) hts]
      rw [hjoin]
      rw [show ([chars "#X", chars "msg", intRepr pos.x, intRepr pos.y] ++ [content] :
        List Str) = [chars "#X", chars "msg"] ++ intRepr pos.x :: intRepr pos.y ::
        [content] from rfl]
      rw [← joinSpace_split_piece]
      rfl
    have htoks : tokenize (elemStr (.msg pos content)) =
        [chars "#X", chars "msg", intRepr pos.x, intRepr pos.y] ++ tokenize content := by
      rw [hrep]
      refine tokenize_line _ ?_ (by simp)
      intro t ht
      rw [List.mem_append] at ht
      rcases ht with ht | ht
      · simp at ht
        rcases ht with rfl | rfl | rfl | rfl
        · exact ⟨by decide, by decide⟩
        · exact ⟨by decide, by decide⟩
        · exact okTok_intRepr pos.x
        · exact okTok_intRepr pos.y
      · have := List.all_eq_true.mp hok t ht
        exact okTok_spec t this
    unfold parseStep parse_msg
    rw [htoks]
    simp +decide [tk, parse_int_intRepr, List.length_pos.mpr hts, hjoin]
    rfl

theorem step_text (stack : List (CanvasProperties × List PdElement))
    (cc : CanvasProperties) (elems : List PdElement) (pos : Position) (content : Str)
    (h : wfElemB (.text pos content) = true) :
    parseStep ⟨stack, some cc, elems⟩ (elemStr (.text pos content)) =
      .ok ⟨stack, some cc, elems ++ [.text pos content]⟩ := by
  rw [show wfElemB (.text pos content) = okContent content from rfl] at h
  by_cases hce : content = []
  · subst hce
    have hrep : elemStr (.text pos []) =
        joinSpace [chars "#X", chars "text", intRepr pos.x, intRepr pos.y] ++ [' ', ';'] := by
      simp [elemStr, joinSpace, List.intercalate, List.intersperse, posStr,
        List.append_assoc]
    have htoks : tokenize (elemStr (.text pos [])) =
        [chars "#X", chars "text", intRepr pos.x, intRepr pos.y] := by
      rw [hrep]
      refine tokenize_line_sp _ ?_ (by simp)
      intro t ht
      simp at ht
      rcases ht with rfl | rfl | rfl | rfl
      · exact ⟨by decide, by decide⟩
      · exact ⟨by decide, by decide⟩
      · exact okTok_intRepr pos.x
      · exact okTok_intRepr pos.y
    unfold parseStep parse_text
    rw [htoks]
    simp +decide [tk, parse_int_intRepr]
    rfl
  · unfold okContent at h
    simp only [Bool.or_eq_true, Bool.and_eq_true, decide_eq_true_eq] at h
    rcases h with h | ⟨hok, hjoin⟩
    · exact absurd (by simpa using h) hce
    have hts : tokenize content ≠ [] := by
      intro hnil
      rw [hnil] at hjoin
      exact hce hjoin.symm
    have hrep : elemStr (.text pos content) =
        joinSpace ([chars "#X", chars "text", intRepr pos.x, intRepr pos.y] ++
          tokenize content) ++ [';'] := by
      rw [← joinSpace_join [chars "#X", chars "text", intRepr pos.x, intRepr pos.y]
        (tokenize content) hts]
      rw [hjoin]
      rw [show ([chars "#X", chars "text", intRepr pos.x, intRepr pos.y] ++ [content] :
        List Str) = [chars "#X", chars "text"] ++ intRepr pos.x :: intRepr pos.y ::
        [content] from rfl]
      rw [← joinSpace_split_piece]
      rfl
    have htoks : tokenize (elemStr (.text pos content)) =
        [chars "#X", chars "text", intRepr pos.x, intRepr pos.y] ++ tokenize content := by
      rw [hrep]
      refine tokenize_line _ ?_ (by simp)
      intro t ht
      rw [List.mem_append] at ht
      rcases ht with ht | ht
      · simp at ht
        rcases ht with rfl | rfl | rfl | rfl
        · exact ⟨by decide, by decide⟩
        · exact ⟨by decide, by decide⟩
        · exact okTok_intRepr pos.x
        · exact okTok_intRepr pos.y
      · have := List.all_eq_true.mp hok t ht
        exact okTok_spec t this
    unfold parseStep parse_text
    rw [htoks]
    simp +decide [tk, parse_int_intRepr, List.length_pos.mpr hts, hjoin]
    rfl


theorem step_floatatom (stack : List (CanvasProperties × List PdElement))
    (cc : CanvasProperties) (elems : List PdElement) (pos : Position) (width : Int)
    (lo hi : PyFloat) (lp : Int) (label receive send : Str)
    (h : wfElemB (.floatatom pos width lo hi lp label receive send) = true) :
    parseStep ⟨stack, some cc, elems⟩
        (elemStr (.floatatom pos width lo hi lp label receive send)) =
      .ok ⟨stack, some cc, elems ++ [.floatatom pos width lo hi lp label receive send]⟩ := by
  rw [show wfElemB (.floatatom pos width lo hi lp label receive send) =
    (canonFB lo && canonFB hi && okTok label && okTok receive && okTok send) from rfl] at h
  simp only [Bool.and_eq_true] at h
  have htoks : tokenize (elemStr (.floatatom pos width lo hi lp label receive send)) =
      [chars "#X", chars "floatatom", intRepr pos.x, intRepr pos.y, intRepr width,
        floatRepr lo, floatRepr hi, intRepr lp, label, receive, send] := by
    rw [show elemStr (.floatatom pos width lo hi lp label receive send) =
      joinSpace ([chars "#X", chars "floatatom"] ++
        (intRepr pos.x ++ ' ' :: intRepr pos.y) ::
        [intRepr width, floatRepr lo, floatRepr hi, intRepr lp, label, receive, send]) ++
        [';'] from rfl]
    rw [joinSpace_split_piece]
    refine tokenize_line _ ?_ (by simp)
    intro t ht
    simp at ht
    rcases ht with rfl | rfl | rfl | rfl | rfl | rfl | rfl | rfl | rfl | rfl | rfl
    · exact ⟨by decide, by decide⟩
    · exact ⟨by decide, by decide⟩
    · exact okTok_intRepr pos.x
    · exact okTok_intRepr pos.y
    · exact okTok_intRepr width
    · exact okTok_floatRepr lo
    · exact okTok_floatRepr hi
    · exact okTok_intRepr lp
    · exact okTok_spec _ h.1.1.2
    · exact okTok_spec _ h.1.2
    · exact okTok_spec _ h.2
  unfold parseStep parse_floatatom
  rw [htoks]
  simp +decide [tk, parse_int_intRepr, parse_float_floatRepr lo pyF0 h.1.1.1.1,
    parse_float_floatRepr hi pyF0 h.1.1.1.2]
  rfl

theorem step_symbolatom (stack : List (CanvasProperties × List PdElement))
    (cc : CanvasProperties) (elems : List PdElement) (pos : Position) (width : Int)
    (lo hi : PyFloat) (lp : Int) (label receive send : Str)
    (h : wfElemB (.symbolatom pos width lo hi lp label receive send) = true) :
    parseStep ⟨stack, some cc, elems⟩
        (elemStr (.symbolatom pos width lo hi lp label receive send)) =
      .ok ⟨stack, some cc, elems ++ [.symbolatom pos width lo hi lp label receive send]⟩ := by
  rw [show wfElemB (.symbolatom pos width lo hi lp label receive send) =
    (canonFB lo && canonFB hi && okTok label && okTok receive && okTok send) from rfl] at h
  simp only [Bool.and_eq_true] at h
  have htoks : tokenize (elemStr (.symbolatom pos width lo hi lp label receive send)) =
      [chars "#X", chars "symbolatom", intRepr pos.x, intRepr pos.y, intRepr width,
        floatRepr lo, floatRepr hi, intRepr lp, label, receive, send] := by
    rw [show elemStr (.symbolatom pos width lo hi lp label receive send) =
      joinSpace ([chars "#X", chars "symbolatom"] ++
        (intRepr pos.x ++ ' ' :: intRepr pos.y) ::
        [intRepr width, floatRepr lo, floatRepr hi, intRepr lp, label, receive, send]) ++
        [';'] from rfl]
    rw [joinSpace_split_piece]
    refine tokenize_line _ ?_ (by simp)
    intro t ht
    simp at ht
    rcases ht with rfl | rfl | rfl | rfl | rfl | rfl | rfl | rfl | rfl | rfl | rfl
    · exact ⟨by decide, by decide⟩
    · exact ⟨by decide, by decide⟩
    · exact okTok_intRepr pos.x
    · exact okTok_intRepr pos.y
    · exact okTok_intRepr width
    · exact okTok_floatRepr lo
    · exact okTok_floatRepr hi
    · exact okTok_intRepr lp
    · exact okTok_spec _ h.1.1.2
    · exact okTok_spec _ h.1.2
    · exact okTok_spec _ h.2
  unfold parseStep parse_symbolatom
  rw [htoks]
  simp +decide [tk, parse_int_intRepr, parse_float_floatRepr lo pyF0 h.1.1.1.1,
    parse_float_floatRepr hi pyF0 h.1.1.1.2]
  rfl

theorem step_coords (stack : List (CanvasProperties × List PdElement))
    (cc : CanvasProperties) (elems : List PdElement) (xf yf xt yt : PyFloat)
    (w ht2 gop hide xm ym : Int)
    (h : wfElemB (.coords xf yf xt yt w ht2 gop hide xm ym) = true) :
    parseStep ⟨stack, some cc, elems⟩
        (elemStr (.coords xf yf xt yt w ht2 gop hide xm ym)) =
      .ok ⟨stack, some cc, elems ++ [.coords xf yf xt yt w ht2 gop hide xm ym]⟩ := by
  rw [show wfElemB (.coords xf yf xt yt w ht2 gop hide xm ym) =
    (canonFB xf && canonFB yf && canonFB xt && canonFB yt) from rfl] at h
  simp only [Bool.and_eq_true] at h
  have htoks : tokenize (elemStr (.coords xf yf xt yt w ht2 gop hide xm ym)) =
      [chars "#X", chars "coords", floatRepr xf, floatRepr yf, floatRepr xt,
        floatRepr yt, intRepr w, intRepr ht2, intRepr gop, intRepr hide,
        intRepr xm, intRepr ym] := by
    rw [show elemStr (.coords xf yf xt yt w ht2 gop hide xm ym) =
      joinSpace [chars "#X", chars "coords", floatRepr xf, floatRepr yf, floatRepr xt,
        floatRepr yt, intRepr w, intRepr ht2, intRepr gop, intRepr hide,
        intRepr xm, intRepr ym] ++ [';'] from rfl]
    refine tokenize_line _ ?_ (by simp)
    intro t ht
    simp at ht
    rcases ht with rfl | rfl | rfl | rfl | rfl | rfl | rfl | rfl | rfl | rfl | rfl | rfl
    · exact ⟨by decide, by decide⟩
    · exact ⟨by decide, by decide⟩
    · exact okTok_floatRepr xf
    · exact okTok_floatRepr yf
    · exact okTok_floatRepr xt
    · exact okTok_floatRepr yt
    · exact okTok_intRepr w
    · exact okTok_intRepr ht2
    · exact okTok_intRepr gop
    · exact okTok_intRepr hide
    · exact okTok_intRepr xm
    · exact okTok_intRepr ym
  unfold parseStep parse_coords
  rw [htoks]
  simp +decide [tk, parse_int_intRepr, parse_float_floatRepr xf pyF0 h.1.1.1,
    parse_float_floatRepr yf pyF0 h.1.1.2, parse_float_floatRepr xt pyF0 h.1.2,
    parse_float_floatRepr yt pyF0 h.2]
  rfl

theorem step_obj (stack : List (CanvasProperties × List PdElement))
    (cc : CanvasProperties) (elems : List PdElement) (pos : Position) (cls : Str)
    (args : List Str) (h : wfElemB (.obj pos cls args) = true) :
    parseStep ⟨stack, some cc, elems⟩ (elemStr (.obj pos cls args)) =
      .ok ⟨stack, some cc, elems ++ [.obj pos cls args]⟩ := by
  rw [show wfElemB (.obj pos cls args) =
    (okTok cls && okToks args && !guiCapture cls args.length) from rfl] at h
  simp only [Bool.and_eq_true, Bool.not_eq_true'] at h
  have hgui := h.2
  have hA : ¬(cls = chars "bng" ∧ args.length ≥ 14) := by
    intro hab
    rw [guiCapture] at hgui
    simp [hab.1, hab.2] at hgui
  have hB : ¬(cls = chars "tgl" ∧ args.length ≥ 15) := by
    intro hab
    rw [guiCapture] at hgui
    simp [hab.1, hab.2] at hgui
  have hC : ¬(cls = chars "nbx" ∧ args.length ≥ 18) := by
    intro hab
    rw [guiCapture] at hgui
    simp [hab.1, hab.2] at hgui
  have hD : ¬(cls = chars "vsl" ∧ args.length ≥ 18) := by
    intro hab
    rw [guiCapture] at hgui
    simp [hab.1, hab.2] at hgui
  have hE : ¬(cls = chars "hsl" ∧ args.length ≥ 18) := by
    intro hab
    rw [guiCapture] at hgui
    simp [hab.1, hab.2] at hgui
  have hF : ¬(cls = chars "vradio" ∧ args.length ≥ 15) := by
    intro hab
    rw [guiCapture] at hgui
    simp [hab.1, hab.2] at hgui
  have hG : ¬(cls = chars "hradio" ∧ args.length ≥ 15) := by
    intro hab
    rw [guiCapture] at hgui
    simp [hab.1, hab.2] at hgui
  have hH : ¬(cls = chars "cnv" ∧ args.length ≥ 13) := by
    intro hab
    rw [guiCapture] at hgui
    simp [hab.1, hab.2] at hgui
  have hI : ¬(cls = chars "vu" ∧ args.length ≥ 12) := by
    intro hab
    rw [guiCapture] at hgui
    simp [hab.1, hab.2] at hgui
  by_cases hargs : args = []
  · subst hargs
    have htoks : tokenize (elemStr (.obj pos cls [])) =
        [chars "#X", chars "obj", intRepr pos.x, intRepr pos.y, cls] := by
      rw [show elemStr (.obj pos cls []) =
        joinSpace ([chars "#X", chars "obj"] ++
          (intRepr pos.x ++ ' ' :: intRepr pos.y) :: [objText cls []]) ++ [';'] from rfl]
      rw [joinSpace_split_piece]
      rw [show objText cls [] = cls from by rw [objText]; simp]
      refine tokenize_line _ ?_ (by simp)
      intro t ht
      simp at ht
      rcases ht with rfl | rfl | rfl | rfl | rfl
      · exact ⟨by decide, by decide⟩
      · exact ⟨by decide, by decide⟩
      · exact okTok_intRepr pos.x
      · exact okTok_intRepr pos.y
      · exact okTok_spec _ h.1.1
    unfold parseStep parse_obj
    rw [htoks]
    simp +decide [tk, parse_int_intRepr, hA, hB, hC, hD, hE, hF, hG, hH, hI]
    rfl
  · have htoks : tokenize (elemStr (.obj pos cls args)) =
        [chars "#X", chars "obj", intRepr pos.x, intRepr pos.y, cls] ++ args := by
      rw [show elemStr (.obj pos cls args) =
        joinSpace [chars "#X", chars "obj", posStr pos, objText cls args] ++ [';']
        from rfl]
      rw [show objText cls args = joinSpace (cls :: args) from by
        rw [objText, if_pos hargs, joinSpace_cons cls args hargs]]
      rw [show ([chars "#X", chars "obj", posStr pos, joinSpace (cls :: args)] :
        List Str) = [chars "#X", chars "obj", posStr pos] ++ [joinSpace (cls :: args)]
        from rfl]
      rw [joinSpace_join _ _ (by simp)]
      rw [show ([chars "#X", chars "obj", posStr pos] ++ cls :: args : List Str) =
        [chars "#X", chars "obj"] ++ (intRepr pos.x ++ ' ' :: intRepr pos.y) ::
        (cls :: args) from rfl]
      rw [joinSpace_split_piece]
      refine tokenize_line _ ?_ (by simp)
      intro t ht
      simp at ht
      rcases ht with rfl | rfl | rfl | rfl | rfl | ht
      · exact ⟨by decide, by decide⟩
      · exact ⟨by decide, by decide⟩
      · exact okTok_intRepr pos.x
      · exact okTok_intRepr pos.y
      · exact okTok_spec _ h.1.1
      · exact okTok_spec t (List.all_eq_true.mp h.1.2 t ht)
    unfold parseStep parse_obj
    rw [htoks]
    simp +decide [tk, parse_int_intRepr, hA, hB, hC, hD, hE, hF, hG, hH, hI]
    rfl



theorem step_bng (stack : List (CanvasProperties × List PdElement))
    (cc : CanvasProperties) (elems : List PdElement) (pos : Position)
    (size hold interrupt init2 : Int) (send receive label : Str)
    (lx ly font fs bg fg lc : Int)
    (h : wfElemB (.bng pos size hold interrupt init2 send receive label lx ly font fs bg fg lc) = true) :
    parseStep ⟨stack, some cc, elems⟩ (elemStr (.bng pos size hold interrupt init2 send receive label lx ly font fs bg fg lc)) =
      .ok ⟨stack, some cc, elems ++ [.bng pos size hold interrupt init2 send receive label lx ly font fs bg fg lc]⟩ := by
  rw [show wfElemB (.bng pos size hold interrupt init2 send receive label lx ly font fs bg fg lc) =
    (okTok send && okTok receive && okTok label) from rfl] at h
  simp only [Bool.and_eq_true] at h
  have htoks : tokenize (elemStr (.bng pos size hold interrupt init2 send receive label lx ly font fs bg fg lc)) =
      [chars "#X", chars "obj", intRepr pos.x, intRepr pos.y,
        chars "bng",
        intRepr size,
        intRepr hold,
        intRepr interrupt,
        intRepr init2,
        send,
        receive,
        label,
        intRepr lx,
        intRepr ly,
        intRepr font,
        intRepr fs,
        intRepr bg,
        intRepr fg,
        intRepr lc] := by
    rw [show elemStr (.bng pos size hold interrupt init2 send receive label lx ly font fs bg fg lc) =
      joinSpace ([chars "#X", chars "obj"] ++
        (intRepr pos.x ++ ' ' :: intRepr pos.y) ::
        [chars "bng",
        intRepr size,
        intRepr hold,
        intRepr interrupt,
        intRepr init2,
        send,
        receive,
        label,
        intRepr lx,
        intRepr ly,
        intRepr font,
        intRepr fs,
        intRepr bg,
        intRepr fg,
        intRepr lc]) ++ [';'] from rfl]
    rw [joinSpace_split_piece]
    refine tokenize_line _ ?_ (by simp)
    intro t ht
    simp at ht
    rcases ht with rfl | rfl | rfl | rfl | rfl | rfl | rfl | rfl | rfl | rfl | rfl | rfl | rfl | rfl | rfl | rfl | rfl | rfl | rfl
    · exact ⟨by decide, by decide⟩
    · exact ⟨by decide, by decide⟩
    · exact okTok_intRepr pos.x
    · exact okTok_intRepr pos.y
    · exact ⟨by decide, by decide⟩
    · exact okTok_intRepr size
    · exact okTok_intRepr hold
    · exact okTok_intRepr interrupt
    · exact okTok_intRepr init2
    · exact okTok_spec _ h.1.1
    · exact okTok_spec _ h.1.2
    · exact okTok_spec _ h.2
    · exact okTok_intRepr lx
    · exact okTok_intRepr ly
    · exact okTok_intRepr font
    · exact okTok_intRepr fs
    · exact okTok_intRepr bg
    · exact okTok_intRepr fg
    · exact okTok_intRepr lc
  unfold parseStep parse_obj
  rw [htoks]
  simp +decide [tk, parse_int_intRepr]
  rfl


theorem step_nbx (stack : List (CanvasProperties × List PdElement))
    (cc : CanvasProperties) (elems : List PdElement) (pos : Position)
    (w hh : Int) (mn mx : PyFloat) (lf init2 : Int) (send receive label : Str)
    (lx ly font fs bg fg lc : Int) (iv : PyFloat) (lh : Int)
    (h : wfElemB (.nbx pos w hh mn mx lf init2 send receive label lx ly font fs bg fg lc iv lh) = true) :
    parseStep ⟨stack, some cc, elems⟩ (elemStr (.nbx pos w hh mn mx lf init2 send receive label lx ly font fs bg fg lc iv lh)) =
      .ok ⟨stack, some cc, elems ++ [.nbx pos w hh mn mx lf init2 send receive label lx ly font fs bg fg lc iv lh]⟩ := by
  rw [show wfElemB (.nbx pos w hh mn mx lf init2 send receive label lx ly font fs bg fg lc iv lh) =
    (canonFB mn && canonFB mx && canonFB iv && okTok send && okTok receive && okTok label) from rfl] at h
  simp only [Bool.and_eq_true] at h
  have htoks : tokenize (elemStr (.nbx pos w hh mn mx lf init2 send receive label lx ly font fs bg fg lc iv lh)) =
      [chars "#X", chars "obj", intRepr pos.x, intRepr pos.y,
        chars "nbx",
        intRepr w,
        intRepr hh,
        floatRepr mn,
        floatRepr mx,
        intRepr lf,
        intRepr init2,
        send,
        receive,
        label,
        intRepr lx,
        intRepr ly,
        intRepr font,
        intRepr fs,
        intRepr bg,
        intRepr fg,
        intRepr lc,
        floatRepr iv,
        intRepr lh] := by
    rw [show elemStr (.nbx pos w hh mn mx lf init2 send receive label lx ly font fs bg fg lc iv lh) =
      joinSpace ([chars "#X", chars "obj"] ++
        (intRepr pos.x ++ ' ' :: intRepr pos.y) ::
        [chars "nbx",
        intRepr w,
        intRepr hh,
        floatRepr mn,
        floatRepr mx,
        intRepr lf,
        intRepr init2,
        send,
        receive,
        label,
        intRepr lx,
        intRepr ly,
        intRepr font,
        intRepr fs,
        intRepr bg,
        intRepr fg,
        intRepr lc,
        floatRepr iv,
        intRepr lh]) ++ [';'] from rfl]
    rw [joinSpace_split_piece]
    refine tokenize_line _ ?_ (by simp)
    intro t ht
    simp at ht
    rcases ht with rfl | rfl | rfl | rfl | rfl | rfl | rfl | rfl | rfl | rfl | rfl | rfl | rfl | rfl | rfl | rfl | rfl | rfl | rfl | rfl | rfl | rfl | rfl
    · exact ⟨by decide, by decide⟩
    · exact ⟨by decide, by decide⟩
    · exact okTok_intRepr pos.x
    · exact okTok_intRepr pos.y
    · exact ⟨by decide, by decide⟩
    · exact okTok_intRepr w
    · exact okTok_intRepr hh
    · exact okTok_floatRepr mn
    · exact okTok_floatRepr mx
    · exact okTok_intRepr lf
    · exact okTok_intRepr init2
    · exact okTok_spec _ h.1.1.2
    · exact okTok_spec _ h.1.2
    · exact okTok_spec _ h.2
    · exact okTok_intRepr lx
    · exact okTok_intRepr ly
    · exact okTok_intRepr font
    · exact okTok_intRepr fs
    · exact okTok_intRepr bg
    · exact okTok_intRepr fg
    · exact okTok_intRepr lc
    · exact okTok_floatRepr iv
    · exact okTok_intRepr lh
  unfold parseStep parse_obj
  rw [htoks]
  simp +decide [tk, parse_int_intRepr,
    parse_float_floatRepr mn (pyFofSci (-1) 37) h.1.1.1.1.1,
    parse_float_floatRepr mx (pyFofSci 1 37) h.1.1.1.1.2,
    parse_float_floatRepr iv pyF0 h.1.1.1.2]
  rfl


theorem step_vsl (stack : List (CanvasProperties × List PdElement))
    (cc : CanvasProperties) (elems : List PdElement) (pos : Position)
    (w hh : Int) (mn mx : PyFloat) (lf init2 : Int) (send receive label : Str)
    (lx ly font fs bg fg lc : Int) (iv : PyFloat) (steady : Int)
    (h : wfElemB (.vsl pos w hh mn mx lf init2 send receive label lx ly font fs bg fg lc iv steady) = true) :
    parseStep ⟨stack, some cc, elems⟩ (elemStr (.vsl pos w hh mn mx lf init2 send receive label lx ly font fs bg fg lc iv steady)) =
      .ok ⟨stack, some cc, elems ++ [.vsl pos w hh mn mx lf init2 send receive label lx ly font fs bg fg lc iv steady]⟩ := by
  rw [show wfElemB (.vsl pos w hh mn mx lf init2 send receive label lx ly font fs bg fg lc iv steady) =
    (canonFB mn && canonFB mx && canonFB iv && okTok send && okTok receive && okTok label) from rfl] at h
  simp only [Bool.and_eq_true] at h
  have htoks : tokenize (elemStr (.vsl pos w hh mn mx lf init2 send receive label lx ly font fs bg fg lc iv steady)) =
      [chars "#X", chars "obj", intRepr pos.x, intRepr pos.y,
        chars "vsl",
        intRepr w,
        intRepr hh,
        floatRepr mn,
        floatRepr mx,
        intRepr lf,
        intRepr init2,
        send,
        receive,
        label,
        intRepr lx,
        intRepr ly,
        intRepr font,
        intRepr fs,
        intRepr bg,
        intRepr fg,
        intRepr lc,
        floatRepr iv,
        intRepr steady] := by
    rw [show elemStr (.vsl pos w hh mn mx lf init2 send receive label lx ly font fs bg fg lc iv steady) =
      joinSpace ([chars "#X", chars "obj"] ++
        (intRepr pos.x ++ ' ' :: intRepr pos.y) ::
        [chars "vsl",
        intRepr w,
        intRepr hh,
        floatRepr mn,
        floatRepr mx,
        intRepr lf,
        intRepr init2,
        send,
        receive,
        label,
        intRepr lx,
        intRepr ly,
        intRepr font,
        intRepr fs,
        intRepr bg,
        intRepr fg,
        intRepr lc,
        floatRepr iv,
        intRepr steady]) ++ [';'] from rfl]
    rw [joinSpace_split_piece]
    refine tokenize_line _ ?_ (by simp)
    intro t ht
    simp at ht
    rcases ht with rfl | rfl | rfl | rfl | rfl | rfl | rfl | rfl | rfl | rfl | rfl | rfl | rfl | rfl | rfl | rfl | rfl | rfl | rfl | rfl | rfl | rfl | rfl
    · exact ⟨by decide, by decide⟩
    · exact ⟨by decide, by decide⟩
    · exact okTok_intRepr pos.x
    · exact okTok_intRepr pos.y
    · exact ⟨by decide, by decide⟩
    · exact okTok_intRepr w
    · exact okTok_intRepr hh
    · exact okTok_floatRepr mn
    · exact okTok_floatRepr mx
    · exact okTok_intRepr lf
    · exact okTok_intRepr init2
    · exact okTok_spec _ h.1.1.2
    · exact okTok_spec _ h.1.2
    · exact okTok_spec _ h.2
    · exact okTok_intRepr lx
    · exact okTok_intRepr ly
    · exact okTok_intRepr font
    · exact okTok_intRepr fs
    · exact okTok_intRepr bg
    · exact okTok_intRepr fg
    · exact okTok_intRepr lc
    · exact okTok_floatRepr iv
    · exact okTok_intRepr steady
  unfold parseStep parse_obj
  rw [htoks]
  simp +decide [tk, parse_int_intRepr,
    parse_float_floatRepr mn pyF0 h.1.1.1.1.1,
    parse_float_floatRepr mx ⟨127, 0⟩ h.1.1.1.1.2,
    parse_float_floatRepr iv pyF0 h.1.1.1.2]
  rfl


theorem step_hsl (stack : List (CanvasProperties × List PdElement))
    (cc : CanvasProperties) (elems : List PdElement) (pos : Position)
    (w hh : Int) (mn mx : PyFloat) (lf init2 : Int) (send receive label : Str)
    (lx ly font fs bg fg lc : Int) (iv : PyFloat) (steady : Int)
    (h : wfElemB (.hsl pos w hh mn mx lf init2 send receive label lx ly font fs bg fg lc iv steady) = true) :
    parseStep ⟨stack, some cc, elems⟩ (elemStr (.hsl pos w hh mn mx lf init2 send receive label lx ly font fs bg fg lc iv steady)) =
      .ok ⟨stack, some cc, elems ++ [.hsl pos w hh mn mx lf init2 send receive label lx ly font fs bg fg lc iv steady]⟩ := by
  rw [show wfElemB (.hsl pos w hh mn mx lf init2 send receive label lx ly font fs bg fg lc iv steady) =
    (canonFB mn && canonFB mx && canonFB iv && okTok send && okTok receive && okTok label) from rfl] at h
  simp only [Bool.and_eq_true] at h
  have htoks : tokenize (elemStr (.hsl pos w hh mn mx lf init2 send receive label lx ly font fs bg fg lc iv steady)) =
      [chars "#X", chars "obj", intRepr pos.x, intRepr pos.y,
        chars "hsl",
        intRepr w,
        intRepr hh,
        floatRepr mn,
        floatRepr mx,
        intRepr lf,
        intRepr init2,
        send,
        receive,
        label,
        intRepr lx,
        intRepr ly,
        intRepr font,
        intRepr fs,
        intRepr bg,
        intRepr fg,
        intRepr lc,
        floatRepr iv,
        intRepr steady] := by
    rw [show elemStr (.hsl pos w hh mn mx lf init2 send receive label lx ly font fs bg fg lc iv steady) =
      joinSpace ([chars "#X", chars "obj"] ++
        (intRepr pos.x ++ ' ' :: intRepr pos.y) ::
        [chars "hsl",
        intRepr w,
        intRepr hh,
        floatRepr mn,
        floatRepr mx,
        intRepr lf,
        intRepr init2,
        send,
        receive,
        label,
        intRepr lx,
        intRepr ly,
        intRepr font,
        intRepr fs,
        intRepr bg,
        intRepr fg,
        intRepr lc,
        floatRepr iv,
        intRepr steady]) ++ [';'] from rfl]
    rw [joinSpace_split_piece]
    refine tokenize_line _ ?_ (by simp)
    intro t ht
    simp at ht
    rcases ht with rfl | rfl | rfl | rfl | rfl | rfl | rfl | rfl | rfl | rfl | rfl | rfl | rfl | rfl | rfl | rfl | rfl | rfl | rfl | rfl | rfl | rfl | rfl
    · exact ⟨by decide, by decide⟩
    · exact ⟨by decide, by decide⟩
    · exact okTok_intRepr pos.x
    · exact okTok_intRepr pos.y
    · exact ⟨by decide, by decide⟩
    · exact okTok_intRepr w
    · exact okTok_intRepr hh
    · exact okTok_floatRepr mn
    · exact okTok_floatRepr mx
    · exact okTok_intRepr lf
    · exact okTok_intRepr init2
    · exact okTok_spec _ h.1.1.2
    · exact okTok_spec _ h.1.2
    · exact okTok_spec _ h.2
    · exact okTok_intRepr lx
    · exact okTok_intRepr ly
    · exact okTok_intRepr font
    · exact okTok_intRepr fs
    · exact okTok_intRepr bg
    · exact okTok_intRepr fg
    · exact okTok_intRepr lc
    · exact okTok_floatRepr iv
    · exact okTok_intRepr steady
  unfold parseStep parse_obj
  rw [htoks]
  simp +decide [tk, parse_int_intRepr,
    parse_float_floatRepr mn pyF0 h.1.1.1.1.1,
    parse_float_floatRepr mx ⟨127, 0⟩ h.1.1.1.1.2,
    parse_float_floatRepr iv pyF0 h.1.1.1.2]
  rfl


theorem step_vradio (stack : List (CanvasProperties × List PdElement))
    (cc : CanvasProperties) (elems : List PdElement) (pos : Position)
    (size new_old init2 number : Int) (send receive label : Str)
    (lx ly font fs bg fg lc iv : Int)
    (h : wfElemB (.vradio pos size new_old init2 number send receive label lx ly font fs bg fg lc iv) = true) :
    parseStep ⟨stack, some cc, elems⟩ (elemStr (.vradio pos size new_old init2 number send receive label lx ly font fs bg fg lc iv)) =
      .ok ⟨stack, some cc, elems ++ [.vradio pos size new_old init2 number send receive label lx ly font fs bg fg lc iv]⟩ := by
  rw [show wfElemB (.vradio pos size new_old init2 number send receive label lx ly font fs bg fg lc iv) =
    (okTok send && okTok receive && okTok label) from rfl] at h
  simp only [Bool.and_eq_true] at h
  have htoks : tokenize (elemStr (.vradio pos size new_old init2 number send receive label lx ly font fs bg fg lc iv)) =
      [chars "#X", chars "obj", intRepr pos.x, intRepr pos.y,
        chars "vradio",
        intRepr size,
        intRepr new_old,
        intRepr init2,
        intRepr number,
        send,
        receive,
        label,
        intRepr lx,
        intRepr ly,
        intRepr font,
        intRepr fs,
        intRepr bg,
        intRepr fg,
        intRepr lc,
        intRepr iv] := by
    rw [show elemStr (.vradio pos size new_old init2 number send receive label lx ly font fs bg fg lc iv) =
      joinSpace ([chars "#X", chars "obj"] ++
        (intRepr pos.x ++ ' ' :: intRepr pos.y) ::
        [chars "vradio",
        intRepr size,
        intRepr new_old,
        intRepr init2,
        intRepr number,
        send,
        receive,
        label,
        intRepr lx,
        intRepr ly,
        intRepr font,
        intRepr fs,
        intRepr bg,
        intRepr fg,
        intRepr lc,
        intRepr iv]) ++ [';'] from rfl]
    rw [joinSpace_split_piece]
    refine tokenize_line _ ?_ (by simp)
    intro t ht
    simp at ht
    rcases ht with rfl | rfl | rfl | rfl | rfl | rfl | rfl | rfl | rfl | rfl | rfl | rfl | rfl | rfl | rfl | rfl | rfl | rfl | rfl | rfl
    · exact ⟨by decide, by decide⟩
    · exact ⟨by decide, by decide⟩
    · exact okTok_intRepr pos.x
    · exact okTok_intRepr pos.y
    · exact ⟨by decide, by decide⟩
    · exact okTok_intRepr size
    · exact okTok_intRepr new_old
    · exact okTok_intRepr init2
    · exact okTok_intRepr number
    · exact okTok_spec _ h.1.1
    · exact okTok_spec _ h.1.2
    · exact okTok_spec _ h.2
    · exact okTok_intRepr lx
    · exact okTok_intRepr ly
    · exact okTok_intRepr font
    · exact okTok_intRepr fs
    · exact okTok_intRepr bg
    · exact okTok_intRepr fg
    · exact okTok_intRepr lc
    · exact okTok_intRepr iv
  unfold parseStep parse_obj
  rw [htoks]
  simp +decide [tk, parse_int_intRepr]
  rfl


theorem step_hradio (stack : List (CanvasProperties × List PdElement))
    (cc : CanvasProperties) (elems : List PdElement) (pos : Position)
    (size new_old init2 number : Int) (send receive label : Str)
    (lx ly font fs bg fg lc iv : Int)
    (h : wfElemB (.hradio pos size new_old init2 number send receive label lx ly font fs bg fg lc iv) = true) :
    parseStep ⟨stack, some cc, elems⟩ (elemStr (.hradio pos size new_old init2 number send receive label lx ly font fs bg fg lc iv)) =
      .ok ⟨stack, some cc, elems ++ [.hradio pos size new_old init2 number send receive label lx ly font fs bg fg lc iv]⟩ := by
  rw [show wfElemB (.hradio pos size new_old init2 number send receive label lx ly font fs bg fg lc iv) =
    (okTok send && okTok receive && okTok label) from rfl] at h
  simp only [Bool.and_eq_true] at h
  have htoks : tokenize (elemStr (.hradio pos size new_old init2 number send receive label lx ly font fs bg fg lc iv)) =
      [chars "#X", chars "obj", intRepr pos.x, intRepr pos.y,
        chars "hradio",
        intRepr size,
        intRepr new_old,
        intRepr init2,
        intRepr number,
        send,
        receive,
        label,
        intRepr lx,
        intRepr ly,
        intRepr font,
        intRepr fs,
        intRepr bg,
        intRepr fg,
        intRepr lc,
        intRepr iv] := by
    rw [show elemStr (.hradio pos size new_old init2 number send receive label lx ly font fs bg fg lc iv) =
      joinSpace ([chars "#X", chars "obj"] ++
        (intRepr pos.x ++ ' ' :: intRepr pos.y) ::
        [chars "hradio",
        intRepr size,
        intRepr new_old,
        intRepr init2,
        intRepr number,
        send,
        receive,
        label,
        intRepr lx,
        intRepr ly,
        intRepr font,
        intRepr fs,
        intRepr bg,
        intRepr fg,
        intRepr lc,
        intRepr iv]) ++ [';'] from rfl]
    rw [joinSpace_split_piece]
    refine tokenize_line _ ?_ (by simp)
    intro t ht
    simp at ht
    rcases ht with rfl | rfl | rfl | rfl | rfl | rfl | rfl | rfl | rfl | rfl | rfl | rfl | rfl | rfl | rfl | rfl | rfl | rfl | rfl | rfl
    · exact ⟨by decide, by decide⟩
    · exact ⟨by decide, by decide⟩
    · exact okTok_intRepr pos.x
    · exact okTok_intRepr pos.y
    · exact ⟨by decide, by decide⟩
    · exact okTok_intRepr size
    · exact okTok_intRepr new_old
    · exact okTok_intRepr init2
    · exact okTok_intRepr number
    · exact okTok_spec _ h.1.1
    · exact okTok_spec _ h.1.2
    · exact okTok_spec _ h.2
    · exact okTok_intRepr lx
    · exact okTok_intRepr ly
    · exact okTok_intRepr font
    · exact okTok_intRepr fs
    · exact okTok_intRepr bg
    · exact okTok_intRepr fg
    · exact okTok_intRepr lc
    · exact okTok_intRepr iv
  unfold parseStep parse_obj
  rw [htoks]
  simp +decide [tk, parse_int_intRepr]
  rfl


theorem step_cnv (stack : List (CanvasProperties × List PdElement))
    (cc : CanvasProperties) (elems : List PdElement) (pos : Position)
    (size w hh : Int) (send receive label : Str)
    (lx ly font fs bg lc : Int)
    (h : wfElemB (.cnv pos size w hh send receive label lx ly font fs bg lc) = true) :
    parseStep ⟨stack, some cc, elems⟩ (elemStr (.cnv pos size w hh send receive label lx ly font fs bg lc)) =
      .ok ⟨stack, some cc, elems ++ [.cnv pos size w hh send receive label lx ly font fs bg lc]⟩ := by
  rw [show wfElemB (.cnv pos size w hh send receive label lx ly font fs bg lc) =
    (okTok send && okTok receive && okTok label) from rfl] at h
  simp only [Bool.and_eq_true] at h
  have htoks : tokenize (elemStr (.cnv pos size w hh send receive label lx ly font fs bg lc)) =
      [chars "#X", chars "obj", intRepr pos.x, intRepr pos.y,
        chars "cnv",
        intRepr size,
        intRepr w,
        intRepr hh,
        send,
        receive,
        label,
        intRepr lx,
        intRepr ly,
        intRepr font,
        intRepr fs,
        intRepr bg,
        intRepr lc,
        chars "0"] := by
    rw [show elemStr (.cnv pos size w hh send receive label lx ly font fs bg lc) =
      joinSpace ([chars "#X", chars "obj"] ++
        (intRepr pos.x ++ ' ' :: intRepr pos.y) ::
        [chars "cnv",
        intRepr size,
        intRepr w,
        intRepr hh,
        send,
        receive,
        label,
        intRepr lx,
        intRepr ly,
        intRepr font,
        intRepr fs,
        intRepr bg,
        intRepr lc,
        chars "0"]) ++ [';'] from rfl]
    rw [joinSpace_split_piece]
    refine tokenize_line _ ?_ (by simp)
    intro t ht
    simp at ht
    rcases ht with rfl | rfl | rfl | rfl | rfl | rfl | rfl | rfl | rfl | rfl | rfl | rfl | rfl | rfl | rfl | rfl | rfl | rfl
    · exact ⟨by decide, by decide⟩
    · exact ⟨by decide, by decide⟩
    · exact okTok_intRepr pos.x
    · exact okTok_intRepr pos.y
    · exact ⟨by decide, by decide⟩
    · exact okTok_intRepr size
    · exact okTok_intRepr w
    · exact okTok_intRepr hh
    · exact okTok_spec _ h.1.1
    · exact okTok_spec _ h.1.2
    · exact okTok_spec _ h.2
    · exact okTok_intRepr lx
    · exact okTok_intRepr ly
    · exact okTok_intRepr font
    · exact okTok_intRepr fs
    · exact okTok_intRepr bg
    · exact okTok_intRepr lc
    · exact ⟨by decide, by decide⟩
  unfold parseStep parse_obj
  rw [htoks]
  simp +decide [tk, parse_int_intRepr]
  rfl


theorem step_vu (stack : List (CanvasProperties × List PdElement))
    (cc : CanvasProperties) (elems : List PdElement) (pos : Position)
    (w hh : Int) (receive label : Str)
    (lx ly font fs bg lc scale : Int)
    (h : wfElemB (.vu pos w hh receive label lx ly font fs bg lc scale) = true) :
    parseStep ⟨stack, some cc, elems⟩ (elemStr (.vu pos w hh receive label lx ly font fs bg lc scale)) =
      .ok ⟨stack, some cc, elems ++ [.vu pos w hh receive label lx ly font fs bg lc scale]⟩ := by
  rw [show wfElemB (.vu pos w hh receive label lx ly font fs bg lc scale) =
    (okTok receive && okTok label) from rfl] at h
  simp only [Bool.and_eq_true] at h
  have htoks : tokenize (elemStr (.vu pos w hh receive label lx ly font fs bg lc scale)) =
      [chars "#X", chars "obj", intRepr pos.x, intRepr pos.y,
        chars "vu",
        intRepr w,
        intRepr hh,
        receive,
        label,
        intRepr lx,
        intRepr ly,
        intRepr font,
        intRepr fs,
        intRepr bg,
        intRepr lc,
        intRepr scale,
        chars "0"] := by
    rw [show elemStr (.vu pos w hh receive label lx ly font fs bg lc scale) =
      joinSpace ([chars "#X", chars "obj"] ++
        (intRepr pos.x ++ ' ' :: intRepr pos.y) ::
        [chars "vu",
        intRepr w,
        intRepr hh,
        receive,
        label,
        intRepr lx,
        intRepr ly,
        intRepr font,
        intRepr fs,
        intRepr bg,
        intRepr lc,
        intRepr scale,
        chars "0"]) ++ [';'] from rfl]
    rw [joinSpace_split_piece]
    refine tokenize_line _ ?_ (by simp)
    intro t ht
    simp at ht
    rcases ht with rfl | rfl | rfl | rfl | rfl | rfl | rfl | rfl | rfl | rfl | rfl | rfl | rfl | rfl | rfl | rfl | rfl
    · exact ⟨by decide, by decide⟩
    · exact ⟨by decide, by decide⟩
    · exact okTok_intRepr pos.x
    · exact okTok_intRepr pos.y
    · exact ⟨by decide, by decide⟩
    · exact okTok_intRepr w
    · exact okTok_intRepr hh
    · exact okTok_spec _ h.1
    · exact okTok_spec _ h.2
    · exact okTok_intRepr lx
    · exact okTok_intRepr ly
    · exact okTok_intRepr font
    · exact okTok_intRepr fs
    · exact okTok_intRepr bg
    · exact okTok_intRepr lc
    · exact okTok_intRepr scale
    · exact ⟨by decide, by decide⟩
  unfold parseStep parse_obj
  rw [htoks]
  simp +decide [tk, parse_int_intRepr]
  rfl

theorem canvas_line_parse (c : CanvasProperties) (h : wfCanvasB c = true) :
    ∃ ts, tokenize (canvasLine c) = chars "#N" :: chars "canvas" :: ts ∧
      parse_canvas (chars "#N" :: chars "canvas" :: ts) = .ok c := by
  obtain ⟨x, y, w, hh, fs, name, op⟩ := c
  unfold wfCanvasB at h
  cases name with
  | none =>
    simp only [decide_eq_true_eq] at h
    refine ⟨[intRepr x, intRepr y, intRepr w, intRepr hh, intRepr fs], ?_, ?_⟩
    · rw [show canvasLine ⟨x, y, w, hh, fs, none, op⟩ =
        joinSpace [chars "#N", chars "canvas", intRepr x, intRepr y, intRepr w,
          intRepr hh, intRepr fs] ++ [';'] from by
        unfold canvasLine canvasStr
        rw [joinSpace_cons _ _ (by simp), joinSpace_cons _ _ (by simp)]
        rfl]
      refine tokenize_line _ ?_ (by simp)
      intro t ht
      simp at ht
      rcases ht with rfl | rfl | rfl | rfl | rfl | rfl | rfl
      · exact ⟨by decide, by decide⟩
      · exact ⟨by decide, by decide⟩
      · exact okTok_intRepr x
      · exact okTok_intRepr y
      · exact okTok_intRepr w
      · exact okTok_intRepr hh
      · exact okTok_intRepr fs
    · unfold parse_canvas
      simp +decide [tk, parse_int_intRepr, h]
  | some n =>
    simp only [Bool.and_eq_true, decide_eq_true_eq] at h
    have hn := okTok_spec n h.1
    refine ⟨[intRepr x, intRepr y, intRepr w, intRepr hh, n, intRepr op], ?_, ?_⟩
    · rw [show canvasLine ⟨x, y, w, hh, fs, some n, op⟩ =
        joinSpace [chars "#N", chars "canvas", intRepr x, intRepr y, intRepr w,
          intRepr hh, n, intRepr op] ++ [';'] from by
        unfold canvasLine canvasStr
        rw [show (match some n with
          | some nn =>
            if nn = [] then
              joinSpace [intRepr x, intRepr y, intRepr w, intRepr hh, intRepr fs]
            else
              joinSpace [intRepr x, intRepr y, intRepr w, intRepr hh, nn, intRepr op]
          | none =>
            joinSpace [intRepr x, intRepr y, intRepr w, intRepr hh, intRepr fs]) =
          joinSpace [intRepr x, intRepr y, intRepr w, intRepr hh, n, intRepr op] from by
          simp [hn.1]]
        rw [joinSpace_cons _ _ (by simp), joinSpace_cons _ _ (by simp)]
        rfl]
      refine tokenize_line _ ?_ (by simp)
      intro t ht
      simp at ht
      rcases ht with rfl | rfl | rfl | rfl | rfl | rfl | rfl | rfl
      · exact ⟨by decide, by decide⟩
      · exact ⟨by decide, by decide⟩
      · exact okTok_intRepr x
      · exact okTok_intRepr y
      · exact okTok_intRepr w
      · exact okTok_intRepr hh
      · exact hn
      · exact okTok_intRepr op
    · unfold parse_canvas
      simp +decide [tk, parse_int_intRepr, h.2]

theorem step_canvas_push (stack : List (CanvasProperties × List PdElement))
    (cc : CanvasProperties) (elems : List PdElement) (c : CanvasProperties)
    (h : wfCanvasB c = true) :
    parseStep ⟨stack, some cc, elems⟩ (canvasLine c) =
      .ok ⟨(cc, elems) :: stack, some c, []⟩ := by
  obtain ⟨ts, hts, hparse⟩ := canvas_line_parse c h
  unfold parseStep
  rw [hts]
  simp +decide [tk, hparse]
  rfl

theorem step_canvas_root (stack : List (CanvasProperties × List PdElement))
    (elems : List PdElement) (c : CanvasProperties) (h : wfCanvasB c = true) :
    parseStep ⟨stack, none, elems⟩ (canvasLine c) = .ok ⟨stack, some c, elems⟩ := by
  obtain ⟨ts, hts, hparse⟩ := canvas_line_parse c h
  unfold parseStep
  rw [hts]
  simp +decide [tk, hparse]
  rfl


theorem step_restore (stack : List (CanvasProperties × List PdElement))
    (pc : CanvasProperties) (pe : List PdElement) (cc : CanvasProperties)
    (elems : List PdElement) (rpos : Position) (rname : Str)
    (hok : okContent rname = true) (hne : rname ≠ []) :
    parseStep ⟨(pc, pe) :: stack, some cc, elems⟩ (restoreStr ⟨rpos, rname⟩) =
      .ok ⟨stack, some pc, pe ++ [.subpatch cc elems (some ⟨rpos, rname⟩)]⟩ := by
  unfold okContent at hok
  simp only [Bool.or_eq_true, Bool.and_eq_true, decide_eq_true_eq] at hok
  rcases hok with hok | ⟨hok, hjoin⟩
  · exact absurd (by simpa using hok) hne
  have hts : tokenize rname ≠ [] := by
    intro hnil
    rw [hnil] at hjoin
    exact hne hjoin.symm
  have hrep : restoreStr ⟨rpos, rname⟩ =
      joinSpace ([chars "#X", chars "restore", intRepr rpos.x, intRepr rpos.y,
        chars "pd"] ++ tokenize rname) ++ [';'] := by
    rw [← joinSpace_join [chars "#X", chars "restore", intRepr rpos.x, intRepr rpos.y,
      chars "pd"] (tokenize rname) hts]
    rw [hjoin]
    rw [show ([chars "#X", chars "restore", intRepr rpos.x, intRepr rpos.y,
      chars "pd"] ++ [rname] : List Str) = [chars "#X", chars "restore"] ++
      intRepr rpos.x :: intRepr rpos.y :: [chars "pd", rname] from rfl]
    rw [← joinSpace_split_piece]
    rfl
  have htoks : tokenize (restoreStr ⟨rpos, rname⟩) =
      [chars "#X", chars "restore", intRepr rpos.x, intRepr rpos.y, chars "pd"] ++
        tokenize rname := by
    rw [hrep]
    refine tokenize_line _ ?_ (by simp)
    intro t ht
    rw [List.mem_append] at ht
    rcases ht with ht | ht
    · simp at ht
      rcases ht with rfl | rfl | rfl | rfl | rfl
      · exact ⟨by decide, by decide⟩
      · exact ⟨by decide, by decide⟩
      · exact okTok_intRepr rpos.x
      · exact okTok_intRepr rpos.y
      · exact ⟨by decide, by decide⟩
    · exact okTok_spec t (List.all_eq_true.mp hok t ht)
  unfold parseStep parse_restore
  rw [htoks]
  simp +decide [tk, parse_int_intRepr, List.length_pos.mpr hts, hjoin]
  rw [if_neg (show ¬((tokenize rname).length + 1 + 1 + 1 + 1 + 1 < 6) from by
    have := List.length_pos.mpr hts
    omega)]
  rfl


theorem except_bind_ok2 {α β ε : Type} (a : α) (f : α → Except ε β) :
    (Except.ok a >>= f : Except ε β) = f a := rfl

mutual

theorem replay_elem : ∀ (e : PdElement), wfElemB e = true →
    ∀ (stack : List (CanvasProperties × List PdElement)) (cc : CanvasProperties)
      (elems : List PdElement),
    List.foldlM parseStep (ParseState.mk stack (some cc) elems) (stmtsOfElem e) =
      .ok ⟨stack, some cc, elems ++ [e]⟩
  | .obj pos cls args, h, stack, cc, elems => by
    rw [show stmtsOfElem (.obj pos cls args) = [elemStr (.obj pos cls args)] from rfl,
      List.foldlM_cons, step_obj stack cc elems pos cls args h, except_bind_ok2]
    rfl
  | .msg pos content, h, stack, cc, elems => by
    rw [show stmtsOfElem (.msg pos content) = [elemStr (.msg pos content)] from rfl,
      List.foldlM_cons, step_msg stack cc elems pos content h, except_bind_ok2]
    rfl
  | .floatatom pos width lo hi lp label receive send, h, stack, cc, elems => by
    rw [show stmtsOfElem (.floatatom pos width lo hi lp label receive send) = [elemStr (.floatatom pos width lo hi lp label receive send)] from rfl,
      List.foldlM_cons, step_floatatom stack cc elems pos width lo hi lp label receive send h, except_bind_ok2]
    rfl
  | .symbolatom pos width lo hi lp label receive send, h, stack, cc, elems => by
    rw [show stmtsOfElem (.symbolatom pos width lo hi lp label receive send) = [elemStr (.symbolatom pos width lo hi lp label receive send)] from rfl,
      List.foldlM_cons, step_symbolatom stack cc elems pos width lo hi lp label receive send h, except_bind_ok2]
    rfl
  | .text pos content, h, stack, cc, elems => by
    rw [show stmtsOfElem (.text pos content) = [elemStr (.text pos content)] from rfl,
      List.foldlM_cons, step_text stack cc elems pos content h, except_bind_ok2]
    rfl
  | .array name size dtype save_flag, h, stack, cc, elems => by
    rw [show stmtsOfElem (.array name size dtype save_flag) = [elemStr (.array name size dtype save_flag)] from rfl,
      List.foldlM_cons, step_array stack cc elems name size dtype save_flag h, except_bind_ok2]
    rfl
  | .connect sid oid kid iid, _h, stack, cc, elems => by
    rw [show stmtsOfElem (.connect sid oid kid iid) = [elemStr (.connect sid oid kid iid)] from rfl,
      List.foldlM_cons, step_connect stack cc elems sid oid kid iid, except_bind_ok2]
    rfl
  | .coords xf yf xt yt w ht2 gop hide xm ym, h, stack, cc, elems => by
    rw [show stmtsOfElem (.coords xf yf xt yt w ht2 gop hide xm ym) = [elemStr (.coords xf yf xt yt w ht2 gop hide xm ym)] from rfl,
      List.foldlM_cons, step_coords stack cc elems xf yf xt yt w ht2 gop hide xm ym h, except_bind_ok2]
    rfl
  | .bng pos size hold interrupt init2 send receive label lx ly font fs bg fg lc, h, stack, cc, elems => by
    rw [show stmtsOfElem (.bng pos size hold interrupt init2 send receive label lx ly font fs bg fg lc) = [elemStr (.bng pos size hold interrupt init2 send receive label lx ly font fs bg fg lc)] from rfl,
      List.foldlM_cons, step_bng stack cc elems pos size hold interrupt init2 send receive label lx ly font fs bg fg lc h, except_bind_ok2]
    rfl
  | .nbx pos w hh mn mx lf init2 send receive label lx ly font fs bg fg lc iv lh, h, stack, cc, elems => by
    rw [show stmtsOfElem (.nbx pos w hh mn mx lf init2 send receive label lx ly font fs bg fg lc iv lh) = [elemStr (.nbx pos w hh mn mx lf init2 send receive label lx ly font fs bg fg lc iv lh)] from rfl,
      List.foldlM_cons, step_nbx stack cc elems pos w hh mn mx lf init2 send receive label lx ly font fs bg fg lc iv lh h, except_bind_ok2]
    rfl
  | .vsl pos w hh mn mx lf init2 send receive label lx ly font fs bg fg lc iv steady, h, stack, cc, elems => by
    rw [show stmtsOfElem (.vsl pos w hh mn mx lf init2 send receive label lx ly font fs bg fg lc iv steady) = [elemStr (.vsl pos w hh mn mx lf init2 send receive label lx ly font fs bg fg lc iv steady)] from rfl,
      List.foldlM_cons, step_vsl stack cc elems pos w hh mn mx lf init2 send receive label lx ly font fs bg fg lc iv steady h, except_bind_ok2]
    rfl
  | .hsl pos w hh mn mx lf init2 send receive label lx ly font fs bg fg lc iv steady, h, stack, cc, elems => by
    rw [show stmtsOfElem (.hsl pos w hh mn mx lf init2 send receive label lx ly font fs bg fg lc iv steady) = [elemStr (.hsl pos w hh mn mx lf init2 send receive label lx ly font fs bg fg lc iv steady)] from rfl,
      List.foldlM_cons, step_hsl stack cc elems pos w hh mn mx lf init2 send receive label lx ly font fs bg fg lc iv steady h, except_bind_ok2]
    rfl
  | .vradio pos size new_old init2 number send receive label lx ly font fs bg fg lc iv, h, stack, cc, elems => by
    rw [show stmtsOfElem (.vradio pos size new_old init2 number send receive label lx ly font fs bg fg lc iv) = [elemStr (.vradio pos size new_old init2 number send receive label lx ly font fs bg fg lc iv)] from rfl,
      List.foldlM_cons, step_vradio stack cc elems pos size new_old init2 number send receive label lx ly font fs bg fg lc iv h, except_bind_ok2]
    rfl
  | .hradio pos size new_old init2 number send receive label lx ly font fs bg fg lc iv, h, stack, cc, elems => by
    rw [show stmtsOfElem (.hradio pos size new_old init2 number send receive label lx ly font fs bg fg lc iv) = [elemStr (.hradio pos size new_old init2 number send receive label lx ly font fs bg fg lc iv)] from rfl,
      List.foldlM_cons, step_hradio stack cc elems pos size new_old init2 number send receive label lx ly font fs bg fg lc iv h, except_bind_ok2]
    rfl
  | .cnv pos size w hh send receive label lx ly font fs bg lc, h, stack, cc, elems => by
    rw [show stmtsOfElem (.cnv pos size w hh send receive label lx ly font fs bg lc) = [elemStr (.cnv pos size w hh send receive label lx ly font fs bg lc)] from rfl,
      List.foldlM_cons, step_cnv stack cc elems pos size w hh send receive label lx ly font fs bg lc h, except_bind_ok2]
    rfl
  | .vu pos w hh receive label lx ly font fs bg lc scale, h, stack, cc, elems => by
    rw [show stmtsOfElem (.vu pos w hh receive label lx ly font fs bg lc scale) = [elemStr (.vu pos w hh receive label lx ly font fs bg lc scale)] from rfl,
      List.foldlM_cons, step_vu stack cc elems pos w hh receive label lx ly font fs bg lc scale h, except_bind_ok2]
    rfl
  | .tgl p1 a1 a2 s1 s2 s3 b1 b2 b3 b4 b5 b6 b7 b8 b9, h, stack, cc, elems => by
    rw [show wfElemB (.tgl p1 a1 a2 s1 s2 s3 b1 b2 b3 b4 b5 b6 b7 b8 b9) = false from rfl] at h
    exact absurd h (by simp)
  | .subpatch c es r, h, stack, cc, elems => by
    cases r with
    | none =>
      rw [show wfElemB (.subpatch c es none) =
        (wfCanvasB c && false && wfListB es) from rfl] at h
      simp at h
    | some rr =>
      obtain ⟨rpos, rname⟩ := rr
      rw [show wfElemB (.subpatch c es (some ⟨rpos, rname⟩)) = (wfCanvasB c &&
        (! List.isEmpty rname && okContent rname) && wfListB es) from rfl] at h
      simp only [Bool.and_eq_true, Bool.not_eq_true'] at h
      obtain ⟨⟨hc, hr⟩, hes⟩ := h
      have hne : rname ≠ [] := by
        intro hnil
        rw [hnil] at hr
        simp at hr
      rw [show stmtsOfElem (.subpatch c es (some ⟨rpos, rname⟩)) =
        canvasLine c :: (stmtsOfList es ++ [restoreStr ⟨rpos, rname⟩]) from rfl]
      rw [List.foldlM_cons, step_canvas_push stack cc elems c hc, except_bind_ok2]
      rw [List.foldlM_append, replay_list es hes ((cc, elems) :: stack) c [],
        except_bind_ok2]
      rw [List.foldlM_cons]
      rw [show ([] : List PdElement) ++ es = es from rfl]
      rw [step_restore stack cc elems c es rpos rname hr.2 hne, except_bind_ok2]
      rfl
termination_by structural e _h _s _c _e2 => e

theorem replay_list : ∀ (es : List PdElement), wfListB es = true →
    ∀ (stack : List (CanvasProperties × List PdElement)) (cc : CanvasProperties)
      (elems : List PdElement),
    List.foldlM parseStep (ParseState.mk stack (some cc) elems) (stmtsOfList es) =
      .ok ⟨stack, some cc, elems ++ es⟩
  | [], _, stack, cc, elems => by
    rw [show stmtsOfList [] = [] from rfl]
    simp only [List.foldlM_nil, List.append_nil]
    rfl
  | e :: es, h, stack, cc, elems => by
    rw [show wfListB (e :: es) = (wfElemB e && wfListB es) from rfl] at h
    simp only [Bool.and_eq_true] at h
    rw [show stmtsOfList (e :: es) = stmtsOfElem e ++ stmtsOfList es from rfl,
      List.foldlM_append, replay_elem e h.1 stack cc elems, except_bind_ok2,
      replay_list es h.2 stack cc (elems ++ [e])]
    simp
termination_by structural es _h _s _c _e2 => es

end


theorem mem_joinSpace (c : Char) : ∀ (ts : List Str), c ∈ joinSpace ts →
    c = ' ' ∨ ∃ t ∈ ts, c ∈ t := by
  intro ts
  induction ts with
  | nil => intro h; simp [joinSpace, List.intercalate] at h
  | cons t rest ih =>
    intro h
    cases rest with
    | nil =>
      rw [joinSpace_single] at h
      exact Or.inr ⟨t, by simp, h⟩
    | cons t2 rest2 =>
      rw [joinSpace_cons _ _ (by simp), List.mem_append] at h
      rcases h with h | h
      · exact Or.inr ⟨t, by simp, h⟩
      · rw [List.mem_cons] at h
        rcases h with rfl | h
        · exact Or.inl rfl
        · rcases ih h with h2 | ⟨u, hu, hcu⟩
          · exact Or.inl h2
          · exact Or.inr ⟨u, by simp [hu], hcu⟩

theorem goodTok_no_nlcr : ∀ (t : Str), goodTokB t = true →
    ∀ c ∈ t, c ≠ '\n' ∧ c ≠ '\r' := by
  intro t
  induction t using goodTokB.induct with
  | case1 => intro _ c hc; simp at hc
  | case2 =>
    intro h
    rw [goodTokB.eq_def] at h
    simp at h
  | case3 c2 r2 ih =>
    intro h c hc
    rw [goodTokB.eq_def] at h
    simp at h
    rw [List.mem_cons, List.mem_cons] at hc
    rcases hc with rfl | rfl | hc
    · exact ⟨by decide, by decide⟩
    · exact ⟨h.1.1, h.1.2⟩
    · exact ih h.2 c hc
  | case4 c2 r hc2 ih =>
    intro h c hc
    rw [goodTokB.eq_def] at h
    simp only [if_neg hc2, Bool.and_eq_true, decide_eq_true_eq] at h
    rw [List.mem_cons] at hc
    rcases hc with rfl | hc
    · exact ⟨h.1.2.2.2.2.1, h.1.2.2.2.2.2⟩
    · exact ih h.2 c hc

theorem goodStmt_join (ts : List Str)
    (hok : ∀ t ∈ ts, t ≠ [] ∧ goodTokB t = true)
    (hhead : ∃ t0 rest0, ts = t0 :: rest0 ∧ t0.head? = some '#') :
    GoodStmt (joinSpace ts ++ [';']) := by
  refine ⟨joinSpace ts, rfl, ?_, noCut_joinSpace ts (fun t ht => (hok t ht).2), ?_⟩
  · obtain ⟨t0, rest0, rfl, hh⟩ := hhead
    cases rest0 with
    | nil =>
      rw [joinSpace_single]
      exact hh
    | cons t2 rest2 =>
      rw [joinSpace_cons _ _ (by simp)]
      cases t0 with
      | nil => simp at hh
      | cons c0 t0r =>
        simpa using hh
  · intro c hc
    rw [List.mem_append] at hc
    rcases hc with hc | hc
    · rcases mem_joinSpace c ts hc with rfl | ⟨t, ht, hct⟩
      · exact ⟨by decide, by decide⟩
      · exact goodTok_no_nlcr t (hok t ht).2 c hct
    · simp at hc
      subst hc
      exact ⟨by decide, by decide⟩

theorem goodStmt_join_sp (ts : List Str)
    (hok : ∀ t ∈ ts, t ≠ [] ∧ goodTokB t = true)
    (hhead : ∃ t0 rest0, ts = t0 :: rest0 ∧ t0.head? = some '#') :
    GoodStmt (joinSpace ts ++ [' ', ';']) := by
  refine ⟨joinSpace ts ++ [' '], by simp, ?_, ?_, ?_⟩
  · obtain ⟨t0, rest0, rfl, hh⟩ := hhead
    cases rest0 with
    | nil =>
      rw [joinSpace_single]
      cases t0 with
      | nil => simp at hh
      | cons c0 t0r => simpa using hh
    | cons t2 rest2 =>
      rw [joinSpace_cons _ _ (by simp)]
      cases t0 with
      | nil => simp at hh
      | cons c0 t0r => simpa using hh
  · refine noCut_append _ (noCut_joinSpace ts (fun t ht => (hok t ht).2)) [' '] rfl
  · intro c hc
    rw [List.mem_append] at hc
    rcases hc with hc | hc
    · rcases mem_joinSpace c ts hc with rfl | ⟨t, ht, hct⟩
      · exact ⟨by decide, by decide⟩
      · exact goodTok_no_nlcr t (hok t ht).2 c hct
    · simp at hc
      rcases hc with rfl | rfl
      · exact ⟨by decide, by decide⟩
      · exact ⟨by decide, by decide⟩


theorem goodStmt_canvasLine (c : CanvasProperties) (h : wfCanvasB c = true) :
    GoodStmt (canvasLine c) := by
  obtain ⟨x, y, w, hh, fs, name, op⟩ := c
  unfold wfCanvasB at h
  cases name with
  | none =>
    rw [show canvasLine ⟨x, y, w, hh, fs, none, op⟩ =
      joinSpace [chars "#N", chars "canvas", intRepr x, intRepr y, intRepr w,
        intRepr hh, intRepr fs] ++ [';'] from by
      unfold canvasLine canvasStr
      rw [joinSpace_cons _ _ (by simp), joinSpace_cons _ _ (by simp)]
      rfl]
    refine goodStmt_join _ ?_ ⟨chars "#N", _, rfl, rfl⟩
    intro t ht
    simp at ht
    rcases ht with rfl | rfl | rfl | rfl | rfl | rfl | rfl
    · exact ⟨by decide, by decide⟩
    · exact ⟨by decide, by decide⟩
    · exact okTok_intRepr x
    · exact okTok_intRepr y
    · exact okTok_intRepr w
    · exact okTok_intRepr hh
    · exact okTok_intRepr fs
  | some n =>
    simp only [Bool.and_eq_true, decide_eq_true_eq] at h
    have hn := okTok_spec n h.1
    rw [show canvasLine ⟨x, y, w, hh, fs, some n, op⟩ =
      joinSpace [chars "#N", chars "canvas", intRepr x, intRepr y, intRepr w,
        intRepr hh, n, intRepr op] ++ [';'] from by
      unfold canvasLine canvasStr
      rw [show (match some n with
        | some nn =>
          if nn = [] then
            joinSpace [intRepr x, intRepr y, intRepr w, intRepr hh, intRepr fs]
          else
            joinSpace [intRepr x, intRepr y, intRepr w, intRepr hh, nn, intRepr op]
        | none =>
          joinSpace [intRepr x, intRepr y, intRepr w, intRepr hh, intRepr fs]) =
        joinSpace [intRepr x, intRepr y, intRepr w, intRepr hh, n, intRepr op] from by
        simp [hn.1]]
      rw [joinSpace_cons _ _ (by simp), joinSpace_cons _ _ (by simp)]
      rfl]
    refine goodStmt_join _ ?_ ⟨chars "#N", _, rfl, rfl⟩
    intro t ht
    simp at ht
    rcases ht with rfl | rfl | rfl | rfl | rfl | rfl | rfl | rfl
    · exact ⟨by decide, by decide⟩
    · exact ⟨by decide, by decide⟩
    · exact okTok_intRepr x
    · exact okTok_intRepr y
    · exact okTok_intRepr w
    · exact okTok_intRepr hh
    · exact hn
    · exact okTok_intRepr op

theorem goodStmt_restoreStr (rpos : Position) (rname : Str)
    (hok : okContent rname = true) (hne : rname ≠ []) :
    GoodStmt (restoreStr ⟨rpos, rname⟩) := by
  unfold okContent at hok
  simp only [Bool.or_eq_true, Bool.and_eq_true, decide_eq_true_eq] at hok
  rcases hok with hok | ⟨hok, hjoin⟩
  · exact absurd (by simpa using hok) hne
  have hts : tokenize rname ≠ [] := by
    intro hnil
    rw [hnil] at hjoin
    exact hne hjoin.symm
  rw [show restoreStr ⟨rpos, rname⟩ =
      joinSpace ([chars "#X", chars "restore", intRepr rpos.x, intRepr rpos.y,
        chars "pd"] ++ tokenize rname) ++ [';'] from by
    rw [← joinSpace_join [chars "#X", chars "restore", intRepr rpos.x, intRepr rpos.y,
      chars "pd"] (tokenize rname) hts]
    rw [hjoin]
    rw [show ([chars "#X", chars "restore", intRepr rpos.x, intRepr rpos.y,
      chars "pd"] ++ [rname] : List Str) = [chars "#X", chars "restore"] ++
      intRepr rpos.x :: intRepr rpos.y :: [chars "pd", rname] from rfl]
    rw [← joinSpace_split_piece]
    rfl]
  refine goodStmt_join _ ?_ ⟨chars "#X", _, rfl, rfl⟩
  intro t ht
  rw [List.mem_append] at ht
  rcases ht with ht | ht
  · simp at ht
    rcases ht with rfl | rfl | rfl | rfl | rfl
    · exact ⟨by decide, by decide⟩
    · exact ⟨by decide, by decide⟩
    · exact okTok_intRepr rpos.x
    · exact okTok_intRepr rpos.y
    · exact ⟨by decide, by decide⟩
  · exact okTok_spec t (List.all_eq_true.mp hok t ht)

mutual

theorem stmts_good_elem : ∀ (e : PdElement), wfElemB e = true →
    ∀ s ∈ stmtsOfElem e, GoodStmt s
  | .obj pos cls args, h, st, hst => by
    rw [show wfElemB (.obj pos cls args) =
      (okTok cls && okToks args && !guiCapture cls args.length) from rfl] at h
    simp only [Bool.and_eq_true, Bool.not_eq_true'] at h
    rw [show stmtsOfElem (.obj pos cls args) = [elemStr (.obj pos cls args)] from rfl] at hst
    simp at hst
    subst hst
    by_cases hargs : args = []
    · subst hargs
      rw [show elemStr (.obj pos cls []) =
        joinSpace ([chars "#X", chars "obj"] ++
          (intRepr pos.x ++ ' ' :: intRepr pos.y) :: [objText cls []]) ++ [';'] from rfl]
      rw [joinSpace_split_piece]
      rw [show objText cls [] = cls from by rw [objText]; simp]
      refine goodStmt_join _ ?_ ⟨chars "#X", _, rfl, rfl⟩
      intro t ht
      simp at ht
      rcases ht with rfl | rfl | rfl | rfl | rfl
      · exact ⟨by decide, by decide⟩
      · exact ⟨by decide, by decide⟩
      · exact okTok_intRepr pos.x
      · exact okTok_intRepr pos.y
      · exact okTok_spec _ h.1.1
    · rw [show elemStr (.obj pos cls args) =
        joinSpace [chars "#X", chars "obj", posStr pos, objText cls args] ++ [';']
        from rfl]
      rw [show objText cls args = joinSpace (cls :: args) from by
        rw [objText, if_pos hargs, joinSpace_cons cls args hargs]]
      rw [show ([chars "#X", chars "obj", posStr pos, joinSpace (cls :: args)] :
        List Str) = [chars "#X", chars "obj", posStr pos] ++ [joinSpace (cls :: args)]
        from rfl]
      rw [joinSpace_join _ _ (by simp)]
      rw [show ([chars "#X", chars "obj", posStr pos] ++ cls :: args : List Str) =
        [chars "#X", chars "obj"] ++ (intRepr pos.x ++ ' ' :: intRepr pos.y) ::
        (cls :: args) from rfl]
      rw [joinSpace_split_piece]
      refine goodStmt_join _ ?_ ⟨chars "#X", _, rfl, rfl⟩
      intro t ht
      simp at ht
      rcases ht with rfl | rfl | rfl | rfl | rfl | ht
      · exact ⟨by decide, by decide⟩
      · exact ⟨by decide, by decide⟩
      · exact okTok_intRepr pos.x
      · exact okTok_intRepr pos.y
      · exact okTok_spec _ h.1.1
      · exact okTok_spec t (List.all_eq_true.mp h.1.2 t ht)
  | .msg pos content, h, st, hst => by
    rw [show wfElemB (.msg pos content) = okContent content from rfl] at h
    rw [show stmtsOfElem (.msg pos content) = [elemStr (.msg pos content)] from rfl] at hst
    simp at hst
    subst hst
    by_cases hce : content = []
    · subst hce
      rw [show elemStr (.msg pos []) =
        joinSpace [chars "#X", chars "msg", intRepr pos.x, intRepr pos.y] ++
          [' ', ';'] from by
        simp [elemStr, joinSpace, List.intercalate, List.intersperse, posStr,
          List.append_assoc]]
      refine goodStmt_join_sp _ ?_ ⟨chars "#X", _, rfl, rfl⟩
      intro t ht
      simp at ht
      rcases ht with rfl | rfl | rfl | rfl
      · exact ⟨by decide, by decide⟩
      · exact ⟨by decide, by decide⟩
      · exact okTok_intRepr pos.x
      · exact okTok_intRepr pos.y
    · unfold okContent at h
      simp only [Bool.or_eq_true, Bool.and_eq_true, decide_eq_true_eq] at h
      rcases h with h | ⟨hok, hjoin⟩
      · exact absurd (by simpa using h) hce
      have hts : tokenize content ≠ [] := by
        intro hnil
        rw [hnil] at hjoin
        exact hce hjoin.symm
      rw [show elemStr (.msg pos content) =
        joinSpace ([chars "#X", chars "msg", intRepr pos.x, intRepr pos.y] ++
          tokenize content) ++ [';'] from by
        rw [← joinSpace_join [chars "#X", chars "msg", intRepr pos.x, intRepr pos.y]
          (tokenize content) hts]
        rw [hjoin]
        rw [show ([chars "#X", chars "msg", intRepr pos.x, intRepr pos.y] ++
          [content] : List Str) = [chars "#X", chars "msg"] ++ intRepr pos.x ::
          intRepr pos.y :: [content] from rfl]
        rw [← joinSpace_split_piece]
        rfl]
      refine goodStmt_join _ ?_ ⟨chars "#X", _, rfl, rfl⟩
      intro t ht
      rw [List.mem_append] at ht
      rcases ht with ht | ht
      · simp at ht
        rcases ht with rfl | rfl | rfl | rfl
        · exact ⟨by decide, by decide⟩
        · exact ⟨by decide, by decide⟩
        · exact okTok_intRepr pos.x
        · exact okTok_intRepr pos.y
      · exact okTok_spec t (List.all_eq_true.mp hok t ht)
  | .floatatom pos width lo hi lp label receive send, h, st, hst => by
    rw [show wfElemB (.floatatom pos width lo hi lp label receive send) =
      (canonFB lo && canonFB hi && okTok label && okTok receive && okTok send)
      from rfl] at h
    simp only [Bool.and_eq_true] at h
    rw [show stmtsOfElem (.floatatom pos width lo hi lp label receive send) =
      [elemStr (.floatatom pos width lo hi lp label receive send)] from rfl] at hst
    simp at hst
    subst hst
    rw [show elemStr (.floatatom pos width lo hi lp label receive send) =
      joinSpace ([chars "#X", chars "floatatom"] ++
        (intRepr pos.x ++ ' ' :: intRepr pos.y) ::
        [intRepr width, floatRepr lo, floatRepr hi, intRepr lp, label, receive,
          send]) ++ [';'] from rfl]
    rw [joinSpace_split_piece]
    refine goodStmt_join _ ?_ ⟨chars "#X", _, rfl, rfl⟩
    intro t ht
    simp at ht
    rcases ht with rfl | rfl | rfl | rfl | rfl | rfl | rfl | rfl | rfl | rfl | rfl
    · exact ⟨by decide, by decide⟩
    · exact ⟨by decide, by decide⟩
    · exact okTok_intRepr pos.x
    · exact okTok_intRepr pos.y
    · exact okTok_intRepr width
    · exact okTok_floatRepr lo
    · exact okTok_floatRepr hi
    · exact okTok_intRepr lp
    · exact okTok_spec _ h.1.1.2
    · exact okTok_spec _ h.1.2
    · exact okTok_spec _ h.2
  | .symbolatom pos width lo hi lp label receive send, h, st, hst => by
    rw [show wfElemB (.symbolatom pos width lo hi lp label receive send) =
      (canonFB lo && canonFB hi && okTok label && okTok receive && okTok send)
      from rfl] at h
    simp only [Bool.and_eq_true] at h
    rw [show stmtsOfElem (.symbolatom pos width lo hi lp label receive send) =
      [elemStr (.symbolatom pos width lo hi lp label receive send)] from rfl] at hst
    simp at hst
    subst hst
    rw [show elemStr (.symbolatom pos width lo hi lp label receive send) =
      joinSpace ([chars "#X", chars "symbolatom"] ++
        (intRepr pos.x ++ ' ' :: intRepr pos.y) ::
        [intRepr width, floatRepr lo, floatRepr hi, intRepr lp, label, receive,
          send]) ++ [';'] from rfl]
    rw [joinSpace_split_piece]
    refine goodStmt_join _ ?_ ⟨chars "#X", _, rfl, rfl⟩
    intro t ht
    simp at ht
    rcases ht with rfl | rfl | rfl | rfl | rfl | rfl | rfl | rfl | rfl | rfl | rfl
    · exact ⟨by decide, by decide⟩
    · exact ⟨by decide, by decide⟩
    · exact okTok_intRepr pos.x
    · exact okTok_intRepr pos.y
    · exact okTok_intRepr width
    · exact okTok_floatRepr lo
    · exact okTok_floatRepr hi
    · exact okTok_intRepr lp
    · exact okTok_spec _ h.1.1.2
    · exact okTok_spec _ h.1.2
    · exact okTok_spec _ h.2
  | .text pos content, h, st, hst => by
    rw [show wfElemB (.text pos content) = okContent content from rfl] at h
    rw [show stmtsOfElem (.text pos content) = [elemStr (.text pos content)] from rfl] at hst
    simp at hst
    subst hst
    by_cases hce : content = []
    · subst hce
      rw [show elemStr (.text pos []) =
        joinSpace [chars "#X", chars "text", intRepr pos.x, intRepr pos.y] ++
          [' ', ';'] from by
        simp [elemStr, joinSpace, List.intercalate, List.intersperse, posStr,
          List.append_assoc]]
      refine goodStmt_join_sp _ ?_ ⟨chars "#X", _, rfl, rfl⟩
      intro t ht
      simp at ht
      rcases ht with rfl | rfl | rfl | rfl
      · exact ⟨by decide, by decide⟩
      · exact ⟨by decide, by decide⟩
      · exact okTok_intRepr pos.x
      · exact okTok_intRepr pos.y
    · unfold okContent at h
      simp only [Bool.or_eq_true, Bool.and_eq_true, decide_eq_true_eq] at h
      rcases h with h | ⟨hok, hjoin⟩
      · exact absurd (by simpa using h) hce
      have hts : tokenize content ≠ [] := by
        intro hnil
        rw [hnil] at hjoin
        exact hce hjoin.symm
      rw [show elemStr (.text pos content) =
        joinSpace ([chars "#X", chars "text", intRepr pos.x, intRepr pos.y] ++
          tokenize content) ++ [';'] from by
        rw [← joinSpace_join [chars "#X", chars "text", intRepr pos.x, intRepr pos.y]
          (tokenize content) hts]
        rw [hjoin]
        rw [show ([chars "#X", chars "text", intRepr pos.x, intRepr pos.y] ++
          [content] : List Str) = [chars "#X", chars "text"] ++ intRepr pos.x ::
          intRepr pos.y :: [content] from rfl]
        rw [← joinSpace_split_piece]
        rfl]
      refine goodStmt_join _ ?_ ⟨chars "#X", _, rfl, rfl⟩
      intro t ht
      rw [List.mem_append] at ht
      rcases ht with ht | ht
      · simp at ht
        rcases ht with rfl | rfl | rfl | rfl
        · exact ⟨by decide, by decide⟩
        · exact ⟨by decide, by decide⟩
        · exact okTok_intRepr pos.x
        · exact okTok_intRepr pos.y
      · exact okTok_spec t (List.all_eq_true.mp hok t ht)
  | .array name size dtype save_flag, h, st, hst => by
    rw [show wfElemB (.array name size dtype save_flag) =
      (okTok name && okTok dtype) from rfl] at h
    simp only [Bool.and_eq_true] at h
    rw [show stmtsOfElem (.array name size dtype save_flag) =
      [elemStr (.array name size dtype save_flag)] from rfl] at hst
    simp at hst
    subst hst
    rw [show elemStr (.array name size dtype save_flag) =
      joinSpace [chars "#X", chars "array", name, intRepr size, dtype,
        intRepr save_flag] ++ [';'] from rfl]
    refine goodStmt_join _ ?_ ⟨chars "#X", _, rfl, rfl⟩
    intro t ht
    simp at ht
    rcases ht with rfl | rfl | rfl | rfl | rfl | rfl
    · exact ⟨by decide, by decide⟩
    · exact ⟨by decide, by decide⟩
    · exact okTok_spec _ h.1
    · exact okTok_intRepr size
    · exact okTok_spec _ h.2
    · exact okTok_intRepr save_flag
  | .connect sid oid kid iid, _h, st, hst => by
    rw [show stmtsOfElem (.connect sid oid kid iid) =
      [elemStr (.connect sid oid kid iid)] from rfl] at hst
    simp at hst
    subst hst
    rw [show elemStr (.connect sid oid kid iid) =
      joinSpace [chars "#X", chars "connect", intRepr sid, intRepr oid, intRepr kid,
        intRepr iid] ++ [';'] from rfl]
    refine goodStmt_join _ ?_ ⟨chars "#X", _, rfl, rfl⟩
    intro t ht
    simp at ht
    rcases ht with rfl | rfl | rfl | rfl | rfl | rfl
    · exact ⟨by decide, by decide⟩
    · exact ⟨by decide, by decide⟩
    · exact okTok_intRepr sid
    · exact okTok_intRepr oid
    · exact okTok_intRepr kid
    · exact okTok_intRepr iid
  | .coords xf yf xt yt w ht2 gop hide xm ym, h, st, hst => by
    rw [show wfElemB (.coords xf yf xt yt w ht2 gop hide xm ym) =
      (canonFB xf && canonFB yf && canonFB xt && canonFB yt) from rfl] at h
    rw [show stmtsOfElem (.coords xf yf xt yt w ht2 gop hide xm ym) =
      [elemStr (.coords xf yf xt yt w ht2 gop hide xm ym)] from rfl] at hst
    simp at hst
    subst hst
    rw [show elemStr (.coords xf yf xt yt w ht2 gop hide xm ym) =
      joinSpace [chars "#X", chars "coords", floatRepr xf, floatRepr yf, floatRepr xt,
        floatRepr yt, intRepr w, intRepr ht2, intRepr gop, intRepr hide,
        intRepr xm, intRepr ym] ++ [';'] from rfl]
    refine goodStmt_join _ ?_ ⟨chars "#X", _, rfl, rfl⟩
    intro t ht
    simp at ht
    rcases ht with rfl | rfl | rfl | rfl | rfl | rfl | rfl | rfl | rfl | rfl | rfl | rfl
    · exact ⟨by decide, by decide⟩
    · exact ⟨by decide, by decide⟩
    · exact okTok_floatRepr xf
    · exact okTok_floatRepr yf
    · exact okTok_floatRepr xt
    · exact okTok_floatRepr yt
    · exact okTok_intRepr w
    · exact okTok_intRepr ht2
    · exact okTok_intRepr gop
    · exact okTok_intRepr hide
    · exact okTok_intRepr xm
    · exact okTok_intRepr ym
  | .bng pos size hold interrupt init2 send receive label lx ly font fs bg fg lc, h, st, hst => by
    rw [show wfElemB (.bng pos size hold interrupt init2 send receive label lx ly font fs bg fg lc) = (okTok send && okTok receive && okTok label) from rfl] at h
    simp only [Bool.and_eq_true] at h
    rw [show stmtsOfElem (.bng pos size hold interrupt init2 send receive label lx ly font fs bg fg lc) = [elemStr (.bng pos size hold interrupt init2 send receive label lx ly font fs bg fg lc)] from rfl] at hst
    simp at hst
    subst hst
    rw [show elemStr (.bng pos size hold interrupt init2 send receive label lx ly font fs bg fg lc) =
      joinSpace ([chars "#X", chars "obj"] ++
        (intRepr pos.x ++ ' ' :: intRepr pos.y) ::
        [chars "bng",
        intRepr size,
        intRepr hold,
        intRepr interrupt,
        intRepr init2,
        send,
        receive,
        label,
        intRepr lx,
        intRepr ly,
        intRepr font,
        intRepr fs,
        intRepr bg,
        intRepr fg,
        intRepr lc]) ++ [';'] from rfl]
    rw [joinSpace_split_piece]
    refine goodStmt_join _ ?_ ⟨chars "#X", _, rfl, rfl⟩
    intro t ht
    simp at ht
    rcases ht with rfl | rfl | rfl | rfl | rfl | rfl | rfl | rfl | rfl | rfl | rfl | rfl | rfl | rfl | rfl | rfl | rfl | rfl | rfl
    · exact ⟨by decide, by decide⟩
    · exact ⟨by decide, by decide⟩
    · exact okTok_intRepr pos.x
    · exact okTok_intRepr pos.y
    · exact ⟨by decide, by decide⟩
    · exact okTok_intRepr size
    · exact okTok_intRepr hold
    · exact okTok_intRepr interrupt
    · exact okTok_intRepr init2
    · exact okTok_spec _ h.1.1
    · exact okTok_spec _ h.1.2
    · exact okTok_spec _ h.2
    · exact okTok_intRepr lx
    · exact okTok_intRepr ly
    · exact okTok_intRepr font
    · exact okTok_intRepr fs
    · exact okTok_intRepr bg
    · exact okTok_intRepr fg
    · exact okTok_intRepr lc
  | .nbx pos w hh mn mx lf init2 send receive label lx ly font fs bg fg lc iv lh, h, st, hst => by
    rw [show wfElemB (.nbx pos w hh mn mx lf init2 send receive label lx ly font fs bg fg lc iv lh) = (canonFB mn && canonFB mx && canonFB iv && okTok send && okTok receive && okTok label) from rfl] at h
    simp only [Bool.and_eq_true] at h
    rw [show stmtsOfElem (.nbx pos w hh mn mx lf init2 send receive label lx ly font fs bg fg lc iv lh) = [elemStr (.nbx pos w hh mn mx lf init2 send receive label lx ly font fs bg fg lc iv lh)] from rfl] at hst
    simp at hst
    subst hst
    rw [show elemStr (.nbx pos w hh mn mx lf init2 send receive label lx ly font fs bg fg lc iv lh) =
      joinSpace ([chars "#X", chars "obj"] ++
        (intRepr pos.x ++ ' ' :: intRepr pos.y) ::
        [chars "nbx",
        intRepr w,
        intRepr hh,
        floatRepr mn,
        floatRepr mx,
        intRepr lf,
        intRepr init2,
        send,
        receive,
        label,
        intRepr lx,
        intRepr ly,
        intRepr font,
        intRepr fs,
        intRepr bg,
        intRepr fg,
        intRepr lc,
        floatRepr iv,
        intRepr lh]) ++ [';'] from rfl]
    rw [joinSpace_split_piece]
    refine goodStmt_join _ ?_ ⟨chars "#X", _, rfl, rfl⟩
    intro t ht
    simp at ht
    rcases ht with rfl | rfl | rfl | rfl | rfl | rfl | rfl | rfl | rfl | rfl | rfl | rfl | rfl | rfl | rfl | rfl | rfl | rfl | rfl | rfl | rfl | rfl | rfl
    · exact ⟨by decide, by decide⟩
    · exact ⟨by decide, by decide⟩
    · exact okTok_intRepr pos.x
    · exact okTok_intRepr pos.y
    · exact ⟨by decide, by decide⟩
    · exact okTok_intRepr w
    · exact okTok_intRepr hh
    · exact okTok_floatRepr mn
    · exact okTok_floatRepr mx
    · exact okTok_intRepr lf
    · exact okTok_intRepr init2
    · exact okTok_spec _ h.1.1.2
    · exact okTok_spec _ h.1.2
    · exact okTok_spec _ h.2
    · exact okTok_intRepr lx
    · exact okTok_intRepr ly
    · exact okTok_intRepr font
    · exact okTok_intRepr fs
    · exact okTok_intRepr bg
    · exact okTok_intRepr fg
    · exact okTok_intRepr lc
    · exact okTok_floatRepr iv
    · exact okTok_intRepr lh
  | .vsl pos w hh mn mx lf init2 send receive label lx ly font fs bg fg lc iv steady, h, st, hst => by
    rw [show wfElemB (.vsl pos w hh mn mx lf init2 send receive label lx ly font fs bg fg lc iv steady) = (canonFB mn && canonFB mx && canonFB iv && okTok send && okTok receive && okTok label) from rfl] at h
    simp only [Bool.and_eq_true] at h
    rw [show stmtsOfElem (.vsl pos w hh mn mx lf init2 send receive label lx ly font fs bg fg lc iv steady) = [elemStr (.vsl pos w hh mn mx lf init2 send receive label lx ly font fs bg fg lc iv steady)] from rfl] at hst
    simp at hst
    subst hst
    rw [show elemStr (.vsl pos w hh mn mx lf init2 send receive label lx ly font fs bg fg lc iv steady) =
      joinSpace ([chars "#X", chars "obj"] ++
        (intRepr pos.x ++ ' ' :: intRepr pos.y) ::
        [chars "vsl",
        intRepr w,
        intRepr hh,
        floatRepr mn,
        floatRepr mx,
        intRepr lf,
        intRepr init2,
        send,
        receive,
        label,
        intRepr lx,
        intRepr ly,
        intRepr font,
        intRepr fs,
        intRepr bg,
        intRepr fg,
        intRepr lc,
        floatRepr iv,
        intRepr steady]) ++ [';'] from rfl]
    rw [joinSpace_split_piece]
    refine goodStmt_join _ ?_ ⟨chars "#X", _, rfl, rfl⟩
    intro t ht
    simp at ht
    rcases ht with rfl | rfl | rfl | rfl | rfl | rfl | rfl | rfl | rfl | rfl | rfl | rfl | rfl | rfl | rfl | rfl | rfl | rfl | rfl | rfl | rfl | rfl | rfl
    · exact ⟨by decide, by decide⟩
    · exact ⟨by decide, by decide⟩
    · exact okTok_intRepr pos.x
    · exact okTok_intRepr pos.y
    · exact ⟨by decide, by decide⟩
    · exact okTok_intRepr w
    · exact okTok_intRepr hh
    · exact okTok_floatRepr mn
    · exact okTok_floatRepr mx
    · exact okTok_intRepr lf
    · exact okTok_intRepr init2
    · exact okTok_spec _ h.1.1.2
    · exact okTok_spec _ h.1.2
    · exact okTok_spec _ h.2
    · exact okTok_intRepr lx
    · exact okTok_intRepr ly
    · exact okTok_intRepr font
    · exact okTok_intRepr fs
    · exact okTok_intRepr bg
    · exact okTok_intRepr fg
    · exact okTok_intRepr lc
    · exact okTok_floatRepr iv
    · exact okTok_intRepr steady
  | .hsl pos w hh mn mx lf init2 send receive label lx ly font fs bg fg lc iv steady, h, st, hst => by
    rw [show wfElemB (.hsl pos w hh mn mx lf init2 send receive label lx ly font fs bg fg lc iv steady) = (canonFB mn && canonFB mx && canonFB iv && okTok send && okTok receive && okTok label) from rfl] at h
    simp only [Bool.and_eq_true] at h
    rw [show stmtsOfElem (.hsl pos w hh mn mx lf init2 send receive label lx ly font fs bg fg lc iv steady) = [elemStr (.hsl pos w hh mn mx lf init2 send receive label lx ly font fs bg fg lc iv steady)] from rfl] at hst
    simp at hst
    subst hst
    rw [show elemStr (.hsl pos w hh mn mx lf init2 send receive label lx ly font fs bg fg lc iv steady) =
      joinSpace ([chars "#X", chars "obj"] ++
        (intRepr pos.x ++ ' ' :: intRepr pos.y) ::
        [chars "hsl",
        intRepr w,
        intRepr hh,
        floatRepr mn,
        floatRepr mx,
        intRepr lf,
        intRepr init2,
        send,
        receive,
        label,
        intRepr lx,
        intRepr ly,
        intRepr font,
        intRepr fs,
        intRepr bg,
        intRepr fg,
        intRepr lc,
        floatRepr iv,
        intRepr steady]) ++ [';'] from rfl]
    rw [joinSpace_split_piece]
    refine goodStmt_join _ ?_ ⟨chars "#X", _, rfl, rfl⟩
    intro t ht
    simp at ht
    rcases ht with rfl | rfl | rfl | rfl | rfl | rfl | rfl | rfl | rfl | rfl | rfl | rfl | rfl | rfl | rfl | rfl | rfl | rfl | rfl | rfl | rfl | rfl | rfl
    · exact ⟨by decide, by decide⟩
    · exact ⟨by decide, by decide⟩
    · exact okTok_intRepr pos.x
    · exact okTok_intRepr pos.y
    · exact ⟨by decide, by decide⟩
    · exact okTok_intRepr w
    · exact okTok_intRepr hh
    · exact okTok_floatRepr mn
    · exact okTok_floatRepr mx
    · exact okTok_intRepr lf
    · exact okTok_intRepr init2
    · exact okTok_spec _ h.1.1.2
    · exact okTok_spec _ h.1.2
    · exact okTok_spec _ h.2
    · exact okTok_intRepr lx
    · exact okTok_intRepr ly
    · exact okTok_intRepr font
    · exact okTok_intRepr fs
    · exact okTok_intRepr bg
    · exact okTok_intRepr fg
    · exact okTok_intRepr lc
    · exact okTok_floatRepr iv
    · exact okTok_intRepr steady
  | .vradio pos size new_old init2 number send receive label lx ly font fs bg fg lc iv, h, st, hst => by
    rw [show wfElemB (.vradio pos size new_old init2 number send receive label lx ly font fs bg fg lc iv) = (okTok send && okTok receive && okTok label) from rfl] at h
    simp only [Bool.and_eq_true] at h
    rw [show stmtsOfElem (.vradio pos size new_old init2 number send receive label lx ly font fs bg fg lc iv) = [elemStr (.vradio pos size new_old init2 number send receive label lx ly font fs bg fg lc iv)] from rfl] at hst
    simp at hst
    subst hst
    rw [show elemStr (.vradio pos size new_old init2 number send receive label lx ly font fs bg fg lc iv) =
      joinSpace ([chars "#X", chars "obj"] ++
        (intRepr pos.x ++ ' ' :: intRepr pos.y) ::
        [chars "vradio",
        intRepr size,
        intRepr new_old,
        intRepr init2,
        intRepr number,
        send,
        receive,
        label,
        intRepr lx,
        intRepr ly,
        intRepr font,
        intRepr fs,
        intRepr bg,
        intRepr fg,
        intRepr lc,
        intRepr iv]) ++ [';'] from rfl]
    rw [joinSpace_split_piece]
    refine goodStmt_join _ ?_ ⟨chars "#X", _, rfl, rfl⟩
    intro t ht
    simp at ht
    rcases ht with rfl | rfl | rfl | rfl | rfl | rfl | rfl | rfl | rfl | rfl | rfl | rfl | rfl | rfl | rfl | rfl | rfl | rfl | rfl | rfl
    · exact ⟨by decide, by decide⟩
    · exact ⟨by decide, by decide⟩
    · exact okTok_intRepr pos.x
    · exact okTok_intRepr pos.y
    · exact ⟨by decide, by decide⟩
    · exact okTok_intRepr size
    · exact okTok_intRepr new_old
    · exact okTok_intRepr init2
    · exact okTok_intRepr number
    · exact okTok_spec _ h.1.1
    · exact okTok_spec _ h.1.2
    · exact okTok_spec _ h.2
    · exact okTok_intRepr lx
    · exact okTok_intRepr ly
    · exact okTok_intRepr font
    · exact okTok_intRepr fs
    · exact okTok_intRepr bg
    · exact okTok_intRepr fg
    · exact okTok_intRepr lc
    · exact okTok_intRepr iv
  | .hradio pos size new_old init2 number send receive label lx ly font fs bg fg lc iv, h, st, hst => by
    rw [show wfElemB (.hradio pos size new_old init2 number send receive label lx ly font fs bg fg lc iv) = (okTok send && okTok receive && okTok label) from rfl] at h
    simp only [Bool.and_eq_true] at h
    rw [show stmtsOfElem (.hradio pos size new_old init2 number send receive label lx ly font fs bg fg lc iv) = [elemStr (.hradio pos size new_old init2 number send receive label lx ly font fs bg fg lc iv)] from rfl] at hst
    simp at hst
    subst hst
    rw [show elemStr (.hradio pos size new_old init2 number send receive label lx ly font fs bg fg lc iv) =
      joinSpace ([chars "#X", chars "obj"] ++
        (intRepr pos.x ++ ' ' :: intRepr pos.y) ::
        [chars "hradio",
        intRepr size,
        intRepr new_old,
        intRepr init2,
        intRepr number,
        send,
        receive,
        label,
        intRepr lx,
        intRepr ly,
        intRepr font,
        intRepr fs,
        intRepr bg,
        intRepr fg,
        intRepr lc,
        intRepr iv]) ++ [';'] from rfl]
    rw [joinSpace_split_piece]
    refine goodStmt_join _ ?_ ⟨chars "#X", _, rfl, rfl⟩
    intro t ht
    simp at ht
    rcases ht with rfl | rfl | rfl | rfl | rfl | rfl | rfl | rfl | rfl | rfl | rfl | rfl | rfl | rfl | rfl | rfl | rfl | rfl | rfl | rfl
    · exact ⟨by decide, by decide⟩
    · exact ⟨by decide, by decide⟩
    · exact okTok_intRepr pos.x
    · exact okTok_intRepr pos.y
    · exact ⟨by decide, by decide⟩
    · exact okTok_intRepr size
    · exact okTok_intRepr new_old
    · exact okTok_intRepr init2
    · exact okTok_intRepr number
    · exact okTok_spec _ h.1.1
    · exact okTok_spec _ h.1.2
    · exact okTok_spec _ h.2
    · exact okTok_intRepr lx
    · exact okTok_intRepr ly
    · exact okTok_intRepr font
    · exact okTok_intRepr fs
    · exact okTok_intRepr bg
    · exact okTok_intRepr fg
    · exact okTok_intRepr lc
    · exact okTok_intRepr iv
  | .cnv pos size w hh send receive label lx ly font fs bg lc, h, st, hst => by
    rw [show wfElemB (.cnv pos size w hh send receive label lx ly font fs bg lc) = (okTok send && okTok receive && okTok label) from rfl] at h
    simp only [Bool.and_eq_true] at h
    rw [show stmtsOfElem (.cnv pos size w hh send receive label lx ly font fs bg lc) = [elemStr (.cnv pos size w hh send receive label lx ly font fs bg lc)] from rfl] at hst
    simp at hst
    subst hst
    rw [show elemStr (.cnv pos size w hh send receive label lx ly font fs bg lc) =
      joinSpace ([chars "#X", chars "obj"] ++
        (intRepr pos.x ++ ' ' :: intRepr pos.y) ::
        [chars "cnv",
        intRepr size,
        intRepr w,
        intRepr hh,
        send,
        receive,
        label,
        intRepr lx,
        intRepr ly,
        intRepr font,
        intRepr fs,
        intRepr bg,
        intRepr lc,
        chars "0"]) ++ [';'] from rfl]
    rw [joinSpace_split_piece]
    refine goodStmt_join _ ?_ ⟨chars "#X", _, rfl, rfl⟩
    intro t ht
    simp at ht
    rcases ht with rfl | rfl | rfl | rfl | rfl | rfl | rfl | rfl | rfl | rfl | rfl | rfl | rfl | rfl | rfl | rfl | rfl | rfl
    · exact ⟨by decide, by decide⟩
    · exact ⟨by decide, by decide⟩
    · exact okTok_intRepr pos.x
    · exact okTok_intRepr pos.y
    · exact ⟨by decide, by decide⟩
    · exact okTok_intRepr size
    · exact okTok_intRepr w
    · exact okTok_intRepr hh
    · exact okTok_spec _ h.1.1
    · exact okTok_spec _ h.1.2
    · exact okTok_spec _ h.2
    · exact okTok_intRepr lx
    · exact okTok_intRepr ly
    · exact okTok_intRepr font
    · exact okTok_intRepr fs
    · exact okTok_intRepr bg
    · exact okTok_intRepr lc
    · exact ⟨by decide, by decide⟩
  | .vu pos w hh receive label lx ly font fs bg lc scale, h, st, hst => by
    rw [show wfElemB (.vu pos w hh receive label lx ly font fs bg lc scale) = (okTok receive && okTok label) from rfl] at h
    simp only [Bool.and_eq_true] at h
    rw [show stmtsOfElem (.vu pos w hh receive label lx ly font fs bg lc scale) = [elemStr (.vu pos w hh receive label lx ly font fs bg lc scale)] from rfl] at hst
    simp at hst
    subst hst
    rw [show elemStr (.vu pos w hh receive label lx ly font fs bg lc scale) =
      joinSpace ([chars "#X", chars "obj"] ++
        (intRepr pos.x ++ ' ' :: intRepr pos.y) ::
        [chars "vu",
        intRepr w,
        intRepr hh,
        receive,
        label,
        intRepr lx,
        intRepr ly,
        intRepr font,
        intRepr fs,
        intRepr bg,
        intRepr lc,
        intRepr scale,
        chars "0"]) ++ [';'] from rfl]
    rw [joinSpace_split_piece]
    refine goodStmt_join _ ?_ ⟨chars "#X", _, rfl, rfl⟩
    intro t ht
    simp at ht
    rcases ht with rfl | rfl | rfl | rfl | rfl | rfl | rfl | rfl | rfl | rfl | rfl | rfl | rfl | rfl | rfl | rfl | rfl
    · exact ⟨by decide, by decide⟩
    · exact ⟨by decide, by decide⟩
    · exact okTok_intRepr pos.x
    · exact okTok_intRepr pos.y
    · exact ⟨by decide, by decide⟩
    · exact okTok_intRepr w
    · exact okTok_intRepr hh
    · exact okTok_spec _ h.1
    · exact okTok_spec _ h.2
    · exact okTok_intRepr lx
    · exact okTok_intRepr ly
    · exact okTok_intRepr font
    · exact okTok_intRepr fs
    · exact okTok_intRepr bg
    · exact okTok_intRepr lc
    · exact okTok_intRepr scale
    · exact ⟨by decide, by decide⟩
  | .tgl p1 a1 a2 s1 s2 s3 b1 b2 b3 b4 b5 b6 b7 b8 b9, h, st, hst => by
    rw [show wfElemB (.tgl p1 a1 a2 s1 s2 s3 b1 b2 b3 b4 b5 b6 b7 b8 b9) = false
      from rfl] at h
    exact absurd h (by simp)
  | .subpatch c es r, h, st, hst => by
    cases r with
    | none =>
      rw [show wfElemB (.subpatch c es none) =
        (wfCanvasB c && false && wfListB es) from rfl] at h
      simp at h
    | some rr =>
      obtain ⟨rpos, rname⟩ := rr
      rw [show wfElemB (.subpatch c es (some ⟨rpos, rname⟩)) = (wfCanvasB c &&
        (! List.isEmpty rname && okContent rname) && wfListB es) from rfl] at h
      simp only [Bool.and_eq_true, Bool.not_eq_true'] at h
      obtain ⟨⟨hc, hr⟩, hes⟩ := h
      have hne : rname ≠ [] := by
        intro hnil
        rw [hnil] at hr
        simp at hr
      rw [show stmtsOfElem (.subpatch c es (some ⟨rpos, rname⟩)) =
        canvasLine c :: (stmtsOfList es ++ [restoreStr ⟨rpos, rname⟩]) from rfl] at hst
      rw [List.mem_cons] at hst
      rcases hst with rfl | hst
      · exact goodStmt_canvasLine c hc
      · rw [List.mem_append] at hst
        rcases hst with hst | hst
        · exact stmts_good_list es hes st hst
        · rw [List.mem_singleton] at hst
          subst hst
          exact goodStmt_restoreStr rpos rname hr.2 hne
termination_by structural e _h _s _m => e

theorem stmts_good_list : ∀ (es : List PdElement), wfListB es = true →
    ∀ s ∈ stmtsOfList es, GoodStmt s
  | [], _, st, hst => by
    rw [show stmtsOfList [] = [] from rfl] at hst
    simp at hst
  | e :: es, h, st, hst => by
    rw [show wfListB (e :: es) = (wfElemB e && wfListB es) from rfl] at h
    simp only [Bool.and_eq_true] at h
    rw [show stmtsOfList (e :: es) = stmtsOfElem e ++ stmtsOfList es from rfl,
      List.mem_append] at hst
    rcases hst with hst | hst
    · exact stmts_good_elem e h.1 st hst
    · exact stmts_good_list es h.2 st hst
termination_by structural es _h _s _m => es

end


theorem stmtsOfElem_ne_nil : ∀ (e : PdElement), stmtsOfElem e ≠ [] := by
  intro e
  cases e <;> intro h <;> exact List.noConfusion h

theorem stmtsOfList_eq_nil : ∀ (es : List PdElement), stmtsOfList es = [] ↔ es = []
  | [] => by
    rw [show stmtsOfList [] = [] from rfl]
    simp
  | e :: es => by
    rw [show stmtsOfList (e :: es) = stmtsOfElem e ++ stmtsOfList es from rfl]
    simp [List.append_eq_nil, stmtsOfElem_ne_nil e]

theorem elemStrList_eq_nil : ∀ (es : List PdElement), elemStrList es = [] ↔ es = []
  | [] => by
    rw [show elemStrList [] = [] from rfl]
    simp
  | e :: es => by
    rw [show elemStrList (e :: es) = elemStr e :: elemStrList es from rfl]
    simp

theorem intercalate_append_ne (s : Str) : ∀ (A : List Str), A ≠ [] →
    ∀ (B : List Str), B ≠ [] →
    List.intercalate s (A ++ B) = List.intercalate s A ++ s ++ List.intercalate s B := by
  intro A
  induction A with
  | nil => intro h; exact absurd rfl h
  | cons x A2 ih =>
    intro _ B hB
    by_cases hA2 : A2 = []
    · subst hA2
      rw [show ([x] ++ B : List Str) = x :: B from rfl, intercalate_cons_ne s x B hB]
      rw [show List.intercalate s [x] = x from by simp [List.intercalate]]
    · rw [show (x :: A2 ++ B : List Str) = x :: (A2 ++ B) from rfl,
        intercalate_cons_ne s x (A2 ++ B) (by simp [hA2]),
        intercalate_cons_ne s x A2 hA2, ih hA2 B hB]
      simp [List.append_assoc]

theorem intercalate_block (s : Str) (b : List Str) (hb : b ≠ []) (rest : List Str) :
    List.intercalate s (List.intercalate s b :: rest) = List.intercalate s (b ++ rest) := by
  cases rest with
  | nil =>
    rw [List.append_nil]
    simp [List.intercalate]
  | cons r rs =>
    rw [intercalate_cons_ne s _ (r :: rs) (by simp),
      intercalate_append_ne s b hb (r :: rs) (by simp)]

theorem intercalate_cons_congr (s x : Str) {A B : List Str}
    (h : List.intercalate s A = List.intercalate s B) (hiff : A = [] ↔ B = []) :
    List.intercalate s (x :: A) = List.intercalate s (x :: B) := by
  by_cases hA : A = []
  · rw [hA, hiff.mp hA]
  · rw [intercalate_cons_ne s x A hA,
      intercalate_cons_ne s x B (fun hB => hA (hiff.mpr hB)), h]

mutual

theorem elemStr_flat : ∀ (e : PdElement),
    List.intercalate ['\n'] (stmtsOfElem e) = elemStr e
  | .subpatch c es r => by
    cases r with
    | none =>
      rw [show stmtsOfElem (.subpatch c es none) =
        canvasLine c :: (stmtsOfList es ++ []) from rfl]
      rw [show elemStr (.subpatch c es none) =
        List.intercalate ['\n'] (canvasLine c :: (elemStrList es ++ [])) from rfl]
      exact intercalate_cons_congr _ _ (stmts_flat_list es []) (by
        simp [List.append_eq_nil, stmtsOfList_eq_nil, elemStrList_eq_nil])
    | some rr =>
      rw [show stmtsOfElem (.subpatch c es (some rr)) =
        canvasLine c :: (stmtsOfList es ++ [restoreStr rr]) from rfl]
      rw [show elemStr (.subpatch c es (some rr)) =
        List.intercalate ['\n'] (canvasLine c :: (elemStrList es ++ [restoreStr rr]))
        from rfl]
      exact intercalate_cons_congr _ _ (stmts_flat_list es [restoreStr rr]) (by
        simp [List.append_eq_nil])
  | .obj pos cls args => by
    rw [show stmtsOfElem (.obj pos cls args) = [elemStr (.obj pos cls args)] from rfl]
    simp [List.intercalate]
  | .msg pos content => by
    rw [show stmtsOfElem (.msg pos content) = [elemStr (.msg pos content)] from rfl]
    simp [List.intercalate]
  | .floatatom pos width lo hi lp label receive send => by
    rw [show stmtsOfElem (.floatatom pos width lo hi lp label receive send) = [elemStr (.floatatom pos width lo hi lp label receive send)] from rfl]
    simp [List.intercalate]
  | .symbolatom pos width lo hi lp label receive send => by
    rw [show stmtsOfElem (.symbolatom pos width lo hi lp label receive send) = [elemStr (.symbolatom pos width lo hi lp label receive send)] from rfl]
    simp [List.intercalate]
  | .text pos content => by
    rw [show stmtsOfElem (.text pos content) = [elemStr (.text pos content)] from rfl]
    simp [List.intercalate]
  | .array name size dtype save_flag => by
    rw [show stmtsOfElem (.array name size dtype save_flag) = [elemStr (.array name size dtype save_flag)] from rfl]
    simp [List.intercalate]
  | .connect sid oid kid iid => by
    rw [show stmtsOfElem (.connect sid oid kid iid) = [elemStr (.connect sid oid kid iid)] from rfl]
    simp [List.intercalate]
  | .coords xf yf xt yt w ht2 gop hide xm ym => by
    rw [show stmtsOfElem (.coords xf yf xt yt w ht2 gop hide xm ym) = [elemStr (.coords xf yf xt yt w ht2 gop hide xm ym)] from rfl]
    simp [List.intercalate]
  | .bng pos size hold interrupt init2 send receive label lx ly font fs bg fg lc => by
    rw [show stmtsOfElem (.bng pos size hold interrupt init2 send receive label lx ly font fs bg fg lc) = [elemStr (.bng pos size hold interrupt init2 send receive label lx ly font fs bg fg lc)] from rfl]
    simp [List.intercalate]
  | .tgl p1 a1 a2 s1 s2 s3 b1 b2 b3 b4 b5 b6 b7 b8 b9 => by
    rw [show stmtsOfElem (.tgl p1 a1 a2 s1 s2 s3 b1 b2 b3 b4 b5 b6 b7 b8 b9) = [elemStr (.tgl p1 a1 a2 s1 s2 s3 b1 b2 b3 b4 b5 b6 b7 b8 b9)] from rfl]
    simp [List.intercalate]
  | .nbx pos w hh mn mx lf init2 send receive label lx ly font fs bg fg lc iv lh => by
    rw [show stmtsOfElem (.nbx pos w hh mn mx lf init2 send receive label lx ly font fs bg fg lc iv lh) = [elemStr (.nbx pos w hh mn mx lf init2 send receive label lx ly font fs bg fg lc iv lh)] from rfl]
    simp [List.intercalate]
  | .vsl pos w hh mn mx lf init2 send receive label lx ly font fs bg fg lc iv steady => by
    rw [show stmtsOfElem (.vsl pos w hh mn mx lf init2 send receive label lx ly font fs bg fg lc iv steady) = [elemStr (.vsl pos w hh mn mx lf init2 send receive label lx ly font fs bg fg lc iv steady)] from rfl]
    simp [List.intercalate]
  | .hsl pos w hh mn mx lf init2 send receive label lx ly font fs bg fg lc iv steady => by
    rw [show stmtsOfElem (.hsl pos w hh mn mx lf init2 send receive label lx ly font fs bg fg lc iv steady) = [elemStr (.hsl pos w hh mn mx lf init2 send receive label lx ly font fs bg fg lc iv steady)] from rfl]
    simp [List.intercalate]
  | .vradio pos size new_old init2 number send receive label lx ly font fs bg fg lc iv => by
    rw [show stmtsOfElem (.vradio pos size new_old init2 number send receive label lx ly font fs bg fg lc iv) = [elemStr (.vradio pos size new_old init2 number send receive label lx ly font fs bg fg lc iv)] from rfl]
    simp [List.intercalate]
  | .hradio pos size new_old init2 number send receive label lx ly font fs bg fg lc iv => by
    rw [show stmtsOfElem (.hradio pos size new_old init2 number send receive label lx ly font fs bg fg lc iv) = [elemStr (.hradio pos size new_old init2 number send receive label lx ly font fs bg fg lc iv)] from rfl]
    simp [List.intercalate]
  | .cnv pos size w hh send receive label lx ly font fs bg lc => by
    rw [show stmtsOfElem (.cnv pos size w hh send receive label lx ly font fs bg lc) = [elemStr (.cnv pos size w hh send receive label lx ly font fs bg lc)] from rfl]
    simp [List.intercalate]
  | .vu pos w hh receive label lx ly font fs bg lc scale => by
    rw [show stmtsOfElem (.vu pos w hh receive label lx ly font fs bg lc scale) = [elemStr (.vu pos w hh receive label lx ly font fs bg lc scale)] from rfl]
    simp [List.intercalate]
termination_by structural e => e

theorem stmts_flat_list : ∀ (es : List PdElement) (tail : List Str),
    List.intercalate ['\n'] (stmtsOfList es ++ tail) =
    List.intercalate ['\n'] (elemStrList es ++ tail)
  | [], tail => by
    rw [show stmtsOfList [] = [] from rfl, show elemStrList [] = [] from rfl]
  | e :: es, tail => by
    rw [show stmtsOfList (e :: es) = stmtsOfElem e ++ stmtsOfList es from rfl,
      show elemStrList (e :: es) = elemStr e :: elemStrList es from rfl]
    rw [List.append_assoc]
    rw [← intercalate_block ['\n'] (stmtsOfElem e) (stmtsOfElem_ne_nil e)
      (stmtsOfList es ++ tail)]
    rw [elemStr_flat e]
    rw [show (elemStr e :: elemStrList es ++ tail : List Str) =
      elemStr e :: (elemStrList es ++ tail) from rfl]
    exact intercalate_cons_congr _ _ (stmts_flat_list es tail) (by
      simp [List.append_eq_nil, stmtsOfList_eq_nil, elemStrList_eq_nil])
termination_by structural es _t => es

end

theorem serialize_flat (p : PdPatch) :
    serialize p = List.intercalate ['\n'] (canvasLine p.canvas :: stmtsOfList p.elements) := by
  rw [show serialize p =
    List.intercalate ['\n'] (canvasLine p.canvas :: elemStrList p.elements) from rfl]
  refine (intercalate_cons_congr _ _ ?_ ?_).symm
  · have h := stmts_flat_list p.elements []
    simpa using h
  · simp [stmtsOfList_eq_nil, elemStrList_eq_nil]


/-- **C1** (amended): serialize-then-parse is the identity on parser-normal
trees. If a document parses to a tree `T` and `T` is in the serializer's
normal form (`wfPatchB`: tokens escape-clean, contents in token-join normal
form, floats canonical, no GUI-capturing generic object, no toggle element,
every subpatch carrying its restore record, named canvases with font size
10 and unnamed ones with open flag 0), then parsing `serialize T` succeeds
and returns `T` itself. The hypothesis excluding toggles is necessary:
`C1_counterexample_tgl_collapse` exhibits a parsed toggle whose serialized
form reparses as a generic object, so the unconditional claim is false. -/
theorem C1_parse_serialize_roundtrip (s : Str) (T : PdPatch)
    (_h1 : parse s = .ok T) (h2 : wfPatchB T = true) :
    parse (serialize T) = .ok T := by
  obtain ⟨cv, elems⟩ := T
  unfold wfPatchB at h2
  simp only [Bool.and_eq_true] at h2
  obtain ⟨hc, hes⟩ := h2
  have hgood : ∀ st ∈ canvasLine cv :: stmtsOfList elems, GoodStmt st := by
    intro st hst
    rcases List.mem_cons.mp hst with hst | hst
    · rw [hst]
      exact goodStmt_canvasLine cv hc
    · exact stmts_good_list elems hes st hst
  rw [serialize_flat ⟨cv, elems⟩]
  have hnr : '\r' ∉ List.intercalate ['\n'] (canvasLine cv :: stmtsOfList elems) := by
    intro hmem
    rcases mem_intercalate_nl '\r' _ hmem with h | ⟨st, hst, hcin⟩
    · exact absurd h (by decide)
    · obtain ⟨body, hsb, hhead, hnc, hchars⟩ := hgood st hst
      exact (hchars '\r' hcin).2 rfl
  have hpair := doc_no_pair _ hgood
  unfold parse
  rw [preprocess_id _ hnr hpair]
  simp only [split_statements,
    split_doc (canvasLine cv :: stmtsOfList elems) hgood [] (by simp)]
  rw [if_neg (by simp)]
  rw [List.foldlM_cons, step_canvas_root [] [] cv hc, except_bind_ok2,
    replay_list elems hes [] cv [], show ([] : List PdElement) ++ elems = elems from rfl,
    except_bind_ok2]

/-- The roundtrip theorem applied to the one-oscillator patch
`#N canvas 0 50 1000 600 10;\n#X obj 10 20 osc~ 440;`. -/
theorem C1_parse_serialize_roundtrip_witness :
    parse (chars "#N canvas 0 50 1000 600 10;\n#X obj 10 20 osc~ 440;") =
      .ok ⟨⟨0, 50, 1000, 600, 10, none, 0⟩,
        [.obj ⟨10, 20⟩ (chars "osc~") [chars "440"]]⟩ ∧
    wfPatchB ⟨⟨0, 50, 1000, 600, 10, none, 0⟩,
        [.obj ⟨10, 20⟩ (chars "osc~") [chars "440"]]⟩ = true ∧
    parse (serialize ⟨⟨0, 50, 1000, 600, 10, none, 0⟩,
        [.obj ⟨10, 20⟩ (chars "osc~") [chars "440"]]⟩) =
      .ok ⟨⟨0, 50, 1000, 600, 10, none, 0⟩,
        [.obj ⟨10, 20⟩ (chars "osc~") [chars "440"]]⟩ :=
  ⟨rfl, by decide,
    C1_parse_serialize_roundtrip
      (chars "#N canvas 0 50 1000 600 10;\n#X obj 10 20 osc~ 440;")
      ⟨⟨0, 50, 1000, 600, 10, none, 0⟩,
        [.obj ⟨10, 20⟩ (chars "osc~") [chars "440"]]⟩ rfl (by decide)⟩


end Py2Pd
